import Mathlib

/-!
# Library chaincode: a shallow embedding of `library_chaincode.go`

The Go file defines one contract, `SmartContract`, whose methods keep a catalog of `Book`
records in the world state of a Hyperledger Fabric channel.  Every method receives a
transaction context and works on the ledger only through the stub calls `GetState`,
`PutState`, `DelState` and `GetStateByRange`, and on the byte encoding of a `Book` only through
`json.Marshal` and `json.Unmarshal`.

The embedding follows that structure.

* Go values: `string` and `[]byte` are byte sequences (`GoString`, `Bytes`; a nil slice is
  `none`), `float64` is its IEEE 754 bit fields (`Float64`), `error` is the inductive `Error`
  with one constructor per place where the source creates an error.
* The ledger stub is the state `Stub`: the world state as a key-ordered association list, the
  outcomes of the stub calls still to come (so that any call can fail), and the trace of the
  calls made so far.  A method of the contract is a function from a `Stub` to its results and
  the `Stub` it leaves behind.
* The package `encoding/json` is not part of the repository.  It is the parameter `Json`, and
  `GoJson` states the documented behaviour of `json.Marshal` and `json.Unmarshal` on a `Book`
  that the theorems rely on.  `refJson` is an executable codec with that behaviour.
* `goJson` is `encoding/json` at the type `Book`, written out: `json.Marshal` writes the
  object of the six struct tags, with the string escaping of `encoding/json` and the decimal
  text of `strconv` for the `int` and the `float64`; `json.Unmarshal` reads any JSON text into a
  zero `Book`.  The round-trip law of the record encoding is proved for it.
* A sequence of calls of the writing methods is a list of `Op`, run by `runOps`; the stores
  reachable from the empty one are the states of the stubs it returns.
-/

namespace LibraryChaincode

/-! ## Go values -/

/-- Go `string`: a sequence of bytes, which need not be valid UTF-8. -/
abbrev GoString := List UInt8

/-- Contents of a Go `[]byte`; the nil slice is `none : Option Bytes`. -/
abbrev Bytes := List UInt8

/-- Bytes of a string literal of the source file (Go source text is UTF-8). -/
def utf8 (s : String) : GoString := s.data.flatMap String.utf8EncodeChar

/-- Byte-wise lexicographic order on keys, the order of a range scan. -/
def keyLt : GoString → GoString → Bool
  | [], [] => false
  | [], _ :: _ => true
  | _ :: _, [] => false
  | a :: as, b :: bs => a < b || (a == b && keyLt as bs)

/-! ### UTF-8, as `unicode/utf8` decodes it -/

/-- A UTF-8 continuation byte, `0x80..0xBF`. -/
def isCont (b : UInt8) : Bool := 0x80 ≤ b && b ≤ 0xBF

/-- Size of the sequence a first byte announces (`first[b0] & 7` in `unicode/utf8`), `0` for a
byte that cannot start a sequence. -/
def seqSize (b0 : UInt8) : Nat :=
  if b0 < 0x80 then 1
  else if b0 < 0xC2 then 0
  else if b0 < 0xE0 then 2
  else if b0 < 0xF0 then 3
  else if b0 < 0xF5 then 4
  else 0

/-- Least second byte accepted after the first byte `b0` (`acceptRanges` in `unicode/utf8`). -/
def secondLo (b0 : UInt8) : UInt8 := if b0 = 0xE0 then 0xA0 else if b0 = 0xF0 then 0x90 else 0x80

/-- Greatest second byte accepted after the first byte `b0`. -/
def secondHi (b0 : UInt8) : UInt8 := if b0 = 0xED then 0x9F else if b0 = 0xF4 then 0x8F else 0xBF

/-- The bytes after the first byte `b0` are accepted: the second within its range, the later
ones continuation bytes. -/
def contOK (b0 : UInt8) : List UInt8 → Bool
  | [] => true
  | b1 :: more => secondLo b0 ≤ b1 && b1 ≤ secondHi b0 && more.all isCont

/-- Size of the well-formed UTF-8 sequence at the head of `s`, as `utf8.DecodeRune` finds it;
`0` when `DecodeRune` answers `(RuneError, 1)` or `s` is empty. -/
def runeSize : GoString → Nat
  | [] => 0
  | b0 :: rest =>
    if (rest.take (seqSize b0 - 1)).length = seqSize b0 - 1 ∧
        contOK b0 (rest.take (seqSize b0 - 1)) = true then seqSize b0
    else 0

/-- Coercion to valid UTF-8 with `k` bytes of an accepted sequence still to be copied. -/
def toValidUTF8Aux : Nat → GoString → GoString
  | _, [] => []
  | k + 1, b :: rest => b :: toValidUTF8Aux k rest
  | 0, b :: rest =>
    match runeSize (b :: rest) with
    | 0 => 0xEF :: 0xBF :: 0xBD :: toValidUTF8Aux 0 rest
    | n + 1 => b :: toValidUTF8Aux n rest

/-- The string `encoding/json` writes for `s`: every byte that does not start a well-formed
UTF-8 sequence is replaced by U+FFFD (bytes `EF BF BD`), the rest is copied. -/
def toValidUTF8 (s : GoString) : GoString := toValidUTF8Aux 0 s

/-- Well-formed UTF-8 (`utf8.Valid`): the coercion has nothing to replace. -/
def ValidUTF8 (s : GoString) : Prop := toValidUTF8 s = s

instance (s : GoString) : Decidable (ValidUTF8 s) := by
  unfold ValidUTF8; infer_instance

/-! ### `float64` -/

/-- Go `float64`: the three fields of an IEEE 754 binary64. -/
structure Float64 where
  sign : Bool
  exponent : Fin 2048
  fraction : Fin 4503599627370496
  deriving DecidableEq, Repr

/-- Neither `math.IsInf` nor `math.IsNaN`: the exponent field is not all ones. -/
def Float64.isFinite (f : Float64) : Bool := f.exponent.val != 2047

/-- A quiet NaN. -/
def Float64.nan : Float64 := ⟨false, 2047, 2251799813685248⟩

/-- Position of the highest set bit of `n` (`0` for `n < 2`), by halving at most `fuel` times. -/
def bitLog : Nat → Nat → Nat
  | 0, _ => 0
  | fuel + 1, n => if n < 2 then 0 else bitLog fuel (n / 2) + 1

/-- The `float64` of a positive decimal constant `num / den` of the source, rounded to nearest,
ties to even, as the Go compiler converts a constant (for values in the normal range). -/
def Float64.ofRatio (num den : Nat) : Float64 :=
  let ln := bitLog num num
  let ld := bitLog den den
  let n := num * 2 ^ (ld + 53)
  let d0 := den * 2 ^ ln
  let hi := decide (d0 * 2 ^ 53 ≤ n)
  let d := if hi then 2 * d0 else d0
  let m := n / d
  let r := n % d
  let m1 := if d < 2 * r || (2 * r == d && m % 2 == 1) then m + 1 else m
  let carry := decide (m1 = 2 ^ 53)
  let e := ln + 1022 + (if hi then 1 else 0) + (if carry then 1 else 0) - ld
  ⟨false, Fin.ofNat e, Fin.ofNat (if carry then 0 else m1 - 2 ^ 52)⟩

/-! ## The record -/

/-- The struct `Book` of the source. -/
structure Book where
  ID : GoString
  BookName : GoString
  Author : GoString
  Price : Float64
  Number : Int
  Owner : GoString
  deriving DecidableEq, Repr

/-- The book with each string field coerced to valid UTF-8. -/
def Book.toValidUTF8 (b : Book) : Book :=
  { b with
    ID := LibraryChaincode.toValidUTF8 b.ID
    BookName := LibraryChaincode.toValidUTF8 b.BookName
    Author := LibraryChaincode.toValidUTF8 b.Author
    Owner := LibraryChaincode.toValidUTF8 b.Owner }

/-- All four string fields are valid UTF-8. -/
def Book.ValidStrings (b : Book) : Prop :=
  ValidUTF8 b.ID ∧ ValidUTF8 b.BookName ∧ ValidUTF8 b.Author ∧ ValidUTF8 b.Owner

instance (b : Book) : Decidable b.ValidStrings := by
  unfold Book.ValidStrings; infer_instance

/-! ## Errors -/

/-- Go `error` values met by the contract. -/
inductive Error where
  /-- An error returned by a call on the ledger stub. -/
  | stub (code : Nat)
  /-- An error returned by `json.Marshal` or `json.Unmarshal`. -/
  | json (code : Nat)
  /-- The value of `fmt.Errorf("failed to read from world state: %v", err)`. -/
  | readFailed (err : Error)
  /-- The value of `fmt.Errorf("failed to put to world state. %v", err)`. -/
  | putFailed (err : Error)
  /-- The value of `fmt.Errorf("the book %s already exists", id)`. -/
  | alreadyExists (id : GoString)
  /-- The value of `fmt.Errorf("the book %s does not exist", id)`. -/
  | doesNotExist (id : GoString)
  deriving DecidableEq, Repr

deriving instance DecidableEq for Except

/-! ## The ledger stub -/

/-- A call made on the stub (`ctx.GetStub()`) or on the iterator of a range scan. -/
inductive Call where
  | getState (key : GoString)
  | putState (key : GoString) (value : Bytes)
  | delState (key : GoString)
  | getStateByRange (startKey endKey : GoString)
  | next
  | close
  deriving DecidableEq, Repr

/-- The value stored under `key`, `none` (a nil slice) when the key has no value. -/
def lookup (key : GoString) : List (GoString × Bytes) → Option Bytes
  | [] => none
  | (k, v) :: rest => if k = key then some v else lookup key rest

/-- The world state after `value` is put under `key`: the entry takes the place of the old one,
or is added before the first greater key. -/
def insert (key : GoString) (value : Bytes) : List (GoString × Bytes) → List (GoString × Bytes)
  | [] => [(key, value)]
  | (k, v) :: rest =>
    if keyLt key k then (key, value) :: (k, v) :: rest
    else if k = key then (key, value) :: rest
    else (k, v) :: insert key value rest

/-- The world state after `key` is deleted. -/
def erase (key : GoString) : List (GoString × Bytes) → List (GoString × Bytes)
  | [] => []
  | (k, v) :: rest => if k = key then erase key rest else (k, v) :: erase key rest

/-- The ledger behind a transaction context, as the contract can observe it. -/
structure Stub where
  /-- The world state: the keys that have a value, each with its value.  `PutState` keeps the
  list in key order, so a state built by puts from the empty one is scanned in ascending key
  order. -/
  state : List (GoString × Bytes)
  /-- Outcomes of the calls still to come, in order: `none` is success, `some err` is failure
  with `err`; the calls after the end of the list succeed. -/
  faults : List (Option Error)
  /-- The calls made so far, oldest first. -/
  trace : List Call
  deriving DecidableEq, Repr

/-- The empty store on which every call succeeds. -/
def Stub.empty : Stub := ⟨[], [], []⟩

/-- Every store call still to come succeeds. -/
def Stub.Healthy (s : Stub) : Prop := ∀ o ∈ s.faults, o = none

instance (s : Stub) : Decidable s.Healthy := by
  unfold Stub.Healthy; infer_instance

/-- Outcome of the next call. -/
def Stub.outcome (s : Stub) : Option Error := s.faults.headD none

/-- The stub after the call `c` has been answered (the world state not yet changed). -/
def Stub.step (s : Stub) (c : Call) : Stub :=
  { s with faults := s.faults.tail, trace := s.trace ++ [c] }

/-- The call `GetState(key)`: the value of the key, nil when it has none, or an error. -/
def Stub.GetState (s : Stub) (key : GoString) : Except Error (Option Bytes) × Stub :=
  match s.outcome with
  | some err => (.error err, s.step (.getState key))
  | none => (.ok (lookup key s.state), s.step (.getState key))

/-- The call `PutState(key, value)`; a failed put leaves the world state as it was. -/
def Stub.PutState (s : Stub) (key : GoString) (value : Bytes) : Option Error × Stub :=
  match s.outcome with
  | some err => (some err, s.step (.putState key value))
  | none => (none, { s.step (.putState key value) with state := insert key value s.state })

/-- The call `DelState(key)`; a failed delete leaves the world state as it was. -/
def Stub.DelState (s : Stub) (key : GoString) : Option Error × Stub :=
  match s.outcome with
  | some err => (some err, s.step (.delState key))
  | none => (none, { s.step (.delState key) with state := erase key s.state })

/-- The call `GetStateByRange(startKey, endKey)`: the entries with `startKey ≤ key < endKey` in
the order of the world state, an empty bound being no bound; the result stands for the
iterator. -/
def Stub.GetStateByRange (s : Stub) (startKey endKey : GoString) :
    Except Error (List (GoString × Bytes)) × Stub :=
  match s.outcome with
  | some err => (.error err, s.step (.getStateByRange startKey endKey))
  | none =>
    (.ok (s.state.filter fun kv =>
        !keyLt kv.1 startKey && (decide (endKey = []) || keyLt kv.1 endKey)),
      s.step (.getStateByRange startKey endKey))

/-- The call `resultsIterator.Next()` when `entry` is the next entry of the scan. -/
def Stub.Next (s : Stub) (entry : GoString × Bytes) : Except Error (GoString × Bytes) × Stub :=
  match s.outcome with
  | some err => (.error err, s.step .next)
  | none => (.ok entry, s.step .next)

/-- The call `resultsIterator.Close()`, whose result the source ignores. -/
def Stub.Close (s : Stub) : Stub := { s with trace := s.trace ++ [.close] }

/-! ## `encoding/json` -/

/-- The two functions of `encoding/json` the contract calls, at the type `Book`:
`json.Marshal(book)` and `json.Unmarshal(data, &book)` into a zero `Book`. -/
structure Json where
  Marshal : Book → Except Error Bytes
  Unmarshal : Bytes → Except Error Book

/-- Documented behaviour of `encoding/json` on the struct `Book`. -/
structure GoJson (J : Json) : Prop where
  /-- Marshalling succeeds unless the `float64` is an infinity or a NaN. -/
  marshal_finite : ∀ b : Book, b.Price.isFinite = true → ∃ bs, J.Marshal b = .ok bs
  /-- Infinities and NaN are an `UnsupportedValueError`. -/
  marshal_unsupported : ∀ b : Book, b.Price.isFinite = false → ∃ err, J.Marshal b = .error err
  /-- Unmarshalling the output of `Marshal` gives the book back, its strings coerced to valid
  UTF-8 ("String values encode as JSON strings coerced to valid UTF-8, replacing invalid bytes
  with the Unicode replacement rune"); numbers are written so that they read back exactly. -/
  unmarshal_marshal : ∀ (b : Book) (bs : Bytes),
    J.Marshal b = .ok bs → J.Unmarshal bs = .ok b.toValidUTF8
  /-- An unmarshalled book has valid UTF-8 strings and a finite price: the decoder replaces
  invalid bytes too, and a number out of the `float64` range is an error. -/
  unmarshal_valid : ∀ (bs : Bytes) (b : Book),
    J.Unmarshal bs = .ok b → b.ValidStrings ∧ b.Price.isFinite = true

/-! ## The contract -/

/-- The slice `books` of `InitLedger`. -/
def seedBooks : List Book :=
  [ ⟨utf8 "1001", utf8 "西游记", utf8 "吴承恩", Float64.ofRatio 399 10, 30, utf8 "library"⟩,
    ⟨utf8 "1002", utf8 "水浒传", utf8 "施耐庵", Float64.ofRatio 499 10, 20, utf8 "library"⟩,
    ⟨utf8 "1003", utf8 "三国演义", utf8 "罗贯中", Float64.ofRatio 299 10, 10, utf8 "library"⟩,
    ⟨utf8 "1004", utf8 "红楼梦", utf8 "曹雪芹", Float64.ofRatio 450 10, 50, utf8 "library"⟩,
    ⟨utf8 "1005", utf8 "斗罗大陆", utf8 "唐家三少", Float64.ofRatio 899 10, 5, utf8 "library"⟩ ]

/-- The loop of `InitLedger` over the books still to be written. -/
def InitLedgerLoop (J : Json) : List Book → Stub → Option Error × Stub
  | [], ctx => (none, ctx)
  | book :: rest, ctx =>
    match J.Marshal book with
    | .error err => (some err, ctx)
    | .ok bookJSON =>
      match ctx.PutState book.ID bookJSON with
      | (some err, ctx1) => (some (.putFailed err), ctx1)
      | (none, ctx1) => InitLedgerLoop J rest ctx1

/-- The method `InitLedger`. -/
def InitLedger (J : Json) (ctx : Stub) : Option Error × Stub :=
  InitLedgerLoop J seedBooks ctx

/-- The method `BookExists`. -/
def BookExists (ctx : Stub) (id : GoString) : Except Error Bool × Stub :=
  match ctx.GetState id with
  | (.error err, ctx1) => (.error (.readFailed err), ctx1)
  | (.ok bookJSON, ctx1) => (.ok (bookJSON != none), ctx1)

/-- The method `CreateBook`. -/
def CreateBook (J : Json) (ctx : Stub) (id bookName author : GoString) (price : Float64)
    (number : Int) (owner : GoString) : Option Error × Stub :=
  match BookExists ctx id with
  | (.error err, ctx1) => (some err, ctx1)
  | (.ok true, ctx1) => (some (.alreadyExists id), ctx1)
  | (.ok false, ctx1) =>
    match J.Marshal
      { ID := id, BookName := bookName, Author := author,
        Price := price, Number := number, Owner := owner } with
    | .error err => (some err, ctx1)
    | .ok bookJSON => ctx1.PutState id bookJSON

/-- The method `QueryBook`. -/
def QueryBook (J : Json) (ctx : Stub) (id : GoString) : Except Error Book × Stub :=
  match ctx.GetState id with
  | (.error err, ctx1) => (.error (.readFailed err), ctx1)
  | (.ok none, ctx1) => (.error (.doesNotExist id), ctx1)
  | (.ok (some bookJSON), ctx1) =>
    match J.Unmarshal bookJSON with
    | .error err => (.error err, ctx1)
    | .ok book => (.ok book, ctx1)

/-- The method `UpdateBook`. -/
def UpdateBook (J : Json) (ctx : Stub) (id bookName author : GoString) (price : Float64)
    (number : Int) (owner : GoString) : Option Error × Stub :=
  match BookExists ctx id with
  | (.error err, ctx1) => (some err, ctx1)
  | (.ok false, ctx1) => (some (.doesNotExist id), ctx1)
  | (.ok true, ctx1) =>
    match J.Marshal
      { ID := id, BookName := bookName, Author := author,
        Owner := owner, Price := price, Number := number } with
    | .error err => (some err, ctx1)
    | .ok bookJSON => ctx1.PutState id bookJSON

/-- The method `DeleteBook`. -/
def DeleteBook (ctx : Stub) (id : GoString) : Option Error × Stub :=
  match BookExists ctx id with
  | (.error err, ctx1) => (some err, ctx1)
  | (.ok false, ctx1) => (some (.doesNotExist id), ctx1)
  | (.ok true, ctx1) => ctx1.DelState id

/-- The method `TransferBook`. -/
def TransferBook (J : Json) (ctx : Stub) (id newOwner : GoString) : Option Error × Stub :=
  match QueryBook J ctx id with
  | (.error err, ctx1) => (some err, ctx1)
  | (.ok book, ctx1) =>
    match J.Marshal { book with Owner := newOwner } with
    | .error err => (some err, ctx1)
    | .ok bookJSON => ctx1.PutState id bookJSON

/-- The loop of `queryAllBooks` over the entries the iterator still has, `books` being the
slice built so far. -/
def queryAllBooksLoop (J : Json) : List (GoString × Bytes) → Stub → List Book →
    Except Error (List Book) × Stub
  | [], ctx, books => (.ok books, ctx)
  | entry :: rest, ctx, books =>
    match ctx.Next entry with
    | (.error err, ctx1) => (.error err, ctx1)
    | (.ok queryResponse, ctx1) =>
      match J.Unmarshal queryResponse.2 with
      | .error err => (.error err, ctx1)
      | .ok book => queryAllBooksLoop J rest ctx1 (books ++ [book])

/-- The method `queryAllBooks`; the deferred `Close` runs on every return after the iterator
was obtained. -/
def queryAllBooks (J : Json) (ctx : Stub) : Except Error (List Book) × Stub :=
  match ctx.GetStateByRange [] [] with
  | (.error err, ctx1) => (.error err, ctx1)
  | (.ok resultsIterator, ctx1) =>
    match queryAllBooksLoop J resultsIterator ctx1 [] with
    | (result, ctx2) => (result, ctx2.Close)

/-- A read-only call of the contract: `QueryBook(id)` or `BookExists(id)`. -/
inductive ReadCall where
  | query (id : GoString)
  | «exists» (id : GoString)
  deriving DecidableEq, Repr

/-- The stub after a sequence of read-only calls, their results dropped. -/
def runReads (J : Json) : List ReadCall → Stub → Stub
  | [], ctx => ctx
  | .query id :: rest, ctx => runReads J rest (QueryBook J ctx id).2
  | .«exists» id :: rest, ctx => runReads J rest (BookExists ctx id).2

/-- The bytes `json.Marshal` returns for a book (empty when it returns an error). -/
def marshalled (J : Json) (book : Book) : Bytes :=
  match J.Marshal book with
  | .ok bookJSON => bookJSON
  | .error _ => []

/-- The world state after the books are marshalled and put one after the other. -/
def putAll (J : Json) : List Book → List (GoString × Bytes) → List (GoString × Bytes)
  | [], st => st
  | book :: rest, st => putAll J rest (insert book.ID (marshalled J book) st)

/-! ## The scenario of the specification

`InitLedger`, `QueryBook("1001")`, `TransferBook("1001", "Alice")`, `QueryBook("1001")`,
`DeleteBook("1001")`, one call after the other on the same ledger. -/

/-- The stub after `InitLedger`. -/
def afterInit (J : Json) (ctx : Stub) : Stub := (InitLedger J ctx).2

/-- The stub after the first `QueryBook("1001")`. -/
def afterQuery (J : Json) (ctx : Stub) : Stub := (QueryBook J (afterInit J ctx) (utf8 "1001")).2

/-- The stub after `TransferBook("1001", "Alice")`. -/
def afterTransfer (J : Json) (ctx : Stub) : Stub :=
  (TransferBook J (afterQuery J ctx) (utf8 "1001") (utf8 "Alice")).2

/-- The stub after the second `QueryBook("1001")`. -/
def afterRequery (J : Json) (ctx : Stub) : Stub :=
  (QueryBook J (afterTransfer J ctx) (utf8 "1001")).2

/-- The stub after `DeleteBook("1001")`. -/
def afterDelete (J : Json) (ctx : Stub) : Stub := (DeleteBook (afterRequery J ctx) (utf8 "1001")).2

/-! ## A reference codec

`refJson` writes a book as six fields, each a byte string written byte by byte behind a
marker `1` and closed by `0`; a number is the byte string of its sign and base-256 digits.
It does to a `Book` what `GoJson` says of `encoding/json`, and it can be evaluated. -/

/-- A byte string as a field. -/
def encField : Bytes → Bytes
  | [] => [0]
  | b :: rest => 1 :: b :: encField rest

/-- The field at the head of the input and the input behind it. -/
def decField : Bytes → Option (Bytes × Bytes)
  | 0 :: rest => some ([], rest)
  | 1 :: b :: rest =>
    match decField rest with
    | some (s, tl) => some (b :: s, tl)
    | none => none
  | _ => none

/-- Exactly `k` fields. -/
def decFields : Nat → Bytes → Option (List Bytes)
  | 0, [] => some []
  | 0, _ :: _ => none
  | k + 1, bs =>
    match decField bs with
    | none => none
    | some (s, tl) =>
      match decFields k tl with
      | some fs => some (s :: fs)
      | none => none

/-- Base-256 digits of `n`, least significant first (`fuel` bounds their number). -/
def natDigits : Nat → Nat → Bytes
  | 0, _ => []
  | fuel + 1, n => if n = 0 then [] else UInt8.ofNat (n % 256) :: natDigits fuel (n / 256)

/-- The number with the given base-256 digits. -/
def ofDigits : Bytes → Nat
  | [] => 0
  | b :: rest => b.toNat + 256 * ofDigits rest

/-- A `float64` as a byte string: the sign, then the digits of exponent and fraction. -/
def encFloat (f : Float64) : Bytes :=
  (if f.sign then 1 else 0) ::
    natDigits (f.exponent.val * 4503599627370496 + f.fraction.val)
      (f.exponent.val * 4503599627370496 + f.fraction.val)

/-- The finite `float64` of a byte string. -/
def decFloat : Bytes → Option Float64
  | [] => none
  | sg :: ds =>
    if sg ≤ 1 ∧ ofDigits ds / 4503599627370496 < 2047 then
      some ⟨sg == 1, Fin.ofNat (ofDigits ds / 4503599627370496), Fin.ofNat (ofDigits ds)⟩
    else none

/-- An `int` as a byte string: the sign, then the digits of the absolute value. -/
def encInt (n : Int) : Bytes :=
  (if n < 0 then 1 else 0) :: natDigits n.natAbs n.natAbs

/-- The `int` of a byte string. -/
def decInt : Bytes → Option Int
  | [] => none
  | sg :: ds => if sg = 0 then some (ofDigits ds) else if sg = 1 then some (-(ofDigits ds : Int))
    else none

/-- The reference `Marshal`. -/
def refMarshal (b : Book) : Except Error Bytes :=
  if b.Price.isFinite then
    .ok (encField (toValidUTF8 b.ID) ++ encField (toValidUTF8 b.BookName) ++
      encField (toValidUTF8 b.Author) ++ encField (encFloat b.Price) ++
      encField (encInt b.Number) ++ encField (toValidUTF8 b.Owner))
  else .error (.json 1)

/-- The reference `Unmarshal`. -/
def refUnmarshal (bs : Bytes) : Except Error Book :=
  match decFields 6 bs with
  | some [id, bookName, author, price, number, owner] =>
    match decFloat price, decInt number with
    | some p, some n =>
      .ok ⟨toValidUTF8 id, toValidUTF8 bookName, toValidUTF8 author, p, n, toValidUTF8 owner⟩
    | _, _ => .error (.json 2)
  | _ => .error (.json 2)

/-- The reference codec. -/
def refJson : Json := ⟨refMarshal, refUnmarshal⟩

/-! ## Sign of a `float64` -/

/-- The operator `-` on a `float64`. -/
def Float64.neg (f : Float64) : Float64 := { f with sign := !f.sign }

/-- The predicate `math.IsNaN`. -/
def Float64.isNaN (f : Float64) : Bool := f.exponent.val == 2047 && f.fraction.val != 0

/-- The comparison `f >= 0`: false for a NaN, true for both zeros and for the positive
numbers. -/
def Float64.geZero (f : Float64) : Bool :=
  !f.isNaN && (!f.sign || (f.exponent.val == 0 && f.fraction.val == 0))

/-! ## Sequences of calls -/

/-- A call of one of the five methods that write to the ledger. -/
inductive Op where
  | initLedger
  | createBook (id bookName author : GoString) (price : Float64) (number : Int)
      (owner : GoString)
  | updateBook (id bookName author : GoString) (price : Float64) (number : Int)
      (owner : GoString)
  | transferBook (id newOwner : GoString)
  | deleteBook (id : GoString)
  deriving DecidableEq, Repr

/-- The stub after the call, whatever the call returned. -/
def Op.run (J : Json) (ctx : Stub) : Op → Stub
  | .initLedger => (InitLedger J ctx).2
  | .createBook id bookName author price number owner =>
    (CreateBook J ctx id bookName author price number owner).2
  | .updateBook id bookName author price number owner =>
    (UpdateBook J ctx id bookName author price number owner).2
  | .transferBook id newOwner => (TransferBook J ctx id newOwner).2
  | .deleteBook id => (DeleteBook ctx id).2

/-- The stub after the calls, one after the other. -/
def runOps (J : Json) : List Op → Stub → Stub
  | [], ctx => ctx
  | op :: rest, ctx => runOps J rest (op.run J ctx)

/-- The composition `decode(encode(r))`: `json.Unmarshal` of what `json.Marshal` returns. -/
def roundTrip (J : Json) (r : Book) : Except Error Book :=
  match J.Marshal r with
  | .error err => .error err
  | .ok bookJSON => J.Unmarshal bookJSON

/-- The value and the quantity a call passes to be stored satisfy `Q`; `InitLedger`,
`TransferBook` and `DeleteBook` pass none. -/
def Op.ArgsSatisfy (Q : Float64 → Int → Prop) : Op → Prop
  | .createBook _ _ _ price number _ => Q price number
  | .updateBook _ _ _ price number _ => Q price number
  | _ => True

/-- Every value of the world state is the encoding of a book whose id is the key, up to the
coercion of both to valid UTF-8, and whose price and number satisfy `Q`. -/
def Encodes (J : Json) (Q : Float64 → Int → Prop) (st : List (GoString × Bytes)) : Prop :=
  ∀ kv ∈ st, ∃ b : Book, J.Marshal b = .ok kv.2 ∧ toValidUTF8 b.ID = toValidUTF8 kv.1 ∧
    Q b.Price b.Number

/-- The value and the quantity a call passes to be stored are not negative. -/
def Op.NonNegArgs (op : Op) : Prop :=
  op.ArgsSatisfy fun price number => price.geZero = true ∧ 0 ≤ number

/-- One of the store calls made between the stub `before` and the stub `after` failed. -/
def callFailed (before after : Stub) : Prop :=
  ∃ o ∈ before.faults.take (after.trace.length - before.trace.length), o ≠ none

instance (before after : Stub) : Decidable (callFailed before after) := by
  unfold callFailed; infer_instance

/-- The keys of a world state are strictly ascending, as `PutState` keeps them. -/
def SortedKeys (st : List (GoString × Bytes)) : Prop :=
  st.Pairwise fun a b => keyLt a.1 b.1 = true

instance (st : List (GoString × Bytes)) : Decidable (SortedKeys st) := by
  unfold SortedKeys; infer_instance

/-! ## `encoding/json` on a `Book`: strings

The text `json.Marshal` writes for a Go string, and the string `json.Unmarshal` reads from
such a text. -/

/-- The lower-case hexadecimal digit of `n < 16`. -/
def hexDigit (n : Nat) : UInt8 :=
  if n < 10 then UInt8.ofNat (0x30 + n) else UInt8.ofNat (0x61 + (n - 10))

/-- The table `htmlSafeSet` of `encoding/json`: the ASCII bytes written as they are. -/
def htmlSafe (b : UInt8) : Bool :=
  0x20 ≤ b && b < 0x80 && b != 0x22 && b != 0x5C && b != 0x3C && b != 0x3E && b != 0x26

/-- What `appendString` writes for an ASCII byte: the byte, a two-character escape, or
`\u00XX` (since Go 1.22 backspace and form feed have the two-character escapes, before they
were written `\u0008` and `\u000c`; the decoder reads both forms as the same byte). -/
def escapeASCII (b : UInt8) : Bytes :=
  if htmlSafe b then [b]
  else if b = 0x5C ∨ b = 0x22 then [0x5C, b]
  else if b = 0x08 then [0x5C, 0x62]
  else if b = 0x0C then [0x5C, 0x66]
  else if b = 0x0A then [0x5C, 0x6E]
  else if b = 0x0D then [0x5C, 0x72]
  else if b = 0x09 then [0x5C, 0x74]
  else [0x5C, 0x75, 0x30, 0x30, hexDigit (b.toNat / 16), hexDigit (b.toNat % 16)]

/-- The body of `appendString` with `escapeHTML` set, `k` bytes of a well-formed UTF-8
sequence still to be passed, copied or (after U+2028 and U+2029, written as an escape)
skipped: ASCII bytes by `escapeASCII`, a byte that starts no well-formed sequence as the
escape of U+FFFD, other sequences as they are. -/
def escapeAux : Bool → Nat → GoString → Bytes
  | _, _, [] => []
  | skip, k + 1, b :: rest => if skip then escapeAux skip k rest else b :: escapeAux skip k rest
  | _, 0, b :: rest =>
    if b < 0x80 then escapeASCII b ++ escapeAux false 0 rest
    else
      match runeSize (b :: rest) with
      | 0 => [0x5C, 0x75, 0x66, 0x66, 0x66, 0x64] ++ escapeAux false 0 rest
      | n + 1 =>
        if b :: rest.take 2 = [0xE2, 0x80, 0xA8] then
          [0x5C, 0x75, 0x32, 0x30, 0x32, 0x38] ++ escapeAux true n rest
        else if b :: rest.take 2 = [0xE2, 0x80, 0xA9] then
          [0x5C, 0x75, 0x32, 0x30, 0x32, 0x39] ++ escapeAux true n rest
        else b :: escapeAux false n rest

/-- The JSON string `json.Marshal` writes for a Go string. -/
def quote (s : GoString) : Bytes := 0x22 :: (escapeAux false 0 s ++ [0x22])

/-- The value of a hexadecimal digit. -/
def hexVal (b : UInt8) : Option Nat :=
  if 0x30 ≤ b ∧ b ≤ 0x39 then some (b.toNat - 0x30)
  else if 0x61 ≤ b ∧ b ≤ 0x66 then some (b.toNat - 0x61 + 10)
  else if 0x41 ≤ b ∧ b ≤ 0x46 then some (b.toNat - 0x41 + 10)
  else none

/-- The number written by four hexadecimal digits (`getu4`). -/
def hex4 (h1 h2 h3 h4 : UInt8) : Option Nat :=
  match hexVal h1, hexVal h2, hexVal h3, hexVal h4 with
  | some a, some b, some c, some d => some (((a * 16 + b) * 16 + c) * 16 + d)
  | _, _, _, _ => none

/-- The UTF-8 encoding of a code point (`utf8.EncodeRune`). -/
def encodeRune (c : Nat) : Bytes :=
  if c < 0x80 then [UInt8.ofNat c]
  else if c < 0x800 then [UInt8.ofNat (0xC0 + c / 64), UInt8.ofNat (0x80 + c % 64)]
  else if c < 0x10000 then
    [UInt8.ofNat (0xE0 + c / 4096), UInt8.ofNat (0x80 + c / 64 % 64), UInt8.ofNat (0x80 + c % 64)]
  else
    [UInt8.ofNat (0xF0 + c / 262144), UInt8.ofNat (0x80 + c / 4096 % 64),
      UInt8.ofNat (0x80 + c / 64 % 64), UInt8.ofNat (0x80 + c % 64)]

/-- The character a two-character escape stands for. -/
def simpleEscape (e : UInt8) : Option UInt8 :=
  if e = 0x22 ∨ e = 0x5C ∨ e = 0x2F then some e
  else if e = 0x62 then some 0x08
  else if e = 0x66 then some 0x0C
  else if e = 0x6E then some 0x0A
  else if e = 0x72 then some 0x0D
  else if e = 0x74 then some 0x09
  else none

/-- The bytes put in front of the string of a scan result. -/
def consTo (pre : Bytes) : Option (GoString × Bytes) → Option (GoString × Bytes)
  | some (s, rest) => some (pre ++ s, rest)
  | none => none

/-- The low surrogate written as `\uXXXX` at the head of the input, with the input behind
it. -/
def lowSurrogate : Bytes → Option (Nat × Bytes)
  | b0 :: b1 :: g1 :: g2 :: g3 :: g4 :: rest =>
    if b0 = 0x5C ∧ b1 = 0x75 then
      match hex4 g1 g2 g3 g4 with
      | some c2 => if 0xDC00 ≤ c2 ∧ c2 < 0xE000 then some (c2, rest) else none
      | none => none
    else none
  | _ => none

/-- The string literal whose opening quote was read, up to its closing quote: the scanner of
`encoding/json` and `unquote` in one, `k` bytes of an accepted UTF-8 sequence still to be
copied.  A control character, an unknown escape or the end of the input before the closing
quote is a syntax error; a byte that starts no well-formed UTF-8 sequence and a surrogate
without its partner are read as U+FFFD. -/
def scanStr : Nat → Nat → Bytes → Option (GoString × Bytes)
  | 0, _, _ => none
  | _ + 1, _, [] => none
  | fuel + 1, k + 1, b :: rest => consTo [b] (scanStr fuel k rest)
  | fuel + 1, 0, b :: rest =>
    if b = 0x22 then some ([], rest)
    else if b = 0x5C then
      match rest with
      | [] => none
      | e :: rest1 =>
        if e = 0x75 then
          match rest1 with
          | h1 :: h2 :: h3 :: h4 :: rest2 =>
            match hex4 h1 h2 h3 h4 with
            | none => none
            | some c =>
              if 0xD800 ≤ c ∧ c < 0xE000 then
                match (if c < 0xDC00 then lowSurrogate rest2 else none) with
                | some (c2, rest3) =>
                  consTo (encodeRune (0x10000 + (c - 0xD800) * 1024 + (c2 - 0xDC00)))
                    (scanStr fuel 0 rest3)
                | none => consTo [0xEF, 0xBF, 0xBD] (scanStr fuel 0 rest2)
              else consTo (encodeRune c) (scanStr fuel 0 rest2)
          | _ => none
        else
          match simpleEscape e with
          | some c => consTo [c] (scanStr fuel 0 rest1)
          | none => none
    else if b < 0x20 then none
    else if b < 0x80 then consTo [b] (scanStr fuel 0 rest)
    else
      match runeSize (b :: rest) with
      | 0 => consTo [0xEF, 0xBF, 0xBD] (scanStr fuel 0 rest)
      | n + 1 => consTo [b] (scanStr fuel n rest)

/-! ## `encoding/json` on a `Book`: numbers

`strconv` writes an `int` in decimal and a `float64` with the fewest digits that
`strconv.ParseFloat` reads back as the same `float64`; `ParseFloat` rounds the decimal it
reads to the nearest `float64`, ties to even. -/

/-- An ASCII decimal digit. -/
def isDigit (b : UInt8) : Bool := 0x30 ≤ b && b ≤ 0x39

/-- The ASCII digit of `d < 10`. -/
def digitChar (d : Nat) : UInt8 := UInt8.ofNat (0x30 + d)

/-- The decimal digits of `n`, least significant first, none for `0` (`fuel` bounds their
number). -/
def digitsRev : Nat → Nat → List Nat
  | 0, _ => []
  | fuel + 1, n => if n = 0 then [] else n % 10 :: digitsRev fuel (n / 10)

/-- The decimal text of a natural number (`strconv.FormatUint(n, 10)`). -/
def decimal (n : Nat) : Bytes :=
  if n = 0 then [0x30] else ((digitsRev n n).reverse).map digitChar

/-- The number a string of decimal digits writes. -/
def ofDecimal (ds : Bytes) : Nat := ds.foldl (fun acc b => 10 * acc + (b.toNat - 0x30)) 0

/-- The decimal text of an `int` (`strconv.AppendInt(b, n, 10)`). -/
def formatInt (n : Int) : Bytes := (if n < 0 then [0x2D] else []) ++ decimal n.natAbs

/-- The bits of a `float64` below the sign bit: exponent field and fraction field. -/
def Float64.magnitude (f : Float64) : Nat := f.exponent.val * 2 ^ 52 + f.fraction.val

/-- The `float64` with the given sign and the given bits below the sign bit
(`math.Float64frombits`). -/
def Float64.ofMagnitude (sign : Bool) (n : Nat) : Float64 :=
  ⟨sign, Fin.ofNat (n / 2 ^ 52), Fin.ofNat (n % 2 ^ 52)⟩

/-- The absolute value of the finite `float64` with the bits `n` below the sign bit, as a
multiple of `2 ^ (-1074)`: the fraction for a subnormal, `(2 ^ 52 + fraction) * 2 ^ (e - 1)`
for the exponent field `e > 0`. -/
def mag (n : Nat) : Nat :=
  if n / 2 ^ 52 = 0 then n % 2 ^ 52 else (2 ^ 52 + n % 2 ^ 52) * 2 ^ (n / 2 ^ 52 - 1)

/-- The bits of positive infinity, `0x7FF0000000000000`. -/
def infBits : Nat := 2047 * 2 ^ 52

/-- The greatest `acc + m` with `m < 2 ^ bits` and `P (acc + m)`, by bisection (for a `P`
that holds up to some number and fails beyond it). -/
def bisect (P : Nat → Bool) : Nat → Nat → Nat
  | 0, acc => acc
  | b + 1, acc => if P (acc + 2 ^ b) then bisect P b (acc + 2 ^ b) else bisect P b acc

/-- The bits of the greatest `float64` not above `num / den`, infinity included. -/
def floorBits (num den : Nat) : Nat :=
  bisect (fun n => decide (n ≤ infBits ∧ mag n * den ≤ num * 2 ^ 1074)) 63 0

/-- The bits of the `float64` nearest to `num / den ≥ 0`, ties to the even fraction; the
bits of infinity or more when `num / den` rounds beyond the largest finite `float64`. -/
def roundBits (num den : Nat) : Nat :=
  let lo := floorBits num den
  if 2 * (num * 2 ^ 1074) < (mag lo + mag (lo + 1)) * den then lo
  else if (mag lo + mag (lo + 1)) * den < 2 * (num * 2 ^ 1074) then lo + 1
  else if lo % 2 = 0 then lo else lo + 1

/-- The decimal `c * 10 ^ (-j)` reads back as the `float64` with the bits `n`. -/
def readsBack (n c : Nat) (j : Int) : Bool :=
  roundBits (c * 10 ^ (-j).toNat) (10 ^ j.toNat) == n

/-- The decimal `c * 10 ^ (-j)` that `strconv.FormatFloat(f, fmt, -1, 64)` writes for the
positive finite `float64` with the bits `n`: "the smallest number of digits necessary such
that `ParseFloat` will return `f` exactly".  The numbers of decimal places
`j = 1074 - fuel, 1075 - fuel, ...` are tried in turn; at each, the candidates are the value
cut after `j` places and that plus one unit of the last place; the first `j` at which one of
them reads back as `n` is taken, and of two that read back the nearer one, the even one when
they are equally near.  With `1074` places the value is written exactly. -/
def shortest (n : Nat) : Nat → Nat × Int
  | 0 => (mag n * 5 ^ 1074, 1074)
  | fuel + 1 =>
    let j : Int := 1074 - ((fuel + 1 : Nat) : Int)
    let lo := mag n * 10 ^ j.toNat / (2 ^ 1074 * 10 ^ (-j).toNat)
    if readsBack n lo j && readsBack n (lo + 1) j then
      if 2 * (mag n * 10 ^ j.toNat) < (2 * lo + 1) * (2 ^ 1074 * 10 ^ (-j).toNat) then (lo, j)
      else if (2 * lo + 1) * (2 ^ 1074 * 10 ^ (-j).toNat) < 2 * (mag n * 10 ^ j.toNat) then
        (lo + 1, j)
      else if lo % 2 = 0 then (lo, j) else (lo + 1, j)
    else if readsBack n lo j then (lo, j)
    else if readsBack n (lo + 1) j then (lo + 1, j)
    else shortest n fuel

/-- Where the search of `shortest` starts: as many places before the decimal point as the
integer part of the value has digits, so that one unit of the first place tried is more than
the value (and one unit of any place before it more than ten times the value, which does not
read back as the value). -/
def shortestFuel (n : Nat) : Nat := 1074 + (decimal (mag n / 2 ^ 1074)).length

/-- A digit string without its trailing zeros. -/
def stripZeros (ds : Bytes) : Bytes := (ds.reverse.dropWhile (fun b => b == 0x30)).reverse

/-- The format `%e` of `strconv` for the digits `ds` and the decimal point position `dp`
(the value is `0.ds * 10 ^ dp`), all digits written, with the exponent as `encoding/json`
leaves it: `strconv` writes at least two exponent digits and the encoder removes the zero of
`e-07`, so the exponent has no leading zero. -/
def fmtE (ds : Bytes) (dp : Int) : Bytes :=
  ds.take 1 ++ (if 1 < ds.length then 0x2E :: ds.drop 1 else []) ++
    [0x65, if dp - 1 < 0 then 0x2D else 0x2B] ++ decimal (dp - 1).natAbs

/-- The format `%f` of `strconv` for the digits `ds` and the decimal point position `dp`, all
digits written. -/
def fmtF (ds : Bytes) (dp : Int) : Bytes :=
  (if 0 < dp then ds.take dp.toNat ++ List.replicate (dp.toNat - ds.length) 0x30 else [0x30]) ++
    (if dp < ds.length then 0x2E :: (List.replicate (-dp).toNat 0x30 ++ ds.drop dp.toNat)
     else [])

/-- The text `encoding/json` writes for a finite `float64` (`floatEncoder`): the sign, then
`0` for a zero, else the digits of `shortest` without their trailing zeros, in the format
`%e` when the absolute value is below `1e-6` or at least `1e21` (compared as `float64`), else
in the format `%f`. -/
def formatFloat (f : Float64) : Bytes :=
  (if f.sign then [0x2D] else []) ++
    if f.magnitude = 0 then [0x30]
    else
      let cj := shortest f.magnitude (shortestFuel f.magnitude)
      let ds := stripZeros (decimal cj.1)
      let dp : Int := ((decimal cj.1).length : Int) - cj.2
      if f.magnitude < roundBits 1 1000000 ∨ roundBits (10 ^ 21) 1 ≤ f.magnitude then fmtE ds dp
      else fmtF ds dp

/-- A JSON number literal: sign, integer digits, fraction digits (none without a decimal
point), sign and digits of the exponent (none without an exponent). -/
structure Number where
  neg : Bool
  int : Bytes
  frac : Bytes
  expNeg : Bool
  exp : Bytes
  deriving DecidableEq, Repr

/-- The digits at the head of the input, and the input behind them. -/
def scanDigits : Bytes → Bytes × Bytes
  | [] => ([], [])
  | b :: rest => if isDigit b then ((b :: (scanDigits rest).1), (scanDigits rest).2)
    else ([], b :: rest)

/-- The exponent part of a number, if there is one. -/
def scanExp (neg : Bool) (int frac : Bytes) (input : Bytes) : Option (Number × Bytes) :=
  match input with
  | e :: rest =>
    if e = 0x65 ∨ e = 0x45 then
      match rest with
      | s :: rest1 =>
        if s = 0x2B ∨ s = 0x2D then
          if (scanDigits rest1).1 = [] then none
          else some (⟨neg, int, frac, s == 0x2D, (scanDigits rest1).1⟩, (scanDigits rest1).2)
        else if (scanDigits rest).1 = [] then none
        else some (⟨neg, int, frac, false, (scanDigits rest).1⟩, (scanDigits rest).2)
      | [] => none
    else some (⟨neg, int, frac, false, []⟩, input)
  | [] => some (⟨neg, int, frac, false, []⟩, input)

/-- The fraction part of a number, if there is one, and what follows it. -/
def scanFrac (neg : Bool) (int : Bytes) (input : Bytes) : Option (Number × Bytes) :=
  match input with
  | p :: rest =>
    if p = 0x2E then
      if (scanDigits rest).1 = [] then none
      else scanExp neg int (scanDigits rest).1 (scanDigits rest).2
    else scanExp neg int [] input
  | [] => scanExp neg int [] input

/-- The integer part of a number and what follows it: a single `0`, or digits that do not
start with `0`. -/
def scanInt (neg : Bool) (input : Bytes) : Option (Number × Bytes) :=
  match input with
  | d :: rest =>
    if d = 0x30 then scanFrac neg [0x30] rest
    else if isDigit d then scanFrac neg (d :: (scanDigits rest).1) (scanDigits rest).2
    else none
  | [] => none

/-- The number literal at the head of the input, by the grammar of JSON, and the input behind
it. -/
def scanNumber (input : Bytes) : Option (Number × Bytes) :=
  match input with
  | s :: rest => if s = 0x2D then scanInt true rest else scanInt false input
  | [] => none

/-- The `int` of a number literal (`strconv.ParseInt(s, 10, 64)`): none for a literal with a
fraction or an exponent, and none outside the range of `int64`. -/
def Number.toInt (t : Number) : Option Int :=
  if t.frac = [] ∧ t.exp = [] then
    let v : Int := if t.neg then -(ofDecimal t.int : Int) else (ofDecimal t.int : Int)
    if -9223372036854775808 ≤ v ∧ v ≤ 9223372036854775807 then some v else none
  else none

/-- The power of ten a number literal multiplies its digits by: its exponent less the number
of its fraction digits. -/
def Number.scale (t : Number) : Int :=
  (if t.expNeg then -(ofDecimal t.exp : Int) else (ofDecimal t.exp : Int)) - (t.frac.length : Int)

/-- The `float64` of a number literal (`strconv.ParseFloat(s, 64)`): the nearest one, none
when that is an infinity. -/
def Number.toFloat (t : Number) : Option Float64 :=
  let bits := roundBits (ofDecimal (t.int ++ t.frac) * 10 ^ t.scale.toNat) (10 ^ (-t.scale).toNat)
  if bits < infBits then some (Float64.ofMagnitude t.neg bits) else none

/-- The text of a number literal: sign, integer digits, fraction behind a decimal point,
exponent behind an `e` and its sign. -/
def Number.text (t : Number) : Bytes :=
  (if t.neg then [0x2D] else []) ++ (t.int ++
    ((if t.frac = [] then [] else 0x2E :: t.frac) ++
      (if t.exp = [] then [] else 0x65 :: (if t.expNeg then 0x2D else 0x2B) :: t.exp)))

/-- The parts of a number literal are as the grammar of JSON has them: the integer part is `0`
or digits that do not start with `0`, fraction and exponent are digits. -/
def Number.WellFormed (t : Number) : Prop :=
  (t.int = [0x30] ∨ ∃ d ds, t.int = d :: ds ∧ d ≠ 0x30 ∧ ∀ b ∈ d :: ds, isDigit b = true) ∧
  (∀ b ∈ t.frac, isDigit b = true) ∧ (∀ b ∈ t.exp, isDigit b = true) ∧
  (t.exp = [] → t.expNeg = false)

/-! ## `encoding/json` on a `Book`: the text

`goJson` is `json.Marshal` and `json.Unmarshal` at the type `Book`.  `Marshal` writes the
object of the six fields under the names of their struct tags.  `Unmarshal` accepts any JSON
text: it fails with a syntax error on a text that is not one JSON value, stores the members of
an object whose names match a tag (case-insensitively) into a zero `Book`, later members over
earlier ones, skips the other members, and fails with a type error when a value does not fit
the Go type of its field. -/

/-- The fields of `Book`. -/
inductive Field where
  | ID | BookName | Author | Price | Number | Owner
  deriving DecidableEq, Repr

/-- The struct tags of `Book`: the JSON name of each field, in the order of the struct. -/
def fieldNames : List (GoString × Field) :=
  [(utf8 "ID", .ID), (utf8 "bookName", .BookName), (utf8 "author", .Author),
    (utf8 "price", .Price), (utf8 "number", .Number), (utf8 "owner", .Owner)]

/-- The zero value of `Book`, which `var book Book` declares. -/
def Book.zero : Book := ⟨[], [], [], ⟨false, 0, 0⟩, 0, []⟩

/-- The text `json.Marshal` returns for a `Book`; an `UnsupportedValueError` when the price is
an infinity or a NaN. -/
def goMarshal (b : Book) : Except Error Bytes :=
  if b.Price.isFinite then
    .ok (0x7B :: (quote (utf8 "ID") ++ 0x3A :: (quote b.ID ++
      0x2C :: (quote (utf8 "bookName") ++ 0x3A :: (quote b.BookName ++
      0x2C :: (quote (utf8 "author") ++ 0x3A :: (quote b.Author ++
      0x2C :: (quote (utf8 "price") ++ 0x3A :: (formatFloat b.Price ++
      0x2C :: (quote (utf8 "number") ++ 0x3A :: (formatInt b.Number ++
      0x2C :: (quote (utf8 "owner") ++ 0x3A :: (quote b.Owner ++ [0x7D])))))))))))))
  else .error (.json 1)

/-- JSON white space: space, tab, carriage return, line feed. -/
def isSpace (b : UInt8) : Bool := b == 0x20 || b == 0x09 || b == 0x0D || b == 0x0A

/-- The input behind its leading white space. -/
def skipSpace : Bytes → Bytes
  | [] => []
  | b :: rest => if isSpace b then skipSpace rest else b :: rest

/-- The input behind the literal `lit`, if it starts with it. -/
def scanLiteral (lit input : Bytes) : Option Bytes :=
  if input.take lit.length = lit then some (input.drop lit.length) else none

/-- What the scanner of `encoding/json` expects next. -/
inductive Expect where
  /-- A value. -/
  | value
  /-- The name of a member. -/
  | key
  /-- What follows a value: a comma, or the end of the array or object it is in. -/
  | close
  deriving DecidableEq, Repr

/-- The input behind one JSON value, if the input starts with one: the scanner of
`encoding/json`.  `stack` lists the arrays (`false`) and objects (`true`) that are open inside
the value, the innermost first, `outer` counts the ones around it; more than `10000` in all
are an error. -/
def skipJson (outer : Nat) : Nat → Expect → List Bool → Bytes → Option Bytes
  | 0, _, _, _ => none
  | fuel + 1, .value, stack, input =>
    match skipSpace input with
    | [] => none
    | c :: rest =>
      if c = 0x22 then
        match scanStr (rest.length + 1) 0 rest with
        | some (_, rest1) => skipJson outer fuel .close stack rest1
        | none => none
      else if c = 0x7B then
        if 10000 < outer + stack.length + 1 then none
        else
          match skipSpace rest with
          | d :: rest1 =>
            if d = 0x7D then skipJson outer fuel .close stack rest1
            else skipJson outer fuel .key (true :: stack) rest
          | [] => none
      else if c = 0x5B then
        if 10000 < outer + stack.length + 1 then none
        else
          match skipSpace rest with
          | d :: rest1 =>
            if d = 0x5D then skipJson outer fuel .close stack rest1
            else skipJson outer fuel .value (false :: stack) rest
          | [] => none
      else if c = 0x2D ∨ isDigit c then
        match scanNumber (c :: rest) with
        | some (_, rest1) => skipJson outer fuel .close stack rest1
        | none => none
      else
        match (if c = 0x74 then scanLiteral (utf8 "true") (c :: rest)
          else if c = 0x66 then scanLiteral (utf8 "false") (c :: rest)
          else if c = 0x6E then scanLiteral (utf8 "null") (c :: rest)
          else none) with
        | some rest1 => skipJson outer fuel .close stack rest1
        | none => none
  | fuel + 1, .key, stack, input =>
    match skipSpace input with
    | [] => none
    | c :: rest =>
      if c = 0x22 then
        match scanStr (rest.length + 1) 0 rest with
        | some (_, rest1) =>
          match skipSpace rest1 with
          | d :: rest2 => if d = 0x3A then skipJson outer fuel .value stack rest2 else none
          | [] => none
        | none => none
      else none
  | fuel + 1, .close, stack, input =>
    match stack with
    | [] => some input
    | inObject :: up =>
      match skipSpace input with
      | [] => none
      | c :: rest =>
        if c = 0x2C then skipJson outer fuel (if inObject then .key else .value) stack rest
        else if c = (if inObject then 0x7D else 0x5D) then skipJson outer fuel .close up rest
        else none

/-- The name of a member as `foldName` of `encoding/json` compares it: letters `a` to `z` in
upper case, the Kelvin sign U+212A as `K` and the long s U+017F as `S` (the only characters
outside ASCII whose case folding is an ASCII letter), a byte that starts no well-formed
sequence as U+FFFD; `k` bytes of a sequence still to be passed, copied or skipped. -/
def foldNameAux : Bool → Nat → GoString → GoString
  | _, _, [] => []
  | skip, k + 1, b :: rest =>
    if skip then foldNameAux skip k rest else b :: foldNameAux skip k rest
  | _, 0, b :: rest =>
    if b < 0x80 then (if 0x61 ≤ b ∧ b ≤ 0x7A then b - 0x20 else b) :: foldNameAux false 0 rest
    else
      match runeSize (b :: rest) with
      | 0 => 0xEF :: 0xBF :: 0xBD :: foldNameAux false 0 rest
      | n + 1 =>
        if b :: rest.take 2 = [0xE2, 0x84, 0xAA] then 0x4B :: foldNameAux true n rest
        else if b :: rest.take 1 = [0xC5, 0xBF] then 0x53 :: foldNameAux true n rest
        else b :: foldNameAux false n rest

/-- The folded name of a member. -/
def foldName (s : GoString) : GoString := foldNameAux false 0 s

/-- The field a member name stands for: the one with that tag or, when there is none, the
first one whose tag is the same up to case. -/
def fieldOf (key : GoString) : Option Field :=
  match fieldNames.find? (fun p => p.1 == key) with
  | some p => some p.2
  | none => (fieldNames.find? (fun p => foldName p.1 == foldName key)).map (fun p => p.2)

/-- A JSON string stored into a field: a type error (the flag) for the two numbers. -/
def storeString (field : Option Field) (s : GoString) (acc : Book × Bool) : Book × Bool :=
  match field with
  | some .ID => ({ acc.1 with ID := s }, acc.2)
  | some .BookName => ({ acc.1 with BookName := s }, acc.2)
  | some .Author => ({ acc.1 with Author := s }, acc.2)
  | some .Owner => ({ acc.1 with Owner := s }, acc.2)
  | some .Price => (acc.1, true)
  | some .Number => (acc.1, true)
  | none => acc

/-- A JSON number stored into a field: a type error for the four strings, for a price out of
the range of `float64` and for a number that is not an `int`. -/
def storeNumber (field : Option Field) (t : Number) (acc : Book × Bool) : Book × Bool :=
  match field with
  | some .Price =>
    match t.toFloat with
    | some p => ({ acc.1 with Price := p }, acc.2)
    | none => (acc.1, true)
  | some .Number =>
    match t.toInt with
    | some n => ({ acc.1 with Number := n }, acc.2)
    | none => (acc.1, true)
  | some _ => (acc.1, true)
  | none => acc

/-- A value that fits no field of `Book` (`true`, `false`, an array, an object): a type error
unless the member is skipped. -/
def storeOther (field : Option Field) (acc : Book × Bool) : Book × Bool :=
  match field with
  | some _ => (acc.1, true)
  | none => acc

/-- The value of a member of the top-level object, stored into `field`, and the input behind
it; `null` leaves the field as it is.  None on a syntax error. -/
def decodeValue (field : Option Field) (acc : Book × Bool) (input : Bytes) :
    Option ((Book × Bool) × Bytes) :=
  match input with
  | [] => none
  | c :: rest =>
    if c = 0x22 then
      match scanStr (rest.length + 1) 0 rest with
      | some (s, rest1) => some (storeString field s acc, rest1)
      | none => none
    else if c = 0x2D ∨ isDigit c then
      match scanNumber input with
      | some (t, rest1) => some (storeNumber field t acc, rest1)
      | none => none
    else if c = 0x6E then
      match scanLiteral (utf8 "null") input with
      | some rest1 => some (acc, rest1)
      | none => none
    else
      match skipJson 1 (input.length + 1) .value [] input with
      | some rest1 => some (storeOther field acc, rest1)
      | none => none

/-- The members of the top-level object from the name of one of them on, up to the closing
brace, stored one after the other, and the input behind the brace.  None on a syntax
error. -/
def decodeMembers : Nat → Book × Bool → Bytes → Option ((Book × Bool) × Bytes)
  | 0, _, _ => none
  | fuel + 1, acc, input =>
    match skipSpace input with
    | [] => none
    | q :: rest =>
      if q = 0x22 then
        match scanStr (rest.length + 1) 0 rest with
        | none => none
        | some (key, rest1) =>
          match skipSpace rest1 with
          | [] => none
          | c :: rest2 =>
            if c = 0x3A then
              match decodeValue (fieldOf key) acc (skipSpace rest2) with
              | none => none
              | some (acc1, rest3) =>
                match skipSpace rest3 with
                | [] => none
                | d :: rest4 =>
                  if d = 0x2C then decodeMembers fuel acc1 rest4
                  else if d = 0x7D then some (acc1, rest4)
                  else none
            else none
      else none

/-- The result of `json.Unmarshal` once the value is read: a syntax error when anything but
white space follows it, else the first type error if there was one, else the book. -/
def finish (acc : Book × Bool) (rest : Bytes) : Except Error Book :=
  if skipSpace rest = [] then (if acc.2 then .error (.json 3) else .ok acc.1)
  else .error (.json 2)

/-- The result of `json.Unmarshal(data, &book)` for a zero `book`: a `SyntaxError`
(`.json 2`) when `data` is not one JSON value, an `UnmarshalTypeError` (`.json 3`) when the
value is not an object or `null` or when a member does not fit its field. -/
def goUnmarshal (data : Bytes) : Except Error Book :=
  match skipSpace data with
  | [] => .error (.json 2)
  | c :: rest =>
    if c = 0x7B then
      match skipSpace rest with
      | [] => .error (.json 2)
      | d :: rest1 =>
        if d = 0x7D then finish (Book.zero, false) rest1
        else
          match decodeMembers (rest.length + 1) (Book.zero, false) rest with
          | some (acc, rest2) => finish acc rest2
          | none => .error (.json 2)
    else
      match skipJson 0 (data.length + 1) .value [] (c :: rest) with
      | some rest1 => finish (Book.zero, decide (c ≠ 0x6E)) rest1
      | none => .error (.json 2)

/-- The package `encoding/json` at the type `Book`. -/
def goJson : Json := ⟨goMarshal, goUnmarshal⟩

/-! ## UTF-8 coercion -/

theorem runeSize_replacement (tl : GoString) : runeSize (0xEF :: 0xBF :: 0xBD :: tl) = 3 := by
  rfl

theorem take_toValidUTF8Aux (s : GoString) : ∀ n, (toValidUTF8Aux n s).take n = s.take n := by
  induction s with
  | nil => intro n; cases n <;> rfl
  | cons b rest ih =>
    intro n
    cases n with
    | zero => rfl
    | succ k => simp only [toValidUTF8Aux, List.take_succ_cons, ih]

theorem runeSize_copy (b : UInt8) (rest : GoString) (n : Nat)
    (h : runeSize (b :: rest) = n + 1) :
    runeSize (b :: toValidUTF8Aux n rest) = n + 1 := by
  simp only [runeSize] at h ⊢
  split_ifs at h with hc
  rw [h] at hc ⊢
  simp only [Nat.add_sub_cancel] at hc ⊢
  rw [take_toValidUTF8Aux, if_pos hc]

theorem toValidUTF8Aux_idem (s : GoString) : ∀ k,
    toValidUTF8Aux k (toValidUTF8Aux k s) = toValidUTF8Aux k s := by
  induction s with
  | nil => intro k; cases k <;> rfl
  | cons b rest ih =>
    intro k
    cases k with
    | succ k => simp only [toValidUTF8Aux, ih]
    | zero =>
      rw [toValidUTF8Aux]
      split
      · next h0 =>
        rw [toValidUTF8Aux, runeSize_replacement]
        simp only [toValidUTF8Aux, ih]
      · next n hn =>
        rw [toValidUTF8Aux, runeSize_copy b rest n hn]
        simp only [ih]

theorem toValidUTF8_idem (s : GoString) : toValidUTF8 (toValidUTF8 s) = toValidUTF8 s :=
  toValidUTF8Aux_idem s 0

theorem validUTF8_toValidUTF8 (s : GoString) : ValidUTF8 (toValidUTF8 s) :=
  toValidUTF8_idem s

/-! ## The world state -/

theorem lookup_insert_self (key : GoString) (value : Bytes) (l : List (GoString × Bytes)) :
    lookup key (insert key value l) = some value := by
  induction l with
  | nil => simp [insert, lookup]
  | cons kv rest ih =>
    obtain ⟨k, v⟩ := kv
    simp only [insert]
    split_ifs with h1 h2
    · simp [lookup]
    · simp [lookup]
    · simp [lookup, h2, ih]

theorem lookup_insert_of_ne (key other : GoString) (value : Bytes) (l : List (GoString × Bytes))
    (h : key ≠ other) : lookup other (insert key value l) = lookup other l := by
  induction l with
  | nil => simp [insert, lookup, h]
  | cons kv rest ih =>
    obtain ⟨k, v⟩ := kv
    simp only [insert]
    split_ifs with h1 h2
    · simp [lookup, h]
    · subst h2; simp [lookup, h]
    · simp [lookup, ih]

theorem lookup_erase_self (key : GoString) (l : List (GoString × Bytes)) :
    lookup key (erase key l) = none := by
  induction l with
  | nil => rfl
  | cons kv rest ih =>
    obtain ⟨k, v⟩ := kv
    simp only [erase]
    split_ifs with h1
    · exact ih
    · simp [lookup, h1, ih]

theorem lookup_erase_of_ne (key other : GoString) (l : List (GoString × Bytes))
    (h : key ≠ other) : lookup other (erase key l) = lookup other l := by
  induction l with
  | nil => rfl
  | cons kv rest ih =>
    obtain ⟨k, v⟩ := kv
    simp only [erase]
    split_ifs with h1
    · subst h1; simp [lookup, h, ih]
    · simp [lookup, ih]

theorem erase_of_lookup_none (key : GoString) (l : List (GoString × Bytes))
    (h : lookup key l = none) : erase key l = l := by
  induction l with
  | nil => rfl
  | cons kv rest ih =>
    obtain ⟨k, v⟩ := kv
    simp only [lookup] at h
    split_ifs at h with h1
    simp [erase, h1, ih h]

/-! ## The reference codec -/

theorem decField_encField (s tl : Bytes) : decField (encField s ++ tl) = some (s, tl) := by
  induction s with
  | nil => rfl
  | cons b rest ih =>
    show (match decField (encField rest ++ tl) with
      | some (s, tl) => some (b :: s, tl)
      | none => none) = some (b :: rest, tl)
    rw [ih]

theorem ofDigits_natDigits (fuel : Nat) :
    ∀ n, n ≤ fuel → ofDigits (natDigits fuel n) = n := by
  induction fuel with
  | zero => intro n h; simp [natDigits, ofDigits]; omega
  | succ f ih =>
    intro n h
    simp only [natDigits]
    split_ifs with h0
    · simp [ofDigits, h0]
    · have hlt : n / 256 ≤ f := by omega
      have hb : (UInt8.ofNat (n % 256)).toNat = n % 256 := by
        simp [UInt8.toNat, UInt8.ofNat, Fin.ofNat]
      simp only [ofDigits, ih _ hlt, hb]
      omega

theorem decFloat_encFloat (f : Float64) (h : f.isFinite = true) :
    decFloat (encFloat f) = some f := by
  obtain ⟨sg, ⟨e, he⟩, ⟨m, hm⟩⟩ := f
  simp only [Float64.isFinite, bne_iff_ne, ne_eq] at h
  simp only [encFloat, decFloat, ofDigits_natDigits _ _ (le_refl _)]
  have h1 : (e * 4503599627370496 + m) / 4503599627370496 = e := by omega
  have h2 : (e * 4503599627370496 + m) % 4503599627370496 = m := by omega
  have h3 : e < 2047 := by omega
  rw [h1]
  cases sg <;> simp [h3, Fin.ofNat, h2, Nat.mod_eq_of_lt he]

theorem decInt_encInt (n : Int) : decInt (encInt n) = some n := by
  simp only [encInt, decInt, ofDigits_natDigits _ _ (le_refl _)]
  by_cases h : n < 0
  · have hn : -((n.natAbs : Nat) : Int) = n := by omega
    rw [if_pos h, if_neg (by decide), if_pos rfl, hn]
  · have hn : ((n.natAbs : Nat) : Int) = n := by omega
    rw [if_neg h, if_pos rfl, hn]

theorem decFloat_isFinite (bs : Bytes) (p : Float64) (h : decFloat bs = some p) :
    p.isFinite = true := by
  unfold decFloat at h
  split at h
  · cases h
  · split_ifs at h with hc
    cases h
    have h3 := hc.2
    simp only [Float64.isFinite, Fin.ofNat, bne_iff_ne, ne_eq]
    omega

theorem refJson_goJson : GoJson refJson where
  marshal_finite := by
    intro b h
    exact ⟨_, if_pos h⟩
  marshal_unsupported := by
    intro b h
    exact ⟨_, if_neg (by simp [h])⟩
  unmarshal_marshal := by
    intro b bs h
    simp only [refJson, refMarshal] at h
    split_ifs at h with hf
    cases h
    have hfields : decFields 6
        (encField (toValidUTF8 b.ID) ++ encField (toValidUTF8 b.BookName) ++
          encField (toValidUTF8 b.Author) ++ encField (encFloat b.Price) ++
          encField (encInt b.Number) ++ encField (toValidUTF8 b.Owner)) =
        some [toValidUTF8 b.ID, toValidUTF8 b.BookName, toValidUTF8 b.Author,
          encFloat b.Price, encInt b.Number, toValidUTF8 b.Owner] := by
      rw [← List.append_nil (encField (toValidUTF8 b.Owner))]
      simp only [List.append_assoc, decFields, decField_encField]
    simp only [refJson, refUnmarshal, hfields, decFloat_encFloat _ hf, decInt_encInt,
      toValidUTF8_idem, Book.toValidUTF8]
  unmarshal_valid := by
    intro bs b h
    simp only [refJson, refUnmarshal] at h
    split at h
    · split at h
      · next p n hp hn =>
        cases h
        exact ⟨⟨validUTF8_toValidUTF8 _, validUTF8_toValidUTF8 _, validUTF8_toValidUTF8 _,
          validUTF8_toValidUTF8 _⟩, decFloat_isFinite _ _ hp⟩
      · cases h
    · cases h

/-! ## Stub calls that succeed -/

theorem Stub.outcome_of_healthy {s : Stub} (h : s.Healthy) : s.outcome = none := by
  obtain ⟨st, f, tr⟩ := s
  cases f with
  | nil => rfl
  | cons o rest => exact h o (List.mem_cons_self _ _)

theorem Stub.healthy_of_faults {s t : Stub} (h : s.Healthy) (hf : t.faults = s.faults.tail) :
    t.Healthy := by
  intro o ho
  rw [hf] at ho
  exact h o (List.mem_of_mem_tail ho)

theorem Stub.healthy_of_faults_eq {s t : Stub} (h : s.Healthy) (hf : t.faults = s.faults) :
    t.Healthy := by
  intro o ho
  rw [hf] at ho
  exact h o ho

theorem Stub.GetState_of_healthy {s : Stub} (h : s.Healthy) (key : GoString) :
    s.GetState key = (.ok (lookup key s.state), s.step (.getState key)) := by
  simp only [Stub.GetState, Stub.outcome_of_healthy h]

theorem Stub.PutState_of_healthy {s : Stub} (h : s.Healthy) (key : GoString) (value : Bytes) :
    s.PutState key value =
      (none, { s.step (.putState key value) with state := insert key value s.state }) := by
  simp only [Stub.PutState, Stub.outcome_of_healthy h]

theorem Stub.DelState_of_healthy {s : Stub} (h : s.Healthy) (key : GoString) :
    s.DelState key = (none, { s.step (.delState key) with state := erase key s.state }) := by
  simp only [Stub.DelState, Stub.outcome_of_healthy h]

theorem Stub.GetState_state (s : Stub) (key : GoString) : (s.GetState key).2.state = s.state := by
  unfold Stub.GetState; split <;> rfl

theorem Stub.GetState_trace (s : Stub) (key : GoString) :
    (s.GetState key).2.trace = s.trace ++ [.getState key] := by
  unfold Stub.GetState; split <;> rfl

theorem Stub.GetState_faults (s : Stub) (key : GoString) :
    (s.GetState key).2.faults = s.faults.tail := by
  unfold Stub.GetState; split <;> rfl

theorem Stub.GetState_eq_ok {s : Stub} {key : GoString} {r : Option Bytes}
    (h : (s.GetState key).1 = .ok r) :
    s.GetState key = (.ok r, s.step (.getState key)) ∧ lookup key s.state = r := by
  unfold Stub.GetState at h ⊢
  split at h
  · cases h
  · next ho => cases h; simp only [ho, and_self]

/-! ## The methods on a store whose calls succeed -/

theorem BookExists_of_healthy {ctx : Stub} (h : ctx.Healthy) (id : GoString) :
    BookExists ctx id = (.ok (lookup id ctx.state != none), ctx.step (.getState id)) := by
  simp only [BookExists, Stub.GetState_of_healthy h]

theorem QueryBook_of_healthy (J : Json) {ctx : Stub} (h : ctx.Healthy) (id : GoString)
    (bookJSON : Bytes) (hv : lookup id ctx.state = some bookJSON) :
    QueryBook J ctx id = (J.Unmarshal bookJSON, ctx.step (.getState id)) := by
  simp only [QueryBook, Stub.GetState_of_healthy h, hv]
  cases J.Unmarshal bookJSON <;> rfl

theorem CreateBook_of_healthy (J : Json) {ctx : Stub} (h : ctx.Healthy) (book : Book)
    (bookJSON : Bytes) (hv : lookup book.ID ctx.state = none)
    (hm : J.Marshal book = .ok bookJSON) :
    CreateBook J ctx book.ID book.BookName book.Author book.Price book.Number book.Owner =
      (none, ⟨insert book.ID bookJSON ctx.state, ctx.faults.tail.tail,
        ctx.trace ++ [.getState book.ID, .putState book.ID bookJSON]⟩) := by
  have h1 : (ctx.step (.getState book.ID)).Healthy := Stub.healthy_of_faults h rfl
  simp only [CreateBook, BookExists_of_healthy h, hv, bne_self_eq_false, hm]
  rw [Stub.PutState_of_healthy h1]
  simp only [Stub.step, List.append_assoc, List.singleton_append]

theorem Book.toValidUTF8_of_valid (b : Book) (h : b.ValidStrings) : b.toValidUTF8 = b := by
  obtain ⟨h1, h2, h3, h4⟩ := h
  unfold ValidUTF8 at h1 h2 h3 h4
  simp only [Book.toValidUTF8, h1, h2, h3, h4]

theorem UpdateBook_of_healthy (J : Json) {ctx : Stub} (h : ctx.Healthy) (book : Book)
    (v bookJSON : Bytes) (hv : lookup book.ID ctx.state = some v)
    (hm : J.Marshal book = .ok bookJSON) :
    UpdateBook J ctx book.ID book.BookName book.Author book.Price book.Number book.Owner =
      (none, ⟨insert book.ID bookJSON ctx.state, ctx.faults.tail.tail,
        ctx.trace ++ [.getState book.ID, .putState book.ID bookJSON]⟩) := by
  have h1 : (ctx.step (.getState book.ID)).Healthy := Stub.healthy_of_faults h rfl
  have hb : (some v != none) = true := rfl
  simp only [UpdateBook, BookExists_of_healthy h, hv, hb, hm]
  rw [Stub.PutState_of_healthy h1]
  simp only [Stub.step, List.append_assoc, List.singleton_append]

theorem DeleteBook_of_healthy {ctx : Stub} (h : ctx.Healthy) (id : GoString) (v : Bytes)
    (hv : lookup id ctx.state = some v) :
    DeleteBook ctx id =
      (none, ⟨erase id ctx.state, ctx.faults.tail.tail,
        ctx.trace ++ [.getState id, .delState id]⟩) := by
  have h1 : (ctx.step (.getState id)).Healthy := Stub.healthy_of_faults h rfl
  have hb : (some v != none) = true := rfl
  simp only [DeleteBook, BookExists_of_healthy h, hv, hb]
  rw [Stub.DelState_of_healthy h1]
  simp only [Stub.step, List.append_assoc, List.singleton_append]

theorem DeleteBook_of_absent {ctx : Stub} (h : ctx.Healthy) (id : GoString)
    (hv : lookup id ctx.state = none) :
    DeleteBook ctx id = (some (.doesNotExist id), ctx.step (.getState id)) := by
  simp only [DeleteBook, BookExists_of_healthy h, hv, bne_self_eq_false]

theorem TransferBook_of_healthy (J : Json) {ctx : Stub} (h : ctx.Healthy) (id newOwner : GoString)
    (v bookJSON : Bytes) (book : Book) (hv : lookup id ctx.state = some v)
    (hu : J.Unmarshal v = .ok book)
    (hm : J.Marshal { book with Owner := newOwner } = .ok bookJSON) :
    TransferBook J ctx id newOwner =
      (none, ⟨insert id bookJSON ctx.state, ctx.faults.tail.tail,
        ctx.trace ++ [.getState id, .putState id bookJSON]⟩) := by
  have h1 : (ctx.step (.getState id)).Healthy := Stub.healthy_of_faults h rfl
  simp only [TransferBook, QueryBook_of_healthy J h id v hv, hu, hm]
  rw [Stub.PutState_of_healthy h1]
  simp only [Stub.step, List.append_assoc, List.singleton_append]

theorem QueryBook_eq_ok {J : Json} {ctx : Stub} {id : GoString} {book : Book}
    (h : (QueryBook J ctx id).1 = .ok book) :
    ∃ v, lookup id ctx.state = some v ∧ J.Unmarshal v = .ok book := by
  unfold QueryBook at h
  rcases hg : ctx.GetState id with ⟨r, ctx1⟩
  rw [hg] at h
  rcases r with err | (_ | v)
  · cases h
  · cases h
  · have hl := (@Stub.GetState_eq_ok ctx id (some v) (by rw [hg])).2
    refine ⟨v, hl, ?_⟩
    simp only at h
    split at h
    · cases h
    · next b hb => cases h; exact hb

theorem Stub.healthy_after_two {ctx : Stub} (h : ctx.Healthy) (st : List (GoString × Bytes))
    (tr : List Call) : (⟨st, ctx.faults.tail.tail, tr⟩ : Stub).Healthy :=
  fun o ho => h o (List.mem_of_mem_tail (List.mem_of_mem_tail ho))

theorem Stub.GetState_snd (s : Stub) (key : GoString) :
    (s.GetState key).2 = s.step (.getState key) := by
  unfold Stub.GetState; split <;> rfl

theorem QueryBook_snd (J : Json) (ctx : Stub) (id : GoString) :
    (QueryBook J ctx id).2 = ctx.step (.getState id) := by
  have hs := Stub.GetState_snd ctx id
  unfold QueryBook
  rcases hg : ctx.GetState id with ⟨r, ctx1⟩
  rw [hg] at hs
  rcases r with err | (_ | v)
  · exact hs
  · exact hs
  · simp only
    cases J.Unmarshal v <;> exact hs

theorem BookExists_snd (ctx : Stub) (id : GoString) :
    (BookExists ctx id).2 = ctx.step (.getState id) := by
  have hs := Stub.GetState_snd ctx id
  unfold BookExists
  rcases hg : ctx.GetState id with ⟨r, ctx1⟩
  rw [hg] at hs
  rcases r with err | v <;> exact hs

theorem runReads_state (J : Json) (reads : List ReadCall) :
    ∀ ctx : Stub, (runReads J reads ctx).state = ctx.state := by
  induction reads with
  | nil => intro ctx; rfl
  | cons c rest ih =>
    intro ctx
    cases c with
    | query id => simp only [runReads, ih, QueryBook_snd, Stub.step]
    | «exists» id => simp only [runReads, ih, BookExists_snd, Stub.step]

theorem runReads_healthy (J : Json) (reads : List ReadCall) :
    ∀ ctx : Stub, ctx.Healthy → (runReads J reads ctx).Healthy := by
  induction reads with
  | nil => intro ctx h; exact h
  | cons c rest ih =>
    intro ctx h
    cases c with
    | query id =>
      simp only [runReads, QueryBook_snd]
      exact ih _ (Stub.healthy_of_faults h rfl)
    | «exists» id =>
      simp only [runReads, BookExists_snd]
      exact ih _ (Stub.healthy_of_faults h rfl)

theorem marshalled_eq {J : Json} (hJ : GoJson J) (book : Book) (h : book.Price.isFinite = true) :
    J.Marshal book = .ok (marshalled J book) := by
  obtain ⟨bs, hbs⟩ := hJ.marshal_finite book h
  simp only [marshalled, hbs]

theorem unmarshal_marshalled {J : Json} (hJ : GoJson J) (book : Book)
    (h : book.Price.isFinite = true) (hv : book.ValidStrings) :
    J.Unmarshal (marshalled J book) = .ok book := by
  rw [hJ.unmarshal_marshal book _ (marshalled_eq hJ book h), Book.toValidUTF8_of_valid book hv]

theorem InitLedgerLoop_of_healthy {J : Json} (hJ : GoJson J) (books : List Book) :
    ∀ ctx : Stub, ctx.Healthy → (∀ b ∈ books, b.Price.isFinite = true) →
      (InitLedgerLoop J books ctx).1 = none ∧
      (InitLedgerLoop J books ctx).2.state = putAll J books ctx.state ∧
      (InitLedgerLoop J books ctx).2.Healthy := by
  induction books with
  | nil => intro ctx h _; exact ⟨rfl, rfl, h⟩
  | cons book rest ih =>
    intro ctx h hfin
    have hm := marshalled_eq hJ book (hfin book (List.mem_cons_self _ _))
    have hrest := ih { ctx.step (.putState book.ID (marshalled J book)) with
        state := insert book.ID (marshalled J book) ctx.state }
      (Stub.healthy_of_faults h rfl) (fun b hb => hfin b (List.mem_cons_of_mem _ hb))
    simp only [InitLedgerLoop, hm, Stub.PutState_of_healthy h, putAll]
    exact hrest

theorem keyLt_nil_right (k : GoString) : keyLt k [] = false := by
  cases k <;> rfl

theorem Stub.GetStateByRange_all {s : Stub} (h : s.Healthy) :
    s.GetStateByRange [] [] = (.ok s.state, s.step (.getStateByRange [] [])) := by
  simp only [Stub.GetStateByRange, Stub.outcome_of_healthy h, keyLt_nil_right, Bool.not_false,
    decide_True, Bool.true_or, Bool.and_self, List.filter_true]

theorem queryAllBooksLoop_of_healthy (J : Json) (entries : List (GoString × Bytes)) :
    ∀ (ctx : Stub) (acc books : List Book), ctx.Healthy →
      List.Forall₂ (fun e b => J.Unmarshal e.2 = .ok b) entries books →
      (queryAllBooksLoop J entries ctx acc).1 = .ok (acc ++ books) := by
  induction entries with
  | nil =>
    intro ctx acc books _ hall
    cases hall
    simp only [queryAllBooksLoop, List.append_nil]
  | cons e rest ih =>
    intro ctx acc books h hall
    cases hall with
    | cons hb hrest =>
      simp only [queryAllBooksLoop, Stub.Next, Stub.outcome_of_healthy h, hb]
      rw [ih _ _ _ (Stub.healthy_of_faults h rfl) hrest]
      simp only [List.append_assoc, List.singleton_append]

theorem queryAllBooks_of_healthy (J : Json) {ctx : Stub} (h : ctx.Healthy) (books : List Book)
    (hall : List.Forall₂ (fun e b => J.Unmarshal e.2 = .ok b) ctx.state books) :
    (queryAllBooks J ctx).1 = .ok books := by
  simp only [queryAllBooks, Stub.GetStateByRange_all h]
  have hl := queryAllBooksLoop_of_healthy J ctx.state (ctx.step (.getStateByRange [] [])) []
    books (Stub.healthy_of_faults h rfl) hall
  simpa using hl

theorem putAll_seedBooks (J : Json) :
    putAll J seedBooks [] = seedBooks.map fun b => (b.ID, marshalled J b) := by
  rfl

theorem seedBooks_prices :
    seedBooks.map (fun b => (b.Price.sign, b.Price.exponent.val, b.Price.fraction.val)) =
      [(false, 0x404, 0x3F33333333333), (false, 0x404, 0x8F33333333333),
        (false, 0x403, 0xDE66666666666), (false, 0x404, 0x6800000000000),
        (false, 0x405, 0x679999999999A)] := by
  decide

theorem seedBooks_finite : ∀ b ∈ seedBooks, b.Price.isFinite = true := by
  decide

theorem seedBooks_valid : ∀ b ∈ seedBooks, b.ValidStrings := by
  decide

theorem QueryBook_spec (J : Json) {ctx : Stub} (h : ctx.Healthy) (id : GoString) (v : Bytes)
    (hv : lookup id ctx.state = some v) :
    (QueryBook J ctx id).1 = J.Unmarshal v ∧ (QueryBook J ctx id).2.state = ctx.state ∧
      (QueryBook J ctx id).2.Healthy := by
  rw [QueryBook_of_healthy J h id v hv]
  exact ⟨rfl, rfl, Stub.healthy_of_faults h rfl⟩

theorem BookExists_spec {ctx : Stub} (h : ctx.Healthy) (id : GoString) :
    (BookExists ctx id).1 = .ok (lookup id ctx.state != none) ∧
      (BookExists ctx id).2.state = ctx.state ∧ (BookExists ctx id).2.Healthy := by
  rw [BookExists_of_healthy h]
  exact ⟨rfl, rfl, Stub.healthy_of_faults h rfl⟩

theorem TransferBook_spec (J : Json) {ctx : Stub} (h : ctx.Healthy) (id newOwner : GoString)
    (v bookJSON : Bytes) (book : Book) (hv : lookup id ctx.state = some v)
    (hu : J.Unmarshal v = .ok book)
    (hm : J.Marshal { book with Owner := newOwner } = .ok bookJSON) :
    (TransferBook J ctx id newOwner).1 = none ∧
      (TransferBook J ctx id newOwner).2.state = insert id bookJSON ctx.state ∧
      (TransferBook J ctx id newOwner).2.Healthy := by
  rw [TransferBook_of_healthy J h id newOwner v bookJSON book hv hu hm]
  exact ⟨rfl, rfl, Stub.healthy_after_two h _ _⟩

theorem DeleteBook_spec {ctx : Stub} (h : ctx.Healthy) (id : GoString) (v : Bytes)
    (hv : lookup id ctx.state = some v) :
    (DeleteBook ctx id).1 = none ∧ (DeleteBook ctx id).2.state = erase id ctx.state ∧
      (DeleteBook ctx id).2.Healthy := by
  rw [DeleteBook_of_healthy h id v hv]
  exact ⟨rfl, rfl, Stub.healthy_after_two h _ _⟩

theorem lookup_seedBooks (J : Json) :
    ∀ b ∈ seedBooks, lookup b.ID (seedBooks.map fun b => (b.ID, marshalled J b)) =
      some (marshalled J b) := by
  intro b hb
  simp only [seedBooks, List.mem_cons, List.mem_singleton, List.not_mem_nil, or_false] at hb
  rcases hb with rfl | rfl | rfl | rfl | rfl <;> rfl

/-! ## The claims -/

/-- C1 (as amended): in a store where `id` has no value and every store call succeeds, for
arguments with a finite price, `CreateBook` succeeds and a following `QueryBook(id)` returns
the book built from the arguments with its strings coerced to valid UTF-8; when the string
arguments are valid UTF-8 this is the book built from exactly the arguments. -/
theorem create_then_query (J : Json) (hJ : GoJson J) (ctx : Stub) (id bookName author : GoString)
    (price : Float64) (number : Int) (owner : GoString)
    (habsent : lookup id ctx.state = none) (hhealthy : ctx.Healthy)
    (hfinite : price.isFinite = true) :
    (CreateBook J ctx id bookName author price number owner).1 = none ∧
    (QueryBook J (CreateBook J ctx id bookName author price number owner).2 id).1 =
      .ok (Book.toValidUTF8 ⟨id, bookName, author, price, number, owner⟩) ∧
    (Book.ValidStrings ⟨id, bookName, author, price, number, owner⟩ →
      (QueryBook J (CreateBook J ctx id bookName author price number owner).2 id).1 =
        .ok ⟨id, bookName, author, price, number, owner⟩) := by
  obtain ⟨bs, hbs⟩ := hJ.marshal_finite ⟨id, bookName, author, price, number, owner⟩ hfinite
  have hc := CreateBook_of_healthy J hhealthy ⟨id, bookName, author, price, number, owner⟩ bs
    habsent hbs
  simp only at hc
  have hq := QueryBook_of_healthy J (Stub.healthy_after_two hhealthy (insert id bs ctx.state)
    (ctx.trace ++ [.getState id, .putState id bs])) id bs (lookup_insert_self id bs ctx.state)
  rw [hc, hq, hJ.unmarshal_marshal _ _ hbs]
  refine ⟨rfl, rfl, fun hv => ?_⟩
  rw [Book.toValidUTF8_of_valid _ hv]

/-- Witness of C1: a book with valid UTF-8 strings created in the empty store. -/
theorem create_then_query_witness :
    GoJson refJson ∧ lookup (utf8 "2001") Stub.empty.state = none ∧ Stub.empty.Healthy ∧
    (Float64.ofRatio 125 10).isFinite = true ∧
    (CreateBook refJson Stub.empty (utf8 "2001") (utf8 "边城") (utf8 "沈从文")
      (Float64.ofRatio 125 10) 3 (utf8 "library")).1 = none ∧
    (QueryBook refJson (CreateBook refJson Stub.empty (utf8 "2001") (utf8 "边城") (utf8 "沈从文")
      (Float64.ofRatio 125 10) 3 (utf8 "library")).2 (utf8 "2001")).1 =
      .ok ⟨utf8 "2001", utf8 "边城", utf8 "沈从文", Float64.ofRatio 125 10, 3, utf8 "library"⟩ :=
  have h := create_then_query refJson refJson_goJson Stub.empty (utf8 "2001") (utf8 "边城")
    (utf8 "沈从文") (Float64.ofRatio 125 10) 3 (utf8 "library") (by decide) (by decide) (by decide)
  ⟨refJson_goJson, by decide, by decide, by decide, h.1, h.2.2 (by decide)⟩

/-- Counterexample to C1 as stated: the name `caf\xE9` (Latin-1, not valid UTF-8) and a finite
price, created in the empty store; `CreateBook` succeeds, and `QueryBook` returns a book whose
name is `caf` followed by U+FFFD, not the name that was passed. -/
theorem create_then_query_counterexample :
    GoJson refJson ∧ lookup (utf8 "2001") Stub.empty.state = none ∧ Stub.empty.Healthy ∧
    (Float64.ofRatio 125 10).isFinite = true ∧
    (CreateBook refJson Stub.empty (utf8 "2001") [0x63, 0x61, 0x66, 0xE9] (utf8 "x")
      (Float64.ofRatio 125 10) 3 (utf8 "library")).1 = none ∧
    (QueryBook refJson (CreateBook refJson Stub.empty (utf8 "2001") [0x63, 0x61, 0x66, 0xE9]
      (utf8 "x") (Float64.ofRatio 125 10) 3 (utf8 "library")).2 (utf8 "2001")).1 =
      .ok ⟨utf8 "2001", [0x63, 0x61, 0x66, 0xEF, 0xBF, 0xBD], utf8 "x",
        Float64.ofRatio 125 10, 3, utf8 "library"⟩ ∧
    (QueryBook refJson (CreateBook refJson Stub.empty (utf8 "2001") [0x63, 0x61, 0x66, 0xE9]
      (utf8 "x") (Float64.ofRatio 125 10) 3 (utf8 "library")).2 (utf8 "2001")).1 ≠
      .ok ⟨utf8 "2001", [0x63, 0x61, 0x66, 0xE9], utf8 "x",
        Float64.ofRatio 125 10, 3, utf8 "library"⟩ :=
  ⟨refJson_goJson, by decide, by decide, by decide, by decide, by decide, by decide⟩

/-- Counterexample to C2 as stated: a store that holds a value under 1001 and whose next
call, the read of 1001, fails with `stub 7`; `CreateBook` does not fail with "the book 1001
already exists" but with the read failure in "failed to read from world state". -/
theorem create_existing_fails_counterexample :
    lookup (utf8 "1001") (Stub.mk [(utf8 "1001", utf8 "old")] [some (.stub 7)] []).state =
      some (utf8 "old") ∧
    (CreateBook refJson ⟨[(utf8 "1001", utf8 "old")], [some (.stub 7)], []⟩ (utf8 "1001")
      (utf8 "x") (utf8 "y") (Float64.ofRatio 1 1) 1 (utf8 "z")).1 =
      some (.readFailed (.stub 7)) ∧
    (CreateBook refJson ⟨[(utf8 "1001", utf8 "old")], [some (.stub 7)], []⟩ (utf8 "1001")
      (utf8 "x") (utf8 "y") (Float64.ofRatio 1 1) 1 (utf8 "z")).1 ≠
      some (.alreadyExists (utf8 "1001")) := by
  decide

/-- C2 (as amended): in a store that holds a value under `id`, `CreateBook(id, ...)` with any
arguments fails: with "the book id already exists" when the read of `id` succeeds, and with
the read failure in "failed to read from world state" when the read fails.  In both cases it
makes no call but that read (no `PutState`) and leaves the world state as it was, the old
value still under `id`. -/
theorem create_existing_fails (J : Json) (ctx : Stub) (id bookName author : GoString)
    (price : Float64) (number : Int) (owner : GoString) (v : Bytes)
    (hpresent : lookup id ctx.state = some v) :
    (ctx.outcome = none →
      (CreateBook J ctx id bookName author price number owner).1 = some (.alreadyExists id)) ∧
    (∀ e, ctx.outcome = some e →
      (CreateBook J ctx id bookName author price number owner).1 = some (.readFailed e)) ∧
    (CreateBook J ctx id bookName author price number owner).2.trace =
      ctx.trace ++ [.getState id] ∧
    (CreateBook J ctx id bookName author price number owner).2.state = ctx.state ∧
    lookup id (CreateBook J ctx id bookName author price number owner).2.state = some v := by
  have hb : (some v != none) = true := rfl
  rcases ho : ctx.outcome with _ | e
  · have hc : CreateBook J ctx id bookName author price number owner =
        (some (.alreadyExists id), ctx.step (.getState id)) := by
      simp only [CreateBook, BookExists, Stub.GetState, ho, hpresent, hb]
    rw [hc]
    refine ⟨fun _ => rfl, ?_, rfl, rfl, hpresent⟩
    intro e he
    cases he
  · have hc : CreateBook J ctx id bookName author price number owner =
        (some (.readFailed e), ctx.step (.getState id)) := by
      simp only [CreateBook, BookExists, Stub.GetState, ho]
    rw [hc]
    refine ⟨?_, ?_, rfl, rfl, hpresent⟩
    · intro he
      cases he
    · intro e1 he
      cases he
      rfl

/-- Witness of C2: a store with a value under the key 1001, the read succeeding. -/
theorem create_existing_fails_witness :
    lookup (utf8 "1001") (Stub.mk [(utf8 "1001", utf8 "old")] [] []).state = some (utf8 "old") ∧
    (CreateBook refJson ⟨[(utf8 "1001", utf8 "old")], [], []⟩ (utf8 "1001") (utf8 "x")
      (utf8 "y") (Float64.ofRatio 1 1) 1 (utf8 "z")).1 = some (.alreadyExists (utf8 "1001")) ∧
    (CreateBook refJson ⟨[(utf8 "1001", utf8 "old")], [], []⟩ (utf8 "1001") (utf8 "x")
      (utf8 "y") (Float64.ofRatio 1 1) 1 (utf8 "z")).2.state = [(utf8 "1001", utf8 "old")] :=
  have h := create_existing_fails refJson ⟨[(utf8 "1001", utf8 "old")], [], []⟩ (utf8 "1001")
    (utf8 "x") (utf8 "y") (Float64.ofRatio 1 1) 1 (utf8 "z") (utf8 "old") (by decide)
  ⟨by decide, h.1 rfl, h.2.2.2.1⟩

/-- Counterexample to C3 as stated: a key whose value is present and of length zero; the read
succeeds and returns an empty (non-nil) value, and `BookExists` reports `true`. -/
theorem exists_empty_value_counterexample :
    (Stub.GetState ⟨[(utf8 "3001", [])], [], []⟩ (utf8 "3001")).1 = .ok (some []) ∧
    (BookExists ⟨[(utf8 "3001", [])], [], []⟩ (utf8 "3001")).1 = .ok true := by
  decide

/-- C3 (as amended): `BookExists(id)` returns `true` exactly when the read of `id` succeeds and
returns a value that is not nil, whatever its length, and `false` exactly when the read
succeeds and returns nil. -/
theorem exists_iff_read_not_nil (ctx : Stub) (id : GoString) :
    ((BookExists ctx id).1 = .ok true ↔ ∃ v, (ctx.GetState id).1 = .ok (some v)) ∧
    ((BookExists ctx id).1 = .ok false ↔ (ctx.GetState id).1 = .ok none) := by
  unfold BookExists
  rcases hg : ctx.GetState id with ⟨r, ctx1⟩
  rcases r with err | (_ | v) <;> simp

/-- C4: in a store that answers the read of `id` with nothing (the key was never written),
`BookExists(id)` returns `false` and no error, and `QueryBook(id)` returns no book but the
error "the book id does not exist". -/
theorem unwritten_not_found (J : Json) (ctx : Stub) (id : GoString)
    (hread : (ctx.GetState id).1 = .ok none) :
    (BookExists ctx id).1 = .ok false ∧ (QueryBook J ctx id).1 = .error (.doesNotExist id) := by
  obtain ⟨hg, -⟩ := Stub.GetState_eq_ok hread
  simp [BookExists, QueryBook, hg]

/-- Witness of C4: the id 9999 in the empty store. -/
theorem unwritten_not_found_witness :
    (Stub.empty.GetState (utf8 "9999")).1 = .ok none ∧
    (BookExists Stub.empty (utf8 "9999")).1 = .ok false ∧
    (QueryBook refJson Stub.empty (utf8 "9999")).1 = .error (.doesNotExist (utf8 "9999")) :=
  ⟨by decide, unwritten_not_found refJson Stub.empty (utf8 "9999") (by decide)⟩

/-- Counterexample to C5 as stated, in a store with a value under 1001 and every call
succeeding: with the price NaN `UpdateBook` fails (`json.Marshal` rejects the value) and the
old value stays; with the name `caf\xE9` (not valid UTF-8) `UpdateBook` succeeds and
`QueryBook` returns the name `caf` followed by U+FFFD, not the name that was passed. -/
theorem update_then_query_counterexample :
    GoJson refJson ∧
    lookup (utf8 "1001") (Stub.mk [(utf8 "1001", utf8 "old")] [] []).state = some (utf8 "old") ∧
    (Stub.mk [(utf8 "1001", utf8 "old")] [] []).Healthy ∧
    (UpdateBook refJson ⟨[(utf8 "1001", utf8 "old")], [], []⟩ (utf8 "1001") (utf8 "x") (utf8 "y")
      Float64.nan 1 (utf8 "z")).1 = some (.json 1) ∧
    (UpdateBook refJson ⟨[(utf8 "1001", utf8 "old")], [], []⟩ (utf8 "1001") (utf8 "x") (utf8 "y")
      Float64.nan 1 (utf8 "z")).2.state = [(utf8 "1001", utf8 "old")] ∧
    (UpdateBook refJson ⟨[(utf8 "1001", utf8 "old")], [], []⟩ (utf8 "1001")
      [0x63, 0x61, 0x66, 0xE9] (utf8 "y") (Float64.ofRatio 125 10) 1 (utf8 "z")).1 = none ∧
    (QueryBook refJson (UpdateBook refJson ⟨[(utf8 "1001", utf8 "old")], [], []⟩ (utf8 "1001")
      [0x63, 0x61, 0x66, 0xE9] (utf8 "y") (Float64.ofRatio 125 10) 1 (utf8 "z")).2
        (utf8 "1001")).1 =
      .ok ⟨utf8 "1001", [0x63, 0x61, 0x66, 0xEF, 0xBF, 0xBD], utf8 "y",
        Float64.ofRatio 125 10, 1, utf8 "z"⟩ ∧
    (QueryBook refJson (UpdateBook refJson ⟨[(utf8 "1001", utf8 "old")], [], []⟩ (utf8 "1001")
      [0x63, 0x61, 0x66, 0xE9] (utf8 "y") (Float64.ofRatio 125 10) 1 (utf8 "z")).2
        (utf8 "1001")).1 ≠
      .ok ⟨utf8 "1001", [0x63, 0x61, 0x66, 0xE9], utf8 "y",
        Float64.ofRatio 125 10, 1, utf8 "z"⟩ :=
  ⟨refJson_goJson, by decide, by decide, by decide, by decide, by decide, by decide, by decide⟩

/-- C5 (as amended): in a store where `id` has a value and every store call succeeds, for
arguments with a finite price, `UpdateBook` succeeds and a following `QueryBook(id)` returns
the book built from the new arguments with its strings coerced to valid UTF-8, whatever the
old value was; when the string arguments are valid UTF-8 this is the book of exactly the new
arguments. -/
theorem update_then_query (J : Json) (hJ : GoJson J) (ctx : Stub) (id bookName author : GoString)
    (price : Float64) (number : Int) (owner : GoString) (v : Bytes)
    (hpresent : lookup id ctx.state = some v) (hhealthy : ctx.Healthy)
    (hfinite : price.isFinite = true) :
    (UpdateBook J ctx id bookName author price number owner).1 = none ∧
    (QueryBook J (UpdateBook J ctx id bookName author price number owner).2 id).1 =
      .ok (Book.toValidUTF8 ⟨id, bookName, author, price, number, owner⟩) ∧
    (Book.ValidStrings ⟨id, bookName, author, price, number, owner⟩ →
      (QueryBook J (UpdateBook J ctx id bookName author price number owner).2 id).1 =
        .ok ⟨id, bookName, author, price, number, owner⟩) := by
  obtain ⟨bs, hbs⟩ := hJ.marshal_finite ⟨id, bookName, author, price, number, owner⟩ hfinite
  have hc := UpdateBook_of_healthy J hhealthy ⟨id, bookName, author, price, number, owner⟩ v bs
    hpresent hbs
  simp only at hc
  have hq := QueryBook_of_healthy J (Stub.healthy_after_two hhealthy (insert id bs ctx.state)
    (ctx.trace ++ [.getState id, .putState id bs])) id bs (lookup_insert_self id bs ctx.state)
  rw [hc, hq, hJ.unmarshal_marshal _ _ hbs]
  refine ⟨rfl, rfl, fun hv => ?_⟩
  rw [Book.toValidUTF8_of_valid _ hv]

/-- Witness of C5: the seed book 1001 replaced after `InitLedger`. -/
theorem update_then_query_witness :
    GoJson refJson ∧ (InitLedger refJson Stub.empty).2.Healthy ∧
    (Float64.ofRatio 125 10).isFinite = true ∧
    (UpdateBook refJson (InitLedger refJson Stub.empty).2 (utf8 "1001") (utf8 "边城")
      (utf8 "沈从文") (Float64.ofRatio 125 10) 3 (utf8 "Bob")).1 = none ∧
    (QueryBook refJson (UpdateBook refJson (InitLedger refJson Stub.empty).2 (utf8 "1001")
      (utf8 "边城") (utf8 "沈从文") (Float64.ofRatio 125 10) 3 (utf8 "Bob")).2 (utf8 "1001")).1 =
      .ok ⟨utf8 "1001", utf8 "边城", utf8 "沈从文", Float64.ofRatio 125 10, 3, utf8 "Bob"⟩ :=
  have h := update_then_query refJson refJson_goJson (InitLedger refJson Stub.empty).2
    (utf8 "1001") (utf8 "边城") (utf8 "沈从文") (Float64.ofRatio 125 10) 3 (utf8 "Bob")
    ((refMarshal ⟨utf8 "1001", utf8 "西游记", utf8 "吴承恩", Float64.ofRatio 399 10, 30,
      utf8 "library"⟩).toOption.getD [])
    (by decide) (by decide) (by decide)
  ⟨refJson_goJson, by decide, by decide, h.1, h.2.2 (by decide)⟩

/-- Counterexample to C6 as stated: after `InitLedger` on the empty store, `QueryBook` of
1001 returns the seed book; `TransferBook` of 1001 to the holder `Zo\xEB` (Latin-1, not valid
UTF-8) succeeds, and the following `QueryBook` returns the seed book with the holder `Zo`
followed by U+FFFD, which is not the holder that was passed. -/
theorem transfer_then_query_counterexample :
    GoJson refJson ∧ (InitLedger refJson Stub.empty).2.Healthy ∧
    (QueryBook refJson (InitLedger refJson Stub.empty).2 (utf8 "1001")).1 =
      .ok ⟨utf8 "1001", utf8 "西游记", utf8 "吴承恩", Float64.ofRatio 399 10, 30, utf8 "library"⟩ ∧
    (TransferBook refJson (InitLedger refJson Stub.empty).2 (utf8 "1001") [0x5A, 0x6F, 0xEB]).1 =
      none ∧
    (QueryBook refJson (TransferBook refJson (InitLedger refJson Stub.empty).2 (utf8 "1001")
      [0x5A, 0x6F, 0xEB]).2 (utf8 "1001")).1 =
      .ok ⟨utf8 "1001", utf8 "西游记", utf8 "吴承恩", Float64.ofRatio 399 10, 30,
        [0x5A, 0x6F, 0xEF, 0xBF, 0xBD]⟩ ∧
    ([0x5A, 0x6F, 0xEF, 0xBF, 0xBD] : GoString) ≠ [0x5A, 0x6F, 0xEB] :=
  ⟨refJson_goJson, by decide, by decide, by decide, by decide, by decide⟩

/-- C6 (as amended): in a store where `QueryBook(id)` returns the book `r` and every store call
succeeds, `TransferBook(id, H)` succeeds and a following `QueryBook(id)` returns `r` with the
holder replaced by `H` coerced to valid UTF-8, which is `H` itself when `H` is valid UTF-8;
the id, name, author, price and number are those of `r`. -/
theorem transfer_then_query (J : Json) (hJ : GoJson J) (ctx : Stub) (id newOwner : GoString)
    (r : Book) (hquery : (QueryBook J ctx id).1 = .ok r) (hhealthy : ctx.Healthy) :
    (TransferBook J ctx id newOwner).1 = none ∧
    (QueryBook J (TransferBook J ctx id newOwner).2 id).1 =
      .ok { r with Owner := toValidUTF8 newOwner } ∧
    (ValidUTF8 newOwner →
      (QueryBook J (TransferBook J ctx id newOwner).2 id).1 =
        .ok { r with Owner := newOwner }) := by
  obtain ⟨v, hv, hu⟩ := QueryBook_eq_ok hquery
  obtain ⟨⟨h1, h2, h3, -⟩, hfin⟩ := hJ.unmarshal_valid v r hu
  obtain ⟨bs, hbs⟩ := hJ.marshal_finite { r with Owner := newOwner } hfin
  have ht := TransferBook_of_healthy J hhealthy id newOwner v bs r hv hu hbs
  have hq := QueryBook_of_healthy J (Stub.healthy_after_two hhealthy (insert id bs ctx.state)
    (ctx.trace ++ [.getState id, .putState id bs])) id bs (lookup_insert_self id bs ctx.state)
  have hr : Book.toValidUTF8 { r with Owner := newOwner } =
      { r with Owner := toValidUTF8 newOwner } := by
    unfold ValidUTF8 at h1 h2 h3
    simp only [Book.toValidUTF8, h1, h2, h3]
  rw [ht, hq, hJ.unmarshal_marshal _ _ hbs, hr]
  refine ⟨rfl, rfl, fun hv => ?_⟩
  unfold ValidUTF8 at hv
  rw [hv]

/-- Witness of C6: the seed book 1001 transferred to Alice after `InitLedger`. -/
theorem transfer_then_query_witness :
    GoJson refJson ∧ (InitLedger refJson Stub.empty).2.Healthy ∧
    (QueryBook refJson (InitLedger refJson Stub.empty).2 (utf8 "1001")).1 =
      .ok ⟨utf8 "1001", utf8 "西游记", utf8 "吴承恩", Float64.ofRatio 399 10, 30, utf8 "library"⟩ ∧
    (TransferBook refJson (InitLedger refJson Stub.empty).2 (utf8 "1001") (utf8 "Alice")).1 =
      none ∧
    (QueryBook refJson (TransferBook refJson (InitLedger refJson Stub.empty).2 (utf8 "1001")
      (utf8 "Alice")).2 (utf8 "1001")).1 =
      .ok ⟨utf8 "1001", utf8 "西游记", utf8 "吴承恩", Float64.ofRatio 399 10, 30, utf8 "Alice"⟩ :=
  have h := transfer_then_query refJson refJson_goJson (InitLedger refJson Stub.empty).2
    (utf8 "1001") (utf8 "Alice")
    ⟨utf8 "1001", utf8 "西游记", utf8 "吴承恩", Float64.ofRatio 399 10, 30, utf8 "library"⟩
    (by decide) (by decide)
  ⟨refJson_goJson, by decide, by decide, h.1, h.2.2 (by decide)⟩

/-- C7: in a store where `id` has a value and every store call succeeds, `DeleteBook(id)`
succeeds; after it `BookExists(id)` returns `false`, and a second `DeleteBook(id)` fails with
"the book id does not exist", makes no call but the read of `id`, and leaves the world state
as it was. -/
theorem delete_then_exists (ctx : Stub) (id : GoString) (v : Bytes)
    (hpresent : lookup id ctx.state = some v) (hhealthy : ctx.Healthy) :
    (DeleteBook ctx id).1 = none ∧
    (BookExists (DeleteBook ctx id).2 id).1 = .ok false ∧
    (DeleteBook (DeleteBook ctx id).2 id).1 = some (.doesNotExist id) ∧
    (DeleteBook (DeleteBook ctx id).2 id).2.trace =
      (DeleteBook ctx id).2.trace ++ [.getState id] ∧
    (DeleteBook (DeleteBook ctx id).2 id).2.state = (DeleteBook ctx id).2.state ∧
    (DeleteBook (BookExists (DeleteBook ctx id).2 id).2 id).1 = some (.doesNotExist id) := by
  have hd := DeleteBook_of_healthy hhealthy id v hpresent
  have h2 := Stub.healthy_after_two hhealthy (erase id ctx.state)
    (ctx.trace ++ [.getState id, .delState id])
  have hl : lookup id (erase id ctx.state) = none := lookup_erase_self id ctx.state
  have he := BookExists_of_healthy h2 id
  have h3 : (Stub.step ⟨erase id ctx.state, ctx.faults.tail.tail,
      ctx.trace ++ [.getState id, .delState id]⟩ (.getState id)).Healthy :=
    Stub.healthy_of_faults h2 rfl
  rw [hd]
  simp only
  rw [he, DeleteBook_of_absent h2 id hl, DeleteBook_of_absent h3 id hl]
  simp only [hl, bne_self_eq_false, Stub.step, and_self]

/-- Witness of C7: the seed book 1001 deleted after `InitLedger`. -/
theorem delete_then_exists_witness :
    (InitLedger refJson Stub.empty).2.Healthy ∧
    (DeleteBook (InitLedger refJson Stub.empty).2 (utf8 "1001")).1 = none ∧
    (BookExists (DeleteBook (InitLedger refJson Stub.empty).2 (utf8 "1001")).2
      (utf8 "1001")).1 = .ok false ∧
    (DeleteBook (DeleteBook (InitLedger refJson Stub.empty).2 (utf8 "1001")).2
      (utf8 "1001")).1 = some (.doesNotExist (utf8 "1001")) :=
  have h := delete_then_exists (InitLedger refJson Stub.empty).2 (utf8 "1001")
    ((refMarshal ⟨utf8 "1001", utf8 "西游记", utf8 "吴承恩", Float64.ofRatio 399 10, 30,
      utf8 "library"⟩).toOption.getD [])
    (by decide) (by decide)
  ⟨by decide, h.1, h.2.1, h.2.2.1⟩

/-- Counterexample to C8 as stated: a store that holds nothing under 9999 and whose next
call, the read of 9999, fails with `stub 7`; `UpdateBook` does not fail with "the book 9999
does not exist" but with the read failure in "failed to read from world state". -/
theorem update_missing_fails_counterexample :
    lookup (utf8 "9999") (Stub.mk [(utf8 "1001", utf8 "old")] [some (.stub 7)] []).state =
      none ∧
    (UpdateBook refJson ⟨[(utf8 "1001", utf8 "old")], [some (.stub 7)], []⟩ (utf8 "9999")
      (utf8 "x") (utf8 "y") (Float64.ofRatio 1 1) 1 (utf8 "z")).1 =
      some (.readFailed (.stub 7)) ∧
    (UpdateBook refJson ⟨[(utf8 "1001", utf8 "old")], [some (.stub 7)], []⟩ (utf8 "9999")
      (utf8 "x") (utf8 "y") (Float64.ofRatio 1 1) 1 (utf8 "z")).1 ≠
      some (.doesNotExist (utf8 "9999")) := by
  decide

/-- C8 (as amended): in a store that holds no value under `id`, `UpdateBook(id, ...)` with any
arguments fails: with "the book id does not exist" when the read of `id` succeeds, and with
the read failure in "failed to read from world state" when the read fails.  In both cases it
makes no call but that read (no `PutState`) and leaves the world state as it was: `id` still
has no value. -/
theorem update_missing_fails (J : Json) (ctx : Stub) (id bookName author : GoString)
    (price : Float64) (number : Int) (owner : GoString)
    (habsent : lookup id ctx.state = none) :
    (ctx.outcome = none →
      (UpdateBook J ctx id bookName author price number owner).1 = some (.doesNotExist id)) ∧
    (∀ e, ctx.outcome = some e →
      (UpdateBook J ctx id bookName author price number owner).1 = some (.readFailed e)) ∧
    (UpdateBook J ctx id bookName author price number owner).2.trace =
      ctx.trace ++ [.getState id] ∧
    (UpdateBook J ctx id bookName author price number owner).2.state = ctx.state ∧
    lookup id (UpdateBook J ctx id bookName author price number owner).2.state = none := by
  rcases ho : ctx.outcome with _ | e
  · have hc : UpdateBook J ctx id bookName author price number owner =
        (some (.doesNotExist id), ctx.step (.getState id)) := by
      simp only [UpdateBook, BookExists, Stub.GetState, ho, habsent, bne_self_eq_false]
    rw [hc]
    refine ⟨fun _ => rfl, ?_, rfl, rfl, habsent⟩
    intro e he
    cases he
  · have hc : UpdateBook J ctx id bookName author price number owner =
        (some (.readFailed e), ctx.step (.getState id)) := by
      simp only [UpdateBook, BookExists, Stub.GetState, ho]
    rw [hc]
    refine ⟨?_, ?_, rfl, rfl, habsent⟩
    · intro he
      cases he
    · intro e1 he
      cases he
      rfl

/-- Witness of C8: `UpdateBook` of the id 9999 after `InitLedger`. -/
theorem update_missing_fails_witness :
    lookup (utf8 "9999") (InitLedger refJson Stub.empty).2.state = none ∧
    (UpdateBook refJson (InitLedger refJson Stub.empty).2 (utf8 "9999") (utf8 "x") (utf8 "y")
      (Float64.ofRatio 1 1) 1 (utf8 "z")).1 = some (.doesNotExist (utf8 "9999")) ∧
    (UpdateBook refJson (InitLedger refJson Stub.empty).2 (utf8 "9999") (utf8 "x") (utf8 "y")
      (Float64.ofRatio 1 1) 1 (utf8 "z")).2.state = (InitLedger refJson Stub.empty).2.state :=
  have h := update_missing_fails refJson (InitLedger refJson Stub.empty).2 (utf8 "9999")
    (utf8 "x") (utf8 "y") (Float64.ofRatio 1 1) 1 (utf8 "z") (by decide)
  ⟨by decide, h.1 (by decide), h.2.2.2.1⟩

/-- C9: from an empty store on which every store call succeeds, `InitLedger` succeeds and,
after any sequence of `QueryBook` and `BookExists` calls, `queryAllBooks` returns exactly the
five books of the source, once each, in the ascending order of their ids 1001 to 1005. -/
theorem init_then_enumerate (J : Json) (hJ : GoJson J) (ctx : Stub) (reads : List ReadCall)
    (hempty : ctx.state = []) (hhealthy : ctx.Healthy) :
    (InitLedger J ctx).1 = none ∧
    (queryAllBooks J (runReads J reads (InitLedger J ctx).2)).1 = .ok seedBooks ∧
    seedBooks.map (fun b => b.ID) =
      [utf8 "1001", utf8 "1002", utf8 "1003", utf8 "1004", utf8 "1005"] ∧
    seedBooks.Pairwise (fun a b => keyLt a.ID b.ID = true) := by
  obtain ⟨h1, h2, h3⟩ := InitLedgerLoop_of_healthy hJ seedBooks ctx hhealthy seedBooks_finite
  rw [hempty, putAll_seedBooks] at h2
  refine ⟨h1, ?_, by decide, by decide⟩
  apply queryAllBooks_of_healthy J (runReads_healthy J reads _ h3)
  rw [runReads_state]
  show List.Forall₂ _ (InitLedgerLoop J seedBooks ctx).2.state seedBooks
  rw [h2, List.forall₂_map_left_iff, List.forall₂_same]
  intro b hb
  exact unmarshal_marshalled hJ b (seedBooks_finite b hb) (seedBooks_valid b hb)

/-- Witness of C9: the empty store, with reads of a seed id and of an unknown id in between. -/
theorem init_then_enumerate_witness :
    GoJson refJson ∧ Stub.empty.state = [] ∧ Stub.empty.Healthy ∧
    (queryAllBooks refJson (runReads refJson [.query (utf8 "1003"), .«exists» (utf8 "9999")]
      (InitLedger refJson Stub.empty).2)).1 = .ok seedBooks :=
  ⟨refJson_goJson, rfl, by decide,
    (init_then_enumerate refJson refJson_goJson Stub.empty
      [.query (utf8 "1003"), .«exists» (utf8 "9999")] rfl (by decide)).2.1⟩

/-- C10: the scenario of the specification on an empty store whose calls succeed.  After
`InitLedger`, `QueryBook("1001")` returns the book 1001, 西游记, 吴承恩, 39.9, 30, library; after
`TransferBook("1001", "Alice")`, `QueryBook("1001")` returns the same book with the owner
Alice; after `DeleteBook("1001")`, `BookExists("1001")` is `false`, while the books 1002 to
1005 still exist and are returned unchanged by `QueryBook`. -/
theorem scenario_holds (J : Json) (hJ : GoJson J) (ctx : Stub)
    (hempty : ctx.state = []) (hhealthy : ctx.Healthy) :
    (InitLedger J ctx).1 = none ∧
    (QueryBook J (afterInit J ctx) (utf8 "1001")).1 =
      .ok ⟨utf8 "1001", utf8 "西游记", utf8 "吴承恩", Float64.ofRatio 399 10, 30, utf8 "library"⟩ ∧
    (TransferBook J (afterQuery J ctx) (utf8 "1001") (utf8 "Alice")).1 = none ∧
    (QueryBook J (afterTransfer J ctx) (utf8 "1001")).1 =
      .ok ⟨utf8 "1001", utf8 "西游记", utf8 "吴承恩", Float64.ofRatio 399 10, 30, utf8 "Alice"⟩ ∧
    (DeleteBook (afterRequery J ctx) (utf8 "1001")).1 = none ∧
    (BookExists (afterDelete J ctx) (utf8 "1001")).1 = .ok false ∧
    (∀ b ∈ seedBooks.tail, (BookExists (afterDelete J ctx) b.ID).1 = .ok true ∧
      (QueryBook J (afterDelete J ctx) b.ID).1 = .ok b) := by
  have hmem : ∀ b ∈ seedBooks.tail, b ∈ seedBooks := fun b hb => List.mem_of_mem_tail hb
  have hne : ∀ b ∈ seedBooks.tail, utf8 "1001" ≠ b.ID := by decide
  have hseed : (⟨utf8 "1001", utf8 "西游记", utf8 "吴承恩", Float64.ofRatio 399 10, 30,
      utf8 "library"⟩ : Book) ∈ seedBooks := by decide
  have halice := marshalled_eq hJ ⟨utf8 "1001", utf8 "西游记", utf8 "吴承恩",
    Float64.ofRatio 399 10, 30, utf8 "Alice"⟩ (by decide)
  -- InitLedger
  obtain ⟨i1, i2, i3⟩ := InitLedgerLoop_of_healthy hJ seedBooks ctx hhealthy seedBooks_finite
  rw [hempty, putAll_seedBooks] at i2
  -- QueryBook("1001")
  obtain ⟨q1, q2, q3⟩ := QueryBook_spec J i3 (utf8 "1001") _
    (by rw [i2]; exact lookup_seedBooks J _ hseed)
  rw [unmarshal_marshalled hJ _ (seedBooks_finite _ hseed) (seedBooks_valid _ hseed)] at q1
  rw [i2] at q2
  -- TransferBook("1001", "Alice")
  obtain ⟨t1, t2, t3⟩ := TransferBook_spec J q3 (utf8 "1001") (utf8 "Alice") _ _ _
    (by rw [q2]; exact lookup_seedBooks J _ hseed)
    (unmarshal_marshalled hJ _ (seedBooks_finite _ hseed) (seedBooks_valid _ hseed)) halice
  rw [q2] at t2
  -- QueryBook("1001")
  obtain ⟨r1, r2, r3⟩ := QueryBook_spec J t3 (utf8 "1001") _
    (by rw [t2]; exact lookup_insert_self _ _ _)
  rw [unmarshal_marshalled hJ _ (by decide) (by decide)] at r1
  rw [t2] at r2
  -- DeleteBook("1001")
  obtain ⟨d1, d2, d3⟩ := DeleteBook_spec r3 (utf8 "1001") _
    (by rw [r2]; exact lookup_insert_self _ _ _)
  rw [r2] at d2
  -- BookExists and QueryBook after the delete
  refine ⟨i1, q1, t1, r1, d1, ?_, ?_⟩
  · have he := (BookExists_spec d3 (utf8 "1001")).1
    rw [d2, lookup_erase_self] at he
    exact he
  · intro b hb
    have hl : lookup b.ID (DeleteBook (QueryBook J (TransferBook J (QueryBook J
        (InitLedgerLoop J seedBooks ctx).2 (utf8 "1001")).2 (utf8 "1001") (utf8 "Alice")).2
        (utf8 "1001")).2 (utf8 "1001")).2.state = some (marshalled J b) := by
      rw [d2, lookup_erase_of_ne _ _ _ (hne b hb), lookup_insert_of_ne _ _ _ _ (hne b hb)]
      exact lookup_seedBooks J b (hmem b hb)
    constructor
    · have he := (BookExists_spec d3 b.ID).1
      rw [hl] at he
      exact he
    · have hq := (QueryBook_spec J d3 b.ID _ hl).1
      rw [unmarshal_marshalled hJ b (seedBooks_finite b (hmem b hb))
        (seedBooks_valid b (hmem b hb))] at hq
      exact hq

/-- Witness of C10: the scenario on the empty store with the reference codec. -/
theorem scenario_holds_witness :
    GoJson refJson ∧ Stub.empty.state = [] ∧ Stub.empty.Healthy ∧
    (QueryBook refJson (afterTransfer refJson Stub.empty) (utf8 "1001")).1 =
      .ok ⟨utf8 "1001", utf8 "西游记", utf8 "吴承恩", Float64.ofRatio 399 10, 30, utf8 "Alice"⟩ ∧
    (BookExists (afterDelete refJson Stub.empty) (utf8 "1001")).1 = .ok false :=
  have h := scenario_holds refJson refJson_goJson Stub.empty rfl (by decide)
  ⟨refJson_goJson, rfl, by decide, h.2.2.2.1, h.2.2.2.2.2.1⟩

/-! ## The order of the keys -/

theorem keyLt_irrefl (a : GoString) : keyLt a a = false := by
  induction a with
  | nil => rfl
  | cons x xs ih => simp [keyLt, ih, UInt8.lt_irrefl]

theorem keyLt_asymm : ∀ a b : GoString, keyLt a b = true → keyLt b a = false := by
  intro a
  induction a with
  | nil => intro b _; cases b <;> rfl
  | cons x xs ih =>
    intro b h
    cases b with
    | nil => simp [keyLt] at h
    | cons y ys =>
      simp only [keyLt, Bool.or_eq_true, decide_eq_true_eq, Bool.and_eq_true, beq_iff_eq] at h
      simp only [keyLt, Bool.or_eq_false_iff, decide_eq_false_iff_not, Bool.and_eq_false_imp,
        beq_iff_eq]
      rcases h with h | ⟨rfl, h⟩
      · exact ⟨UInt8.lt_asymm h, fun hxy => absurd (hxy ▸ h) (UInt8.lt_irrefl _)⟩
      · exact ⟨UInt8.lt_irrefl _, fun _ => ih ys h⟩

theorem keyLt_trans : ∀ a b c : GoString, keyLt a b = true → keyLt b c = true →
    keyLt a c = true := by
  intro a
  induction a with
  | nil =>
    intro b c h1 h2
    cases b with
    | nil => simp [keyLt] at h1
    | cons y ys =>
      cases c with
      | nil => simp [keyLt] at h2
      | cons z zs => rfl
  | cons x xs ih =>
    intro b c h1 h2
    cases b with
    | nil => simp [keyLt] at h1
    | cons y ys =>
      cases c with
      | nil => simp [keyLt] at h2
      | cons z zs =>
        simp only [keyLt, Bool.or_eq_true, decide_eq_true_eq, Bool.and_eq_true,
          beq_iff_eq] at h1 h2 ⊢
        rcases h1 with h1 | ⟨rfl, h1⟩
        · rcases h2 with h2 | ⟨rfl, h2⟩
          · exact Or.inl (UInt8.lt_trans h1 h2)
          · exact Or.inl h1
        · rcases h2 with h2 | ⟨rfl, h2⟩
          · exact Or.inl h2
          · exact Or.inr ⟨rfl, ih ys zs h1 h2⟩

theorem keyLt_ne (a b : GoString) (h : keyLt a b = true) : a ≠ b := by
  intro hab
  rw [hab, keyLt_irrefl] at h
  cases h

/-! ## Entries of a world state -/

theorem mem_insert {key : GoString} {value : Bytes} {l : List (GoString × Bytes)}
    {x : GoString × Bytes} (h : x ∈ insert key value l) : x = (key, value) ∨ x ∈ l := by
  induction l with
  | nil => simp only [insert, List.mem_singleton] at h; exact Or.inl h
  | cons kv rest ih =>
    obtain ⟨k, v⟩ := kv
    simp only [insert] at h
    split_ifs at h with h1 h2
    · simpa using h
    · rcases List.mem_cons.1 h with h | h
      · exact Or.inl h
      · exact Or.inr (List.mem_cons_of_mem _ h)
    · rcases List.mem_cons.1 h with h | h
      · exact Or.inr (h ▸ List.mem_cons_self _ _)
      · rcases ih h with h | h
        · exact Or.inl h
        · exact Or.inr (List.mem_cons_of_mem _ h)

theorem mem_erase {key : GoString} {l : List (GoString × Bytes)} {x : GoString × Bytes}
    (h : x ∈ erase key l) : x ∈ l := by
  induction l with
  | nil => simp [erase] at h
  | cons kv rest ih =>
    obtain ⟨k, v⟩ := kv
    simp only [erase] at h
    split_ifs at h with h1
    · exact List.mem_cons_of_mem _ (ih h)
    · rcases List.mem_cons.1 h with h | h
      · exact h ▸ List.mem_cons_self _ _
      · exact List.mem_cons_of_mem _ (ih h)

theorem mem_of_lookup {key : GoString} {value : Bytes} {l : List (GoString × Bytes)}
    (h : lookup key l = some value) : (key, value) ∈ l := by
  induction l with
  | nil => cases h
  | cons kv rest ih =>
    obtain ⟨k, v⟩ := kv
    simp only [lookup] at h
    split_ifs at h with h1
    · cases h; subst h1; exact List.mem_cons_self _ _
    · exact List.mem_cons_of_mem _ (ih h)

theorem mem_putAll (J : Json) (books : List Book) :
    ∀ (l : List (GoString × Bytes)) (x : GoString × Bytes), x ∈ putAll J books l →
      x ∈ l ∨ ∃ b ∈ books, x = (b.ID, marshalled J b) := by
  induction books with
  | nil => intro l x h; exact Or.inl h
  | cons b rest ih =>
    intro l x h
    rcases ih _ x h with h | ⟨b1, hb1, hx⟩
    · rcases mem_insert h with h | h
      · exact Or.inr ⟨b, List.mem_cons_self _ _, h⟩
      · exact Or.inl h
    · exact Or.inr ⟨b1, List.mem_cons_of_mem _ hb1, hx⟩

theorem lookup_putAll_of_not_mem (J : Json) (books : List Book) (key : GoString) :
    ∀ l : List (GoString × Bytes), (∀ b ∈ books, b.ID ≠ key) →
      lookup key (putAll J books l) = lookup key l := by
  induction books with
  | nil => intro l _; rfl
  | cons b rest ih =>
    intro l h
    rw [putAll, ih _ (fun b1 hb1 => h b1 (List.mem_cons_of_mem _ hb1)),
      lookup_insert_of_ne _ _ _ _ (h b (List.mem_cons_self _ _))]

/-! ## What a call does to the world state, whether it succeeds or fails -/

theorem Stub.PutState_state (s : Stub) (key : GoString) (value : Bytes) :
    (s.PutState key value).2.state = s.state ∨
      ((s.PutState key value).1 = none ∧
        (s.PutState key value).2.state = insert key value s.state) := by
  unfold Stub.PutState
  split
  · exact Or.inl rfl
  · exact Or.inr ⟨rfl, rfl⟩

theorem Stub.DelState_state (s : Stub) (key : GoString) :
    (s.DelState key).2.state = s.state ∨ (s.DelState key).2.state = erase key s.state := by
  unfold Stub.DelState
  split
  · exact Or.inl rfl
  · exact Or.inr rfl

theorem BookExists_eq (ctx : Stub) (id : GoString) :
    BookExists ctx id = ((BookExists ctx id).1, ctx.step (.getState id)) := by
  rw [← BookExists_snd]

theorem QueryBook_eq (J : Json) (ctx : Stub) (id : GoString) :
    QueryBook J ctx id = ((QueryBook J ctx id).1, ctx.step (.getState id)) := by
  rw [← QueryBook_snd]

theorem CreateBook_state (J : Json) (ctx : Stub) (id bookName author : GoString)
    (price : Float64) (number : Int) (owner : GoString) :
    (CreateBook J ctx id bookName author price number owner).2.state = ctx.state ∨
      ∃ bookJSON, J.Marshal ⟨id, bookName, author, price, number, owner⟩ = .ok bookJSON ∧
        (CreateBook J ctx id bookName author price number owner).2.state =
          insert id bookJSON ctx.state := by
  unfold CreateBook
  rw [BookExists_eq]
  rcases (BookExists ctx id).1 with err | (_ | _)
  · exact Or.inl rfl
  · simp only
    rcases hm : J.Marshal ⟨id, bookName, author, price, number, owner⟩ with err | bookJSON
    · exact Or.inl rfl
    · rcases Stub.PutState_state (ctx.step (.getState id)) id bookJSON with h | ⟨-, h⟩
      · exact Or.inl h
      · exact Or.inr ⟨bookJSON, rfl, h⟩
  · exact Or.inl rfl

theorem UpdateBook_state (J : Json) (ctx : Stub) (id bookName author : GoString)
    (price : Float64) (number : Int) (owner : GoString) :
    (UpdateBook J ctx id bookName author price number owner).2.state = ctx.state ∨
      ∃ bookJSON, J.Marshal ⟨id, bookName, author, price, number, owner⟩ = .ok bookJSON ∧
        (UpdateBook J ctx id bookName author price number owner).2.state =
          insert id bookJSON ctx.state := by
  unfold UpdateBook
  rw [BookExists_eq]
  rcases (BookExists ctx id).1 with err | (_ | _)
  · exact Or.inl rfl
  · exact Or.inl rfl
  · simp only
    rcases hm : J.Marshal ⟨id, bookName, author, price, number, owner⟩ with err | bookJSON
    · exact Or.inl rfl
    · rcases Stub.PutState_state (ctx.step (.getState id)) id bookJSON with h | ⟨-, h⟩
      · exact Or.inl h
      · exact Or.inr ⟨bookJSON, rfl, h⟩

theorem DeleteBook_state (ctx : Stub) (id : GoString) :
    (DeleteBook ctx id).2.state = ctx.state ∨
      (DeleteBook ctx id).2.state = erase id ctx.state := by
  unfold DeleteBook
  rw [BookExists_eq]
  rcases (BookExists ctx id).1 with err | (_ | _)
  · exact Or.inl rfl
  · exact Or.inl rfl
  · exact Stub.DelState_state (ctx.step (.getState id)) id

theorem TransferBook_state (J : Json) (ctx : Stub) (id newOwner : GoString) :
    (TransferBook J ctx id newOwner).2.state = ctx.state ∨
      ∃ v book bookJSON, lookup id ctx.state = some v ∧ J.Unmarshal v = .ok book ∧
        J.Marshal { book with Owner := newOwner } = .ok bookJSON ∧
        (TransferBook J ctx id newOwner).2.state = insert id bookJSON ctx.state := by
  unfold TransferBook
  rcases hq : (QueryBook J ctx id).1 with err | book
  · rw [QueryBook_eq, hq]
    exact Or.inl rfl
  · obtain ⟨v, hv, hu⟩ := QueryBook_eq_ok hq
    rw [QueryBook_eq, hq]
    simp only
    rcases hm : J.Marshal { book with Owner := newOwner } with err | bookJSON
    · exact Or.inl rfl
    · rcases Stub.PutState_state (ctx.step (.getState id)) id bookJSON with h | ⟨-, h⟩
      · exact Or.inl h
      · exact Or.inr ⟨v, book, bookJSON, hv, hu, hm, h⟩

theorem InitLedgerLoop_state (J : Json) (books : List Book) :
    ∀ ctx : Stub, ∃ n, n ≤ books.length ∧
      (InitLedgerLoop J books ctx).2.state = putAll J (books.take n) ctx.state ∧
      (∀ b ∈ books.take n, J.Marshal b = .ok (marshalled J b)) ∧
      ((InitLedgerLoop J books ctx).1 = none → n = books.length) := by
  induction books with
  | nil =>
    intro ctx
    refine ⟨0, le_refl _, rfl, ?_, fun _ => rfl⟩
    intro b hb
    simp at hb
  | cons book rest ih =>
    intro ctx
    unfold InitLedgerLoop
    rcases hm : J.Marshal book with err | bookJSON
    · refine ⟨0, Nat.zero_le _, rfl, ?_, fun h => by cases h⟩
      intro b hb
      simp at hb
    · have hmd : marshalled J book = bookJSON := by simp only [marshalled, hm]
      rcases ho : ctx.outcome with _ | err
      · simp only [Stub.PutState, ho]
        obtain ⟨n, hn, hst, hall, hlen⟩ := ih
          { ctx.step (.putState book.ID bookJSON) with
            state := insert book.ID bookJSON ctx.state }
        refine ⟨n + 1, Nat.succ_le_succ hn, ?_, ?_, fun h => by rw [hlen h]; rfl⟩
        · rw [hst, List.take_succ_cons, putAll, hmd]
        · intro b hb
          rw [List.take_succ_cons] at hb
          rcases List.mem_cons.1 hb with rfl | hb
          · rw [hm, hmd]
          · exact hall b hb
      · simp only [Stub.PutState, ho]
        refine ⟨0, Nat.zero_le _, rfl, ?_, fun h => by cases h⟩
        intro b hb
        simp at hb

/-! ## `InitLedger` when a write fails -/

theorem InitLedgerLoop_of_fault {J : Json} (hJ : GoJson J) (e : Error)
    (rest : List (Option Error)) :
    ∀ (n : Nat) (books : List Book) (ctx : Stub), n < books.length →
      (∀ b ∈ books, b.Price.isFinite = true) →
      ctx.faults = List.replicate n none ++ some e :: rest →
      InitLedgerLoop J books ctx =
        (some (.putFailed e),
          ⟨putAll J (books.take n) ctx.state, rest,
            ctx.trace ++ (books.take (n + 1)).map fun b => .putState b.ID (marshalled J b)⟩) := by
  intro n
  induction n with
  | zero =>
    intro books ctx hlen hfin hf
    cases books with
    | nil => simp at hlen
    | cons book tl =>
      have hm := marshalled_eq hJ book (hfin book (List.mem_cons_self _ _))
      have ho : ctx.outcome = some e := by simp [Stub.outcome, hf]
      simp only [InitLedgerLoop, hm, Stub.PutState, ho, Stub.step, hf, List.replicate_zero,
        List.nil_append, List.tail_cons, List.take_zero, putAll, zero_add, List.take_succ_cons,
        List.map_cons, List.map_nil]
  | succ n ih =>
    intro books ctx hlen hfin hf
    cases books with
    | nil => simp at hlen
    | cons book tl =>
      have hm := marshalled_eq hJ book (hfin book (List.mem_cons_self _ _))
      have ho : ctx.outcome = none := by simp [Stub.outcome, hf, List.replicate_succ]
      have hrec := ih tl
        { ctx.step (.putState book.ID (marshalled J book)) with
          state := insert book.ID (marshalled J book) ctx.state }
        (by simpa using hlen) (fun b hb => hfin b (List.mem_cons_of_mem _ hb))
        (by simp [Stub.step, hf, List.replicate_succ])
      simp only [InitLedgerLoop, hm, Stub.PutState, ho]
      rw [hrec]
      simp only [Stub.step, List.take_succ_cons, putAll, List.map_cons, List.append_assoc,
        List.singleton_append]

/-- Counterexample to C11 as stated: on the empty store the first write fails with the failure
`stub 7`; `InitLedger` does not return that failure but the error it builds from it with
`fmt.Errorf("failed to put to world state. %v", err)`. -/
theorem init_write_failure_counterexample :
    (InitLedger refJson ⟨[], [some (.stub 7)], []⟩).1 = some (.putFailed (.stub 7)) ∧
    (InitLedger refJson ⟨[], [some (.stub 7)], []⟩).1 ≠ some (.stub 7) := by
  decide

/-- C11 (as amended): if during `InitLedger` the first `k - 1` writes succeed and the `k`-th
fails with the failure `e` (`1 ≤ k ≤ 5`), then `InitLedger` returns the error built from `e`
by `fmt.Errorf("failed to put to world state. %v", e)`, makes no call after the failed one
(the trace gets the first `k` puts and nothing else), and leaves the initial world state with
exactly the first `k - 1` books of the source put into it, in the order 1001, 1002, ... -/
theorem init_write_failure (J : Json) (hJ : GoJson J) (ctx : Stub) (k : Nat) (e : Error)
    (rest : List (Option Error)) (hk : 1 ≤ k) (hk5 : k ≤ 5)
    (hfaults : ctx.faults = List.replicate (k - 1) none ++ some e :: rest) :
    (InitLedger J ctx).1 = some (.putFailed e) ∧
    (InitLedger J ctx).2.state = putAll J (seedBooks.take (k - 1)) ctx.state ∧
    (InitLedger J ctx).2.trace =
      ctx.trace ++ (seedBooks.take k).map (fun b => .putState b.ID (marshalled J b)) ∧
    (InitLedger J ctx).2.faults = rest := by
  have h := InitLedgerLoop_of_fault hJ e rest (k - 1) seedBooks ctx
    (by have : seedBooks.length = 5 := rfl; omega) seedBooks_finite hfaults
  have hk1 : k - 1 + 1 = k := by omega
  rw [hk1] at h
  unfold InitLedger
  rw [h]
  exact ⟨rfl, rfl, rfl, rfl⟩

/-- Witness of C11: the third write fails on a store that already holds a book 1002. -/
theorem init_write_failure_witness :
    (1 ≤ 3 ∧ 3 ≤ 5) ∧
    (InitLedger refJson ⟨[(utf8 "1002", utf8 "old")], [none, none, some (.stub 7), none],
      []⟩).1 = some (.putFailed (.stub 7)) ∧
    (InitLedger refJson ⟨[(utf8 "1002", utf8 "old")], [none, none, some (.stub 7), none],
      []⟩).2.state =
      putAll refJson (seedBooks.take 2) [(utf8 "1002", utf8 "old")] ∧
    ((InitLedger refJson ⟨[(utf8 "1002", utf8 "old")], [none, none, some (.stub 7), none],
      []⟩).2.state.map fun kv => kv.1) = [utf8 "1001", utf8 "1002"] :=
  have h := init_write_failure refJson refJson_goJson
    ⟨[(utf8 "1002", utf8 "old")], [none, none, some (.stub 7), none], []⟩ 3 (.stub 7) [none]
    (by decide) (by decide) rfl
  ⟨by decide, h.1, h.2.1, by decide⟩

/-! ## Putting a key again -/

theorem insert_append_of_pass (key : GoString) (value : Bytes)
    (front back : List (GoString × Bytes))
    (h : ∀ a ∈ front, keyLt key a.1 = false ∧ a.1 ≠ key) :
    insert key value (front ++ back) = front ++ insert key value back := by
  induction front with
  | nil => rfl
  | cons kv tl ih =>
    obtain ⟨k, v⟩ := kv
    obtain ⟨h1, h2⟩ := h (k, v) (List.mem_cons_self _ _)
    simp only at h1 h2
    have hrec := ih (fun a ha => h a (List.mem_cons_of_mem _ ha))
    show insert key value ((k, v) :: (tl ++ back)) = (k, v) :: (tl ++ insert key value back)
    simp only [insert, h1, h2, Bool.false_eq_true, if_false, hrec]

theorem insert_cons_self (key : GoString) (value old : Bytes) (back : List (GoString × Bytes)) :
    insert key value ((key, old) :: back) = (key, value) :: back := by
  simp only [insert, keyLt_irrefl, Bool.false_eq_true, if_false, if_true]

/-- The entry `(key, value)` stands in `l` behind entries with smaller keys only. -/
theorem reach_insert (key : GoString) (value : Bytes) (l : List (GoString × Bytes)) :
    ∃ front back, insert key value l = front ++ (key, value) :: back ∧
      ∀ a ∈ front, keyLt key a.1 = false ∧ a.1 ≠ key := by
  induction l with
  | nil => exact ⟨[], [], rfl, fun a ha => by cases ha⟩
  | cons kv tl ih =>
    obtain ⟨k, v⟩ := kv
    simp only [insert]
    split_ifs with h1 h2
    · exact ⟨[], (k, v) :: tl, rfl, fun a ha => by cases ha⟩
    · exact ⟨[], tl, rfl, fun a ha => by cases ha⟩
    · obtain ⟨front, back, he, hp⟩ := ih
      refine ⟨(k, v) :: front, back, by rw [he]; rfl, ?_⟩
      intro a ha
      rcases List.mem_cons.1 ha with rfl | ha
      · exact ⟨by simpa using h1, h2⟩
      · exact hp a ha

theorem reach_insert_greater (key other : GoString) (value w : Bytes)
    (front back : List (GoString × Bytes))
    (hp : ∀ a ∈ front, keyLt key a.1 = false ∧ a.1 ≠ key) (hlt : keyLt key other = true) :
    insert other w (front ++ (key, value) :: back) =
      front ++ (key, value) :: insert other w back := by
  rw [insert_append_of_pass]
  · simp only [insert, keyLt_asymm _ _ hlt, keyLt_ne _ _ hlt, Bool.false_eq_true, if_false]
  · intro a ha
    obtain ⟨h1, h2⟩ := hp a ha
    constructor
    · by_contra hc
      have hoa : keyLt other a.1 = true := by simpa using hc
      rw [keyLt_trans _ _ _ hlt hoa] at h1
      cases h1
    · intro hao
      rw [hao, hlt] at h1
      cases h1

theorem putAll_reach (J : Json) (books : List Book) (key : GoString) (value : Bytes) :
    ∀ front back : List (GoString × Bytes),
      (∀ a ∈ front, keyLt key a.1 = false ∧ a.1 ≠ key) →
      (∀ b ∈ books, keyLt key b.ID = true) →
      ∃ back1, putAll J books (front ++ (key, value) :: back) =
        front ++ (key, value) :: back1 := by
  induction books with
  | nil => intro front back _ _; exact ⟨back, rfl⟩
  | cons b tl ih =>
    intro front back hp hlt
    rw [putAll, reach_insert_greater key b.ID value _ front back hp
      (hlt b (List.mem_cons_self _ _))]
    exact ih front _ hp (fun b1 hb1 => hlt b1 (List.mem_cons_of_mem _ hb1))

theorem putAll_again (J : Json) (books : List Book)
    (hsorted : books.Pairwise fun a b => keyLt a.ID b.ID = true) :
    ∀ l : List (GoString × Bytes),
      (∀ b ∈ books, ∃ front back, l = front ++ (b.ID, marshalled J b) :: back ∧
        ∀ a ∈ front, keyLt b.ID a.1 = false ∧ a.1 ≠ b.ID) →
      putAll J books l = l := by
  induction books with
  | nil => intro l _; rfl
  | cons b tl ih =>
    intro l h
    obtain ⟨front, back, hl, hp⟩ := h b (List.mem_cons_self _ _)
    have hsame : insert b.ID (marshalled J b) l = l := by
      rw [hl, insert_append_of_pass _ _ _ _ hp, insert_cons_self]
    rw [putAll, hsame]
    exact ih (List.Pairwise.of_cons hsorted) l
      (fun b1 hb1 => h b1 (List.mem_cons_of_mem _ hb1))

theorem putAll_reach_all (J : Json) (books : List Book)
    (hsorted : books.Pairwise fun a b => keyLt a.ID b.ID = true) :
    ∀ l : List (GoString × Bytes), ∀ b ∈ books,
      ∃ front back, putAll J books l = front ++ (b.ID, marshalled J b) :: back ∧
        ∀ a ∈ front, keyLt b.ID a.1 = false ∧ a.1 ≠ b.ID := by
  induction books with
  | nil => intro l b hb; cases hb
  | cons b0 tl ih =>
    intro l b hb
    rw [putAll]
    rcases List.mem_cons.1 hb with rfl | hb
    · obtain ⟨front, back, he, hp⟩ := reach_insert b.ID (marshalled J b) l
      rw [he]
      obtain ⟨back1, hb1⟩ := putAll_reach J tl b.ID (marshalled J b) front back hp
        (fun b1 h1 => List.rel_of_pairwise_cons hsorted h1)
      exact ⟨front, back1, hb1, hp⟩
    · exact ih (List.Pairwise.of_cons hsorted) _ b hb

theorem putAll_idem (J : Json) (books : List Book)
    (hsorted : books.Pairwise fun a b => keyLt a.ID b.ID = true)
    (l : List (GoString × Bytes)) :
    putAll J books (putAll J books l) = putAll J books l :=
  putAll_again J books hsorted _ (putAll_reach_all J books hsorted l)

theorem lookup_putAll_of_mem (J : Json) (books : List Book)
    (hsorted : books.Pairwise fun a b => keyLt a.ID b.ID = true)
    (l : List (GoString × Bytes)) (b : Book) (hb : b ∈ books) :
    lookup b.ID (putAll J books l) = some (marshalled J b) := by
  obtain ⟨front, back, he, hp⟩ := putAll_reach_all J books hsorted l b hb
  have h := lookup_insert_self b.ID (marshalled J b) (putAll J books l)
  rw [he, insert_append_of_pass _ _ _ _ hp, insert_cons_self, ← he] at h
  exact h

theorem seedBooks_sorted : seedBooks.Pairwise fun a b => keyLt a.ID b.ID = true := by
  decide

theorem InitLedger_state_of_success (J : Json) (ctx : Stub) (h : (InitLedger J ctx).1 = none) :
    (InitLedger J ctx).2.state = putAll J seedBooks ctx.state ∧
      ∀ b ∈ seedBooks, J.Marshal b = .ok (marshalled J b) := by
  obtain ⟨n, -, hst, hall, hlen⟩ := InitLedgerLoop_state J seedBooks ctx
  have hn := hlen h
  rw [hn, List.take_length] at hst hall
  exact ⟨hst, hall⟩

/-- C12: after a successful `InitLedger`, whatever the store held before, each of the five
seed ids holds the encoding of its book of the source, which decodes to that book; every
key that is not a seed id holds the value it held before (or none, as before); and a second
successful `InitLedger` leaves the world state exactly as the first one left it. -/
theorem init_overwrites (J : Json) (hJ : GoJson J) (ctx : Stub)
    (hok : (InitLedger J ctx).1 = none) :
    (∀ b ∈ seedBooks, lookup b.ID (InitLedger J ctx).2.state = some (marshalled J b) ∧
      J.Unmarshal (marshalled J b) = .ok b) ∧
    (∀ key, (∀ b ∈ seedBooks, b.ID ≠ key) →
      lookup key (InitLedger J ctx).2.state = lookup key ctx.state) ∧
    ((InitLedger J (InitLedger J ctx).2).1 = none →
      (InitLedger J (InitLedger J ctx).2).2.state = (InitLedger J ctx).2.state) := by
  obtain ⟨hst, -⟩ := InitLedger_state_of_success J ctx hok
  refine ⟨fun b hb => ⟨?_, ?_⟩, fun key hkey => ?_, fun hok2 => ?_⟩
  · rw [hst]
    exact lookup_putAll_of_mem J seedBooks seedBooks_sorted ctx.state b hb
  · exact unmarshal_marshalled hJ b (seedBooks_finite b hb) (seedBooks_valid b hb)
  · rw [hst]
    exact lookup_putAll_of_not_mem J seedBooks key ctx.state hkey
  · obtain ⟨hst2, -⟩ := InitLedger_state_of_success J _ hok2
    rw [hst2, hst]
    exact putAll_idem J seedBooks seedBooks_sorted ctx.state

/-- Witness of C12: a store that holds an old value under 1003 and a value under 2001. -/
theorem init_overwrites_witness :
    GoJson refJson ∧
    (InitLedger refJson ⟨[(utf8 "1003", utf8 "old"), (utf8 "2001", utf8 "kept")], [], []⟩).1 =
      none ∧
    (QueryBook refJson (InitLedger refJson
      ⟨[(utf8 "1003", utf8 "old"), (utf8 "2001", utf8 "kept")], [], []⟩).2 (utf8 "1003")).1 =
      .ok ⟨utf8 "1003", utf8 "三国演义", utf8 "罗贯中", Float64.ofRatio 299 10, 10,
        utf8 "library"⟩ ∧
    lookup (utf8 "2001") (InitLedger refJson
      ⟨[(utf8 "1003", utf8 "old"), (utf8 "2001", utf8 "kept")], [], []⟩).2.state =
      lookup (utf8 "2001") [(utf8 "1003", utf8 "old"), (utf8 "2001", utf8 "kept")] :=
  have h := init_overwrites refJson refJson_goJson
    ⟨[(utf8 "1003", utf8 "old"), (utf8 "2001", utf8 "kept")], [], []⟩ (by decide)
  ⟨refJson_goJson, by decide, by decide, h.2.1 (utf8 "2001") (by decide)⟩

/-! ## `queryAllBooks` on a value that does not decode -/

theorem queryAllBooksLoop_of_bad (J : Json) (e : GoString × Bytes)
    (back : List (GoString × Bytes)) (err : Error) (hbad : J.Unmarshal e.2 = .error err) :
    ∀ (front : List (GoString × Bytes)) (ctx : Stub) (acc decoded : List Book), ctx.Healthy →
      List.Forall₂ (fun e b => J.Unmarshal e.2 = .ok b) front decoded →
      (queryAllBooksLoop J (front ++ e :: back) ctx acc).1 = .error err := by
  intro front
  induction front with
  | nil =>
    intro ctx acc decoded h _
    simp only [List.nil_append, queryAllBooksLoop, Stub.Next, Stub.outcome_of_healthy h, hbad]
  | cons e0 tl ih =>
    intro ctx acc decoded h hall
    cases hall with
    | cons hb hrest =>
      simp only [List.cons_append, queryAllBooksLoop, Stub.Next, Stub.outcome_of_healthy h, hb]
      exact ih _ _ _ (Stub.healthy_of_faults h rfl) hrest

/-- C13: on a store whose calls succeed, the scan yielding the entries of the world state in
order: if every value decodes, `queryAllBooks` returns the decoded books in the order of the
scan, as many as there are entries; if the values before some entry decode and that entry
does not, `queryAllBooks` returns the error of `json.Unmarshal` and no book at all. -/
theorem enumerate_all_or_nothing (J : Json) (ctx : Stub) (hhealthy : ctx.Healthy) :
    (∀ books, List.Forall₂ (fun e b => J.Unmarshal e.2 = .ok b) ctx.state books →
      (queryAllBooks J ctx).1 = .ok books ∧ books.length = ctx.state.length) ∧
    (∀ front e back decoded err, ctx.state = front ++ e :: back →
      List.Forall₂ (fun e b => J.Unmarshal e.2 = .ok b) front decoded →
      J.Unmarshal e.2 = .error err →
      (queryAllBooks J ctx).1 = .error err) := by
  refine ⟨fun books hall => ⟨queryAllBooks_of_healthy J hhealthy books hall,
    (List.Forall₂.length_eq hall).symm⟩, ?_⟩
  intro front e back decoded err hst hall hbad
  simp only [queryAllBooks, Stub.GetStateByRange_all hhealthy, hst]
  exact queryAllBooksLoop_of_bad J e back err hbad front _ [] decoded
    (Stub.healthy_of_faults hhealthy rfl) hall

/-- Witness of C13: after `InitLedger` every value decodes, and all five books are returned;
with a value that is not an encoding put under 1003, the two books before it are decoded and
the result is the error alone. -/
theorem enumerate_all_or_nothing_witness :
    (InitLedger refJson Stub.empty).2.Healthy ∧
    (queryAllBooks refJson (InitLedger refJson Stub.empty).2).1 = .ok seedBooks ∧
    (queryAllBooks refJson
      ⟨insert (utf8 "1003") (utf8 "\x7b") (InitLedger refJson Stub.empty).2.state, [], []⟩).1 =
      .error (.json 2) :=
  ⟨by decide,
    ((enumerate_all_or_nothing refJson (InitLedger refJson Stub.empty).2 (by decide)).1 seedBooks
      (by decide)).1,
    (enumerate_all_or_nothing refJson
      ⟨insert (utf8 "1003") (utf8 "\x7b") (InitLedger refJson Stub.empty).2.state, [], []⟩
      (by decide)).2
      ((InitLedger refJson Stub.empty).2.state.take 2) (utf8 "1003", utf8 "\x7b")
      ((InitLedger refJson Stub.empty).2.state.drop 3) (seedBooks.take 2) (.json 2)
      (by decide) (by decide) (by decide)⟩

/-! ## Calls whose read or write fails -/

theorem Stub.GetState_of_fault {s : Stub} {e : Error} (h : s.outcome = some e)
    (key : GoString) : s.GetState key = (.error e, s.step (.getState key)) := by
  simp only [Stub.GetState, h]

theorem Stub.GetState_of_ok {s : Stub} (h : s.outcome = none) (key : GoString) :
    s.GetState key = (.ok (lookup key s.state), s.step (.getState key)) := by
  simp only [Stub.GetState, h]

theorem TransferBook_of_query_error (J : Json) (ctx : Stub) (id newOwner : GoString)
    (err : Error) (h : (QueryBook J ctx id).1 = .error err) :
    TransferBook J ctx id newOwner = (some err, ctx.step (.getState id)) := by
  unfold TransferBook
  rw [QueryBook_eq, h]

theorem TransferBook_of_query_ok {J : Json} (hJ : GoJson J) (ctx : Stub)
    (id newOwner : GoString) (book : Book) (h : (QueryBook J ctx id).1 = .ok book) :
    TransferBook J ctx id newOwner =
      (ctx.step (.getState id)).PutState id (marshalled J { book with Owner := newOwner }) := by
  obtain ⟨v, -, hu⟩ := QueryBook_eq_ok h
  have hm := marshalled_eq hJ { book with Owner := newOwner } (hJ.unmarshal_valid v book hu).2
  unfold TransferBook
  rw [QueryBook_eq, h]
  simp only [hm]

/-- Counterexample to C14 as stated: the store left by `InitLedger`, on which the next read
succeeds and the write after it fails with `stub 7`; `QueryBook("1001")` succeeds and
`TransferBook("1001", "Alice")` fails. -/
theorem transfer_fails_with_query_counterexample :
    (QueryBook refJson ⟨(InitLedger refJson Stub.empty).2.state, [none, some (.stub 7)], []⟩
      (utf8 "1001")).1 =
      .ok ⟨utf8 "1001", utf8 "西游记", utf8 "吴承恩", Float64.ofRatio 399 10, 30, utf8 "library"⟩ ∧
    (TransferBook refJson ⟨(InitLedger refJson Stub.empty).2.state, [none, some (.stub 7)], []⟩
      (utf8 "1001") (utf8 "Alice")).1 = some (.stub 7) := by
  decide

/-- C14 (as amended): when `QueryBook(id)` fails, `TransferBook(id, H)` fails with the same
error, makes no call but the read of `id` and leaves the world state as it was; that error
is "failed to read from world state" when the read fails, "the book id does not exist" when
the read returns nil, and the error of `json.Unmarshal` when the value does not decode.
When `QueryBook(id)` succeeds, `TransferBook(id, H)` fails only if its `PutState` fails, and
then it returns the failure of the store and the world state is as it was. -/
theorem transfer_fails_with_query (J : Json) (hJ : GoJson J) (ctx : Stub)
    (id newOwner : GoString) :
    (∀ err, (QueryBook J ctx id).1 = .error err →
      (TransferBook J ctx id newOwner).1 = some err ∧
      (TransferBook J ctx id newOwner).2.state = ctx.state ∧
      (TransferBook J ctx id newOwner).2.trace = ctx.trace ++ [.getState id]) ∧
    (∀ e, ctx.outcome = some e → (QueryBook J ctx id).1 = .error (.readFailed e)) ∧
    (ctx.outcome = none → lookup id ctx.state = none →
      (QueryBook J ctx id).1 = .error (.doesNotExist id)) ∧
    (∀ v err, ctx.outcome = none → lookup id ctx.state = some v →
      J.Unmarshal v = .error err → (QueryBook J ctx id).1 = .error err) ∧
    (∀ book, (QueryBook J ctx id).1 = .ok book →
      ((ctx.step (.getState id)).outcome = none ∧ (TransferBook J ctx id newOwner).1 = none) ∨
      (∃ e, (ctx.step (.getState id)).outcome = some e ∧
        (TransferBook J ctx id newOwner).1 = some e ∧
        (TransferBook J ctx id newOwner).2.state = ctx.state)) := by
  refine ⟨fun err h => ?_, fun e ho => ?_, fun ho hl => ?_, fun v err ho hl hu => ?_,
    fun book h => ?_⟩
  · rw [TransferBook_of_query_error J ctx id newOwner err h]
    exact ⟨rfl, rfl, rfl⟩
  · simp only [QueryBook, Stub.GetState_of_fault ho]
  · simp only [QueryBook, Stub.GetState_of_ok ho, hl]
  · simp only [QueryBook, Stub.GetState_of_ok ho, hl, hu]
  · rw [TransferBook_of_query_ok hJ ctx id newOwner book h]
    rcases ho : (ctx.step (.getState id)).outcome with _ | e
    · exact Or.inl ⟨rfl, by simp only [Stub.PutState, ho]⟩
    · exact Or.inr ⟨e, rfl, by simp only [Stub.PutState, ho], by simp only [Stub.PutState, ho]; rfl⟩

/-- Witness of C14: `TransferBook` of the unknown id 9999 after `InitLedger`. -/
theorem transfer_fails_with_query_witness :
    GoJson refJson ∧
    (QueryBook refJson (InitLedger refJson Stub.empty).2 (utf8 "9999")).1 =
      .error (.doesNotExist (utf8 "9999")) ∧
    (TransferBook refJson (InitLedger refJson Stub.empty).2 (utf8 "9999") (utf8 "Alice")).1 =
      some (.doesNotExist (utf8 "9999")) ∧
    (TransferBook refJson (InitLedger refJson Stub.empty).2 (utf8 "9999")
      (utf8 "Alice")).2.state = (InitLedger refJson Stub.empty).2.state :=
  have h := (transfer_fails_with_query refJson refJson_goJson (InitLedger refJson Stub.empty).2
    (utf8 "9999") (utf8 "Alice")).1 (.doesNotExist (utf8 "9999")) (by decide)
  ⟨refJson_goJson, by decide, h.1, h.2.1⟩

theorem BookExists_of_fault {ctx : Stub} {e : Error} (h : ctx.outcome = some e)
    (id : GoString) : BookExists ctx id = (.error (.readFailed e), ctx.step (.getState id)) := by
  simp only [BookExists, Stub.GetState_of_fault h]

theorem BookExists_of_ok {ctx : Stub} (h : ctx.outcome = none) (id : GoString) :
    BookExists ctx id = (.ok (lookup id ctx.state != none), ctx.step (.getState id)) := by
  simp only [BookExists, Stub.GetState_of_ok h]

theorem QueryBook_of_fault (J : Json) {ctx : Stub} {e : Error} (h : ctx.outcome = some e)
    (id : GoString) : QueryBook J ctx id = (.error (.readFailed e), ctx.step (.getState id)) := by
  simp only [QueryBook, Stub.GetState_of_fault h]

theorem Stub.PutState_success {s : Stub} {key : GoString} {value : Bytes}
    (h : (s.PutState key value).1 = none) :
    s.outcome = none ∧ (s.PutState key value).2.trace = s.trace ++ [.putState key value] := by
  unfold Stub.PutState at h ⊢
  rcases ho : s.outcome with _ | e
  · exact ⟨rfl, rfl⟩
  · rw [ho] at h; cases h

theorem Stub.DelState_success {s : Stub} {key : GoString} (h : (s.DelState key).1 = none) :
    s.outcome = none ∧ (s.DelState key).2.trace = s.trace ++ [.delState key] := by
  unfold Stub.DelState at h ⊢
  rcases ho : s.outcome with _ | e
  · exact ⟨rfl, rfl⟩
  · rw [ho] at h; cases h

theorem not_callFailed_of_two {ctx after : Stub} (c : Call) (h1 : ctx.outcome = none)
    (h2 : (ctx.step c).outcome = none)
    (hlen : after.trace.length = ctx.trace.length + 2) : ¬ callFailed ctx after := by
  rintro ⟨o, ho, hne⟩
  rw [hlen, Nat.add_sub_cancel_left] at ho
  obtain ⟨st, f, tr⟩ := ctx
  simp only [Stub.outcome, Stub.step] at h1 h2 ho
  rcases f with _ | ⟨o1, _ | ⟨o2, f⟩⟩
  · simp at ho
  · simp only [List.headD_cons] at h1
    simp only [List.take_succ_cons, List.take_nil, List.mem_singleton] at ho
    exact hne (ho.trans h1)
  · simp only [List.headD_cons, List.tail_cons] at h1 h2
    simp only [List.take_succ_cons, List.take_zero, List.mem_cons, List.mem_singleton,
      List.not_mem_nil, or_false] at ho
    rcases ho with ho | ho
    · exact hne (ho.trans h1)
    · exact hne (ho.trans h2)

theorem CreateBook_success {J : Json} {ctx : Stub} {id bookName author : GoString}
    {price : Float64} {number : Int} {owner : GoString}
    (h : (CreateBook J ctx id bookName author price number owner).1 = none) :
    ctx.outcome = none ∧ (ctx.step (.getState id)).outcome = none ∧
      (CreateBook J ctx id bookName author price number owner).2.trace.length =
        ctx.trace.length + 2 := by
  unfold CreateBook at h ⊢
  rcases ho : ctx.outcome with _ | e
  · rw [BookExists_of_ok ho] at h ⊢
    generalize (lookup id ctx.state != none) = found at h ⊢
    rcases found with _ | _
    · simp only at h ⊢
      generalize J.Marshal ⟨id, bookName, author, price, number, owner⟩ = encoded at h ⊢
      rcases encoded with err | bookJSON
      · cases h
      · obtain ⟨h1, h2⟩ := Stub.PutState_success h
        exact ⟨by trivial, h1, by rw [h2]; simp [Stub.step]⟩
    · cases h
  · rw [BookExists_of_fault ho] at h
    cases h

theorem UpdateBook_success {J : Json} {ctx : Stub} {id bookName author : GoString}
    {price : Float64} {number : Int} {owner : GoString}
    (h : (UpdateBook J ctx id bookName author price number owner).1 = none) :
    ctx.outcome = none ∧ (ctx.step (.getState id)).outcome = none ∧
      (UpdateBook J ctx id bookName author price number owner).2.trace.length =
        ctx.trace.length + 2 := by
  unfold UpdateBook at h ⊢
  rcases ho : ctx.outcome with _ | e
  · rw [BookExists_of_ok ho] at h ⊢
    generalize (lookup id ctx.state != none) = found at h ⊢
    rcases found with _ | _
    · cases h
    · simp only at h ⊢
      generalize J.Marshal ⟨id, bookName, author, price, number, owner⟩ = encoded at h ⊢
      rcases encoded with err | bookJSON
      · cases h
      · obtain ⟨h1, h2⟩ := Stub.PutState_success h
        exact ⟨by trivial, h1, by rw [h2]; simp [Stub.step]⟩
  · rw [BookExists_of_fault ho] at h
    cases h

theorem DeleteBook_success {ctx : Stub} {id : GoString} (h : (DeleteBook ctx id).1 = none) :
    ctx.outcome = none ∧ (ctx.step (.getState id)).outcome = none ∧
      (DeleteBook ctx id).2.trace.length = ctx.trace.length + 2 := by
  unfold DeleteBook at h ⊢
  rcases ho : ctx.outcome with _ | e
  · rw [BookExists_of_ok ho] at h ⊢
    generalize (lookup id ctx.state != none) = found at h ⊢
    rcases found with _ | _
    · cases h
    · obtain ⟨h1, h2⟩ := Stub.DelState_success h
      exact ⟨by trivial, h1, by rw [h2]; simp [Stub.step]⟩
  · rw [BookExists_of_fault ho] at h
    cases h

theorem TransferBook_success {J : Json} {ctx : Stub} {id newOwner : GoString}
    (h : (TransferBook J ctx id newOwner).1 = none) :
    ctx.outcome = none ∧ (ctx.step (.getState id)).outcome = none ∧
      (TransferBook J ctx id newOwner).2.trace.length = ctx.trace.length + 2 := by
  rcases ho : ctx.outcome with _ | e
  · unfold TransferBook at h ⊢
    rw [QueryBook_eq] at h ⊢
    generalize (QueryBook J ctx id).1 = queried at h ⊢
    rcases queried with err | book
    · cases h
    · simp only at h ⊢
      generalize J.Marshal { book with Owner := newOwner } = encoded at h ⊢
      rcases encoded with err | bookJSON
      · cases h
      · obtain ⟨h1, h2⟩ := Stub.PutState_success h
        exact ⟨by trivial, h1, by rw [h2]; simp [Stub.step]⟩
  · unfold TransferBook at h
    rw [QueryBook_of_fault J ho] at h
    cases h

/-- C15: for `CreateBook`, `UpdateBook`, `DeleteBook` and `TransferBook` on any store: if the
read of `id`, the first store call, fails, the method returns an error (the read failure in
"failed to read from world state"), makes no call after the read, so no put and no delete,
and the world state is as it was; and if any of the store calls a method made has failed,
the method does not return success. -/
theorem first_failure_returned (J : Json) (ctx : Stub) (id bookName author : GoString)
    (price : Float64) (number : Int) (owner newOwner : GoString) :
    (∀ e, ctx.outcome = some e →
      CreateBook J ctx id bookName author price number owner =
        (some (.readFailed e), ⟨ctx.state, ctx.faults.tail, ctx.trace ++ [.getState id]⟩) ∧
      UpdateBook J ctx id bookName author price number owner =
        (some (.readFailed e), ⟨ctx.state, ctx.faults.tail, ctx.trace ++ [.getState id]⟩) ∧
      DeleteBook ctx id =
        (some (.readFailed e), ⟨ctx.state, ctx.faults.tail, ctx.trace ++ [.getState id]⟩) ∧
      TransferBook J ctx id newOwner =
        (some (.readFailed e), ⟨ctx.state, ctx.faults.tail, ctx.trace ++ [.getState id]⟩)) ∧
    (callFailed ctx (CreateBook J ctx id bookName author price number owner).2 →
      (CreateBook J ctx id bookName author price number owner).1 ≠ none) ∧
    (callFailed ctx (UpdateBook J ctx id bookName author price number owner).2 →
      (UpdateBook J ctx id bookName author price number owner).1 ≠ none) ∧
    (callFailed ctx (DeleteBook ctx id).2 → (DeleteBook ctx id).1 ≠ none) ∧
    (callFailed ctx (TransferBook J ctx id newOwner).2 →
      (TransferBook J ctx id newOwner).1 ≠ none) := by
  refine ⟨fun e ho => ⟨?_, ?_, ?_, ?_⟩, fun hf h => ?_, fun hf h => ?_, fun hf h => ?_,
    fun hf h => ?_⟩
  · simp only [CreateBook, BookExists_of_fault ho]; rfl
  · simp only [UpdateBook, BookExists_of_fault ho]; rfl
  · simp only [DeleteBook, BookExists_of_fault ho]; rfl
  · simp only [TransferBook, QueryBook_of_fault J ho]; rfl
  · obtain ⟨h1, h2, h3⟩ := CreateBook_success h
    exact not_callFailed_of_two _ h1 h2 h3 hf
  · obtain ⟨h1, h2, h3⟩ := UpdateBook_success h
    exact not_callFailed_of_two _ h1 h2 h3 hf
  · obtain ⟨h1, h2, h3⟩ := DeleteBook_success h
    exact not_callFailed_of_two _ h1 h2 h3 hf
  · obtain ⟨h1, h2, h3⟩ := TransferBook_success h
    exact not_callFailed_of_two _ h1 h2 h3 hf

/-- Witness of C15: on the store left by `InitLedger` the read fails with `stub 7`, and on
the same store the read succeeds and the delete fails with `stub 8`. -/
theorem first_failure_returned_witness :
    (DeleteBook ⟨(InitLedger refJson Stub.empty).2.state, [some (.stub 7)], []⟩
      (utf8 "1001")) =
      (some (.readFailed (.stub 7)),
        ⟨(InitLedger refJson Stub.empty).2.state, [], [.getState (utf8 "1001")]⟩) ∧
    (DeleteBook ⟨(InitLedger refJson Stub.empty).2.state, [none, some (.stub 8)], []⟩
      (utf8 "1001")).1 ≠ none :=
  ⟨((first_failure_returned refJson
      ⟨(InitLedger refJson Stub.empty).2.state, [some (.stub 7)], []⟩ (utf8 "1001") [] []
      Float64.nan 0 [] []).1 (.stub 7) rfl).2.2.1,
    (first_failure_returned refJson
      ⟨(InitLedger refJson Stub.empty).2.state, [none, some (.stub 8)], []⟩ (utf8 "1001") [] []
      Float64.nan 0 [] []).2.2.2.1 (by decide)⟩

/-! ## JSON strings -/

theorem escapeAux_zero (skip : Bool) (s : GoString) :
    escapeAux skip 0 s = escapeAux false 0 s := by
  cases s <;> simp only [escapeAux]

theorem toValidUTF8Aux_split (s : GoString) :
    ∀ k, toValidUTF8Aux k s = s.take k ++ toValidUTF8Aux 0 (s.drop k) := by
  induction s with
  | nil => intro k; cases k <;> rfl
  | cons b rest ih =>
    intro k
    cases k with
    | zero => rfl
    | succ k => simp only [toValidUTF8Aux, List.take_succ_cons, List.drop_succ_cons,
        List.cons_append, ← ih]

theorem take_escapeAux (s : GoString) (tl : Bytes) :
    ∀ n, n ≤ s.length → (escapeAux false n s ++ tl).take n = s.take n := by
  induction s with
  | nil => intro n hn; cases n <;> simp_all
  | cons b rest ih =>
    intro n hn
    cases n with
    | zero => rfl
    | succ k =>
      simp only [escapeAux, Bool.false_eq_true, if_false, List.cons_append, List.take_succ_cons]
      rw [ih k (by simpa using hn)]

theorem runeSize_of_take (b : UInt8) (rest other : GoString) (n : Nat)
    (h : runeSize (b :: rest) = n + 1) (ht : other.take n = rest.take n) :
    runeSize (b :: other) = n + 1 := by
  simp only [runeSize] at h ⊢
  split_ifs at h with hc
  rw [h] at hc ⊢
  simp only [Nat.add_sub_cancel] at hc ⊢
  rw [ht, if_pos hc]

theorem length_of_runeSize (b : UInt8) (rest : GoString) (n : Nat)
    (h : runeSize (b :: rest) = n + 1) : n ≤ rest.length := by
  simp only [runeSize] at h
  split_ifs at h with hc
  rw [h] at hc
  simp only [Nat.add_sub_cancel] at hc
  have := hc.1
  rw [List.length_take] at this
  omega

theorem hexVal_hexDigit : ∀ n, n < 16 → hexVal (hexDigit n) = some n := by
  decide

theorem hex4_byte : ∀ n, n < 128 →
    hex4 0x30 0x30 (hexDigit (n / 16)) (hexDigit (n % 16)) = some n := by
  decide

theorem scanStr_unicode (fuel c : Nat) (h1 h2 h3 h4 : UInt8) (tl : Bytes)
    (hx : hex4 h1 h2 h3 h4 = some c) (hc : ¬(0xD800 ≤ c ∧ c < 0xE000)) :
    scanStr (fuel + 1) 0 (0x5C :: 0x75 :: h1 :: h2 :: h3 :: h4 :: tl) =
      consTo (encodeRune c) (scanStr fuel 0 tl) := by
  have e1 : ¬((0x5C : UInt8) = 0x22) := by decide
  simp only [scanStr, if_neg e1, if_true, hx, if_neg hc]

theorem encodeRune_byte (b : UInt8) (hb : b < 0x80) : encodeRune b.toNat = [b] := by
  have hn : b.toNat < 128 := hb
  simp only [encodeRune, if_pos hn]
  congr 1
  cases b
  simp [UInt8.ofNat, UInt8.toNat]

theorem scanStr_escapeASCII (b : UInt8) (hb : b < 0x80) (fuel : Nat) (tl : Bytes) :
    scanStr (fuel + 1) 0 (escapeASCII b ++ tl) = consTo [b] (scanStr fuel 0 tl) := by
  unfold escapeASCII
  split_ifs with h1 h2 h3 h4 h5 h6 h7
  · simp only [htmlSafe, Bool.and_eq_true, decide_eq_true_eq, bne_iff_ne, ne_eq] at h1
    obtain ⟨⟨⟨⟨⟨⟨h20, -⟩, h22⟩, h5c⟩, -⟩, -⟩, -⟩ := h1
    have h20 : ¬ b < 0x20 := UInt8.not_lt.mpr h20
    simp only [List.singleton_append, scanStr, if_neg h22, if_neg h5c, if_neg h20, if_pos hb]
    rfl
  · rcases h2 with h | h <;> subst h <;> rfl
  · subst h3; rfl
  · subst h4; rfl
  · subst h5; rfl
  · subst h6; rfl
  · subst h7; rfl
  · have hn : b.toNat < 128 := hb
    have hx := hex4_byte b.toNat hn
    have hc : ¬(0xD800 ≤ b.toNat ∧ b.toNat < 0xE000) := by omega
    simp only [List.cons_append, List.nil_append]
    rw [scanStr_unicode fuel b.toNat _ _ _ _ tl hx hc, encodeRune_byte b hb]

theorem scanStr_replacement (fuel : Nat) (tl : Bytes) :
    scanStr (fuel + 1) 0 ([0x5C, 0x75, 0x66, 0x66, 0x66, 0x64] ++ tl) =
      consTo [0xEF, 0xBF, 0xBD] (scanStr fuel 0 tl) :=
  scanStr_unicode fuel 0xFFFD _ _ _ _ tl (by decide) (by decide)

theorem scanStr_lineSeparator (fuel : Nat) (tl : Bytes) :
    scanStr (fuel + 1) 0 ([0x5C, 0x75, 0x32, 0x30, 0x32, 0x38] ++ tl) =
      consTo [0xE2, 0x80, 0xA8] (scanStr fuel 0 tl) :=
  scanStr_unicode fuel 0x2028 _ _ _ _ tl (by decide) (by decide)

theorem scanStr_paragraphSeparator (fuel : Nat) (tl : Bytes) :
    scanStr (fuel + 1) 0 ([0x5C, 0x75, 0x32, 0x30, 0x32, 0x39] ++ tl) =
      consTo [0xE2, 0x80, 0xA9] (scanStr fuel 0 tl) :=
  scanStr_unicode fuel 0x2029 _ _ _ _ tl (by decide) (by decide)

theorem scanStr_copy (fuel n : Nat) (b : UInt8) (hb : ¬b < 0x80) (tl : Bytes)
    (h : runeSize (b :: tl) = n + 1) :
    scanStr (fuel + 1) 0 (b :: tl) = consTo [b] (scanStr fuel n tl) := by
  have h22 : ¬b = 0x22 := fun e => hb (by subst e; decide)
  have h5c : ¬b = 0x5C := fun e => hb (by subst e; decide)
  have h20 : ¬b < 0x20 := fun e => hb (UInt8.lt_trans e (by decide))
  simp only [scanStr, if_neg h22, if_neg h5c, if_neg h20, if_neg hb, h]

theorem scanStr_escapeAux (s : GoString) : ∀ (skip : Bool) (k fuel : Nat) (tl : Bytes),
    k ≤ s.length → (escapeAux skip k s).length < fuel →
    scanStr fuel (if skip then 0 else k) (escapeAux skip k s ++ 0x22 :: tl) =
      some (if skip then toValidUTF8Aux 0 (s.drop k) else toValidUTF8Aux k s, tl) := by
  induction s with
  | nil =>
    intro skip k fuel tl hk hfuel
    obtain ⟨fuel, rfl⟩ : ∃ f, fuel = f + 1 := ⟨fuel - 1, by omega⟩
    have hk0 : k = 0 := by simpa using hk
    subst hk0
    cases skip <;> rfl
  | cons b rest ih =>
    intro skip k fuel tl hk hfuel
    obtain ⟨fuel, rfl⟩ : ∃ f, fuel = f + 1 := ⟨fuel - 1, by omega⟩
    cases k with
    | succ k =>
      have hk1 : k ≤ rest.length := by simpa using hk
      cases skip with
      | true =>
        simp only [escapeAux, if_true, List.drop_succ_cons] at hfuel ⊢
        exact ih true k (fuel + 1) tl hk1 hfuel
      | false =>
        simp only [escapeAux, Bool.false_eq_true, if_false, List.cons_append, List.length_cons,
          toValidUTF8Aux] at hfuel ⊢
        have := ih false k fuel tl hk1 (by omega)
        simp only [Bool.false_eq_true, if_false] at this
        simp only [scanStr, this, consTo, List.singleton_append]
    | zero =>
      have hmode : (if skip = true then 0 else 0) = 0 := by cases skip <;> rfl
      have hres : (if skip = true then toValidUTF8Aux 0 (List.drop 0 (b :: rest))
          else toValidUTF8Aux 0 (b :: rest)) = toValidUTF8Aux 0 (b :: rest) := by
        cases skip <;> rfl
      rw [hmode, hres, escapeAux_zero]
      rw [escapeAux_zero] at hfuel
      by_cases hb : b < 0x80
      · have hsize : runeSize (b :: rest) = 1 := by
          simp only [runeSize, seqSize, if_pos hb, Nat.sub_self, List.take_zero, List.length_nil,
            contOK, and_self, if_true]
        have hlen : 0 < (escapeASCII b).length := by
          unfold escapeASCII; split_ifs <;> simp
        simp only [escapeAux, if_pos hb, List.length_append] at hfuel
        have := ih false 0 fuel tl (Nat.zero_le _) (by omega)
        simp only [Bool.false_eq_true, if_false] at this
        simp only [escapeAux, if_pos hb, toValidUTF8Aux, hsize, List.append_assoc]
        rw [scanStr_escapeASCII b hb, this]
        rfl
      · rcases hsize : runeSize (b :: rest) with _ | n
        · simp only [escapeAux, if_neg hb, hsize, List.length_append] at hfuel
          have := ih false 0 fuel tl (Nat.zero_le _) (by simp at hfuel; omega)
          simp only [Bool.false_eq_true, if_false] at this
          simp only [escapeAux, if_neg hb, toValidUTF8Aux, hsize, List.append_assoc]
          rw [scanStr_replacement, this]
          rfl
        · have hn : n ≤ rest.length := length_of_runeSize b rest n hsize
          have hsplit := toValidUTF8Aux_split rest n
          simp only [escapeAux, if_neg hb, hsize, toValidUTF8Aux] at hfuel ⊢
          split_ifs at hfuel ⊢ with h1 h2
          · have := ih true n fuel tl hn (by simp at hfuel; omega)
            simp only [if_true] at this
            have hn2 : n = 2 := by
              simp only [List.cons.injEq] at h1
              have := h1.1 ▸ hsize
              have hs : seqSize 0xE2 = 3 := by decide
              simp only [runeSize, hs] at this
              split_ifs at this
              omega
            rw [List.append_assoc, scanStr_lineSeparator, this, hsplit, hn2]
            simp only [List.cons.injEq] at h1
            rw [h1.1, h1.2]
            rfl
          · have := ih true n fuel tl hn (by simp at hfuel; omega)
            simp only [if_true] at this
            have hn2 : n = 2 := by
              simp only [List.cons.injEq] at h2
              have := h2.1 ▸ hsize
              have hs : seqSize 0xE2 = 3 := by decide
              simp only [runeSize, hs] at this
              split_ifs at this
              omega
            rw [List.append_assoc, scanStr_paragraphSeparator, this, hsplit, hn2]
            simp only [List.cons.injEq] at h2
            rw [h2.1, h2.2]
            rfl
          · have := ih false n fuel tl hn (by simp at hfuel; omega)
            simp only [Bool.false_eq_true, if_false] at this
            rw [List.cons_append, scanStr_copy fuel n b hb _
              (runeSize_of_take b rest _ n hsize (take_escapeAux rest _ n hn)), this]
            rfl

theorem scanStr_quote (s : GoString) (fuel : Nat) (tl : Bytes)
    (hfuel : (escapeAux false 0 s).length < fuel) :
    scanStr fuel 0 (escapeAux false 0 s ++ 0x22 :: tl) = some (toValidUTF8 s, tl) := by
  have := scanStr_escapeAux s false 0 fuel tl (Nat.zero_le _) hfuel
  simpa only [Bool.false_eq_true, if_false] using this

/-! ## Rounding to a `float64` -/

theorem mag_of (e t : Nat) (ht : t < 2 ^ 52) :
    mag (e * 2 ^ 52 + t) = if e = 0 then t else (2 ^ 52 + t) * 2 ^ (e - 1) := by
  have h1 : (e * 2 ^ 52 + t) / 2 ^ 52 = e := by
    rw [Nat.add_comm, Nat.add_mul_div_right _ _ (by positivity), Nat.div_eq_of_lt ht,
      Nat.zero_add]
  have h2 : (e * 2 ^ 52 + t) % 2 ^ 52 = t := by
    rw [Nat.add_comm, Nat.add_mul_mod_self_right, Nat.mod_eq_of_lt ht]
  simp only [mag, h1, h2]

theorem mag_zero : mag 0 = 0 := by decide

theorem mag_one : mag 1 = 1 := by decide

theorem mag_lt_succ (n : Nat) : mag n < mag (n + 1) := by
  have hn : n = n / 2 ^ 52 * 2 ^ 52 + n % 2 ^ 52 := (Nat.div_add_mod' n (2 ^ 52)).symm
  have ht : n % 2 ^ 52 < 2 ^ 52 := Nat.mod_lt _ (by positivity)
  generalize n / 2 ^ 52 = e at hn
  generalize n % 2 ^ 52 = t at hn ht
  subst hn
  by_cases h : t + 1 < 2 ^ 52
  · rw [Nat.add_assoc, mag_of e t ht, mag_of e (t + 1) h]
    split_ifs
    · exact Nat.lt_succ_self t
    · exact Nat.mul_lt_mul_of_pos_right (by omega) (by positivity)
  · have ht1 : t + 1 = 2 ^ 52 := by omega
    have hs : e * 2 ^ 52 + t + 1 = (e + 1) * 2 ^ 52 + 0 := by rw [Nat.add_assoc, ht1]; ring
    rw [hs, mag_of e t ht, mag_of (e + 1) 0 (by positivity), if_neg (Nat.succ_ne_zero e),
      Nat.add_sub_cancel]
    split_ifs with he
    · subst he; omega
    · obtain ⟨k, rfl⟩ : ∃ k, e = k + 1 := ⟨e - 1, by omega⟩
      rw [Nat.add_sub_cancel, pow_succ]
      have : 2 ^ 52 + t < (2 ^ 52 + 0) * 2 := by omega
      calc (2 ^ 52 + t) * 2 ^ k < (2 ^ 52 + 0) * 2 * 2 ^ k :=
            Nat.mul_lt_mul_of_pos_right this (by positivity)
        _ = (2 ^ 52 + 0) * (2 ^ k * 2) := by ring

theorem mag_strictMono : StrictMono mag := strictMono_nat_of_lt_succ mag_lt_succ

theorem bisect_spec (P : Nat → Bool) : ∀ b acc, P acc = true → P (acc + 2 ^ b) = false →
    P (bisect P b acc) = true ∧ P (bisect P b acc + 1) = false := by
  intro b
  induction b with
  | zero => intro acc h1 h2; exact ⟨h1, h2⟩
  | succ b ih =>
    intro acc h1 h2
    rw [bisect]
    split_ifs with h
    · exact ih _ h (by rw [Nat.add_assoc, ← Nat.two_mul, ← pow_succ']; exact h2)
    · exact ih _ h1 (by simpa using h)

theorem floorBits_spec (num den : Nat) :
    (floorBits num den ≤ infBits ∧ mag (floorBits num den) * den ≤ num * 2 ^ 1074) ∧
    ¬(floorBits num den + 1 ≤ infBits ∧ mag (floorBits num den + 1) * den ≤ num * 2 ^ 1074) := by
  have h0 : decide (0 ≤ infBits ∧ mag 0 * den ≤ num * 2 ^ 1074) = true := by
    rw [decide_eq_true_eq, mag_zero, Nat.zero_mul]
    exact ⟨Nat.zero_le _, Nat.zero_le _⟩
  have h1 : decide (0 + 2 ^ 63 ≤ infBits ∧ mag (0 + 2 ^ 63) * den ≤ num * 2 ^ 1074) = false := by
    rw [decide_eq_false_iff_not]
    exact fun h => absurd h.1 (by decide)
  have := bisect_spec (fun n => decide (n ≤ infBits ∧ mag n * den ≤ num * 2 ^ 1074)) 63 0 h0 h1
  rw [decide_eq_true_eq, decide_eq_false_iff_not] at this
  exact this

theorem floorBits_unique (num den n : Nat) (hn : n ≤ infBits)
    (h1 : mag n * den ≤ num * 2 ^ 1074) (h2 : num * 2 ^ 1074 < mag (n + 1) * den) :
    floorBits num den = n := by
  obtain ⟨⟨hle, hlo⟩, hhi⟩ := floorBits_spec num den
  rcases Nat.lt_trichotomy (floorBits num den) n with h | h | h
  · exfalso
    apply hhi
    refine ⟨by omega, le_trans (Nat.mul_le_mul_right _ ?_) h1⟩
    exact mag_strictMono.monotone h
  · exact h
  · exfalso
    have : mag (n + 1) ≤ mag (floorBits num den) := mag_strictMono.monotone h
    exact absurd (lt_of_lt_of_le h2 (Nat.mul_le_mul_right _ this)) (not_lt.mpr hlo)

theorem roundBits_exact (n : Nat) (hn : n ≤ infBits) : roundBits (mag n) (2 ^ 1074) = n := by
  have hlt := mag_lt_succ n
  have hf : floorBits (mag n) (2 ^ 1074) = n :=
    floorBits_unique _ _ n hn le_rfl (Nat.mul_lt_mul_of_pos_right hlt (by positivity))
  have : 2 * (mag n * 2 ^ 1074) < (mag n + mag (n + 1)) * 2 ^ 1074 := by
    rw [← Nat.mul_assoc]
    exact Nat.mul_lt_mul_of_pos_right (by omega) (by positivity)
  simp only [roundBits, hf, if_pos this]

theorem roundBits_zero (den : Nat) (hden : 0 < den) : roundBits 0 den = 0 := by
  have hf : floorBits 0 den = 0 :=
    floorBits_unique _ _ 0 (Nat.zero_le _) (by rw [mag_zero, Nat.zero_mul]; exact Nat.zero_le _)
      (by rw [Nat.zero_mul, mag_one, Nat.one_mul]; exact hden)
  simp only [roundBits, hf, Nat.zero_mul, Nat.mul_zero, mag_zero, mag_one, Nat.zero_add,
    Nat.one_mul, if_pos hden]

theorem cross_le (a c num den num2 den2 : Nat) (h : num * den2 = num2 * den) (hd : 0 < den)
    (hd2 : 0 < den2) : a * den ≤ num * c ↔ a * den2 ≤ num2 * c := by
  constructor
  · intro h1
    apply Nat.le_of_mul_le_mul_right _ hd
    calc a * den2 * den = a * den * den2 := by ring
      _ ≤ num * c * den2 := Nat.mul_le_mul_right _ h1
      _ = num * den2 * c := by ring
      _ = num2 * c * den := by rw [h]; ring
  · intro h1
    apply Nat.le_of_mul_le_mul_right _ hd2
    calc a * den * den2 = a * den2 * den := by ring
      _ ≤ num2 * c * den := Nat.mul_le_mul_right _ h1
      _ = num2 * den * c := by ring
      _ = num * c * den2 := by rw [← h]; ring

theorem cross_ge (a c num den num2 den2 : Nat) (h : num * den2 = num2 * den) (hd : 0 < den)
    (hd2 : 0 < den2) : num * c ≤ a * den ↔ num2 * c ≤ a * den2 := by
  constructor
  · intro h1
    apply Nat.le_of_mul_le_mul_right _ hd
    calc num2 * c * den = num2 * den * c := by ring
      _ = num * c * den2 := by rw [← h]; ring
      _ ≤ a * den * den2 := Nat.mul_le_mul_right _ h1
      _ = a * den2 * den := by ring
  · intro h1
    apply Nat.le_of_mul_le_mul_right _ hd2
    calc num * c * den2 = num * den2 * c := by ring
      _ = num2 * c * den := by rw [h]; ring
      _ ≤ a * den2 * den := Nat.mul_le_mul_right _ h1
      _ = a * den * den2 := by ring

theorem floorBits_congr (num den num2 den2 : Nat) (h : num * den2 = num2 * den) (hd : 0 < den)
    (hd2 : 0 < den2) : floorBits num den = floorBits num2 den2 := by
  unfold floorBits
  congr 1
  funext n
  exact decide_eq_decide.mpr
    (and_congr_right fun _ => cross_le (mag n) (2 ^ 1074) num den num2 den2 h hd hd2)

theorem roundBits_congr (num den num2 den2 : Nat) (h : num * den2 = num2 * den) (hd : 0 < den)
    (hd2 : 0 < den2) : roundBits num den = roundBits num2 den2 := by
  have hf := floorBits_congr num den num2 den2 h hd hd2
  have e1 : ∀ a, 2 * (num * 2 ^ 1074) < a * den ↔ 2 * (num2 * 2 ^ 1074) < a * den2 := by
    intro a
    rw [← not_le, ← not_le, Nat.mul_left_comm, Nat.mul_left_comm 2 num2,
      cross_le a (2 * 2 ^ 1074) num den num2 den2 h hd hd2]
  have e2 : ∀ a, a * den < 2 * (num * 2 ^ 1074) ↔ a * den2 < 2 * (num2 * 2 ^ 1074) := by
    intro a
    rw [← not_le, ← not_le, Nat.mul_left_comm, Nat.mul_left_comm 2 num2,
      cross_ge a (2 * 2 ^ 1074) num den num2 den2 h hd hd2]
  simp only [roundBits, hf, e1, e2]

theorem shortest_readsBack (n : Nat) (hn : n < infBits) :
    ∀ fuel, readsBack n (shortest n fuel).1 (shortest n fuel).2 = true := by
  intro fuel
  induction fuel with
  | zero =>
    have h := roundBits_exact n (le_of_lt hn)
    have t1 : (-(1074 : Int)).toNat = 0 := rfl
    have t2 : (1074 : Int).toNat = 1074 := rfl
    have hc : roundBits (mag n * 5 ^ 1074 * 10 ^ (-(1074 : Int)).toNat) (10 ^ (1074 : Int).toNat) =
        roundBits (mag n) (2 ^ 1074) := by
      apply roundBits_congr _ _ _ _ _ (by positivity) (by positivity)
      have : (10 : Nat) ^ 1074 = 2 ^ 1074 * 5 ^ 1074 := by rw [← Nat.mul_pow]
      rw [t1, t2, this]
      ring
    show (roundBits (mag n * 5 ^ 1074 * 10 ^ (-(1074 : Int)).toNat) (10 ^ (1074 : Int).toNat) == n)
      = true
    rw [hc, h, beq_self_eq_true]
  | succ fuel ih =>
    rw [shortest]
    split_ifs with h1 h2 h3 h4 h5 h6
    · exact (Bool.and_eq_true _ _ ▸ h1).1
    · exact (Bool.and_eq_true _ _ ▸ h1).2
    · exact (Bool.and_eq_true _ _ ▸ h1).1
    · exact (Bool.and_eq_true _ _ ▸ h1).2
    · exact h5
    · exact h6
    · exact ih

theorem shortest_pos (n : Nat) (h0 : 0 < n) (hn : n < infBits) (fuel : Nat) :
    0 < (shortest n fuel).1 := by
  have h := shortest_readsBack n hn fuel
  rcases Nat.eq_zero_or_pos (shortest n fuel).1 with hz | hp
  · rw [hz] at h
    simp only [readsBack, Nat.zero_mul, beq_iff_eq] at h
    rw [roundBits_zero _ (by positivity)] at h
    omega
  · exact hp

/-! ## Decimal digits -/

theorem digitChar_toNat (d : Nat) (hd : d < 10) : (digitChar d).toNat - 0x30 = d := by
  have : (digitChar d).toNat = 0x30 + d := by
    unfold digitChar
    exact UInt8.toNat_ofNat_of_lt (by simp only [UInt8.size]; omega)
  omega

theorem isDigit_digitChar : ∀ d, d < 10 → isDigit (digitChar d) = true := by decide

theorem digitChar_ne_zero : ∀ d, d < 10 → d ≠ 0 → digitChar d ≠ 0x30 := by decide

theorem digitsRev_lt (fuel : Nat) : ∀ n, ∀ d ∈ digitsRev fuel n, d < 10 := by
  induction fuel with
  | zero => intro n d hd; simp [digitsRev] at hd
  | succ fuel ih =>
    intro n d hd
    rw [digitsRev] at hd
    split_ifs at hd with h0
    · simp at hd
    · rcases List.mem_cons.mp hd with h | h
      · omega
      · exact ih _ d h

theorem digitsRev_value (fuel : Nat) : ∀ n, n ≤ fuel →
    (digitsRev fuel n).foldr (fun d acc => 10 * acc + d) 0 = n := by
  induction fuel with
  | zero => intro n hn; simp [digitsRev]; omega
  | succ fuel ih =>
    intro n hn
    rw [digitsRev]
    split_ifs with h0
    · simp [h0]
    · rw [List.foldr_cons, ih (n / 10) (by omega)]
      omega

theorem digitsRev_last (fuel : Nat) : ∀ n, n ≤ fuel → 0 < n →
    ∃ d front, digitsRev fuel n = front ++ [d] ∧ d ≠ 0 := by
  induction fuel with
  | zero => intro n hn h0; omega
  | succ fuel ih =>
    intro n hn h0
    rw [digitsRev, if_neg (by omega)]
    rcases Nat.eq_zero_or_pos (n / 10) with hz | hp
    · refine ⟨n % 10, [], ?_, by omega⟩
      rw [hz]
      cases fuel <;> simp [digitsRev]
    · obtain ⟨d, front, hd, hne⟩ := ih (n / 10) (by omega) hp
      exact ⟨d, n % 10 :: front, by rw [hd]; rfl, hne⟩

theorem ofDecimal_digits (l : List Nat) (hl : ∀ d ∈ l, d < 10) :
    ofDecimal (l.reverse.map digitChar) = l.foldr (fun d acc => 10 * acc + d) 0 := by
  unfold ofDecimal
  rw [List.foldl_map, List.foldl_reverse]
  induction l with
  | nil => rfl
  | cons d l ih =>
    rw [List.foldr_cons, List.foldr_cons, ih (fun x hx => hl x (List.mem_cons_of_mem _ hx)),
      digitChar_toNat d (hl d (List.mem_cons_self _ _))]

theorem ofDecimal_decimal (n : Nat) : ofDecimal (decimal n) = n := by
  unfold decimal
  split_ifs with h0
  · subst h0; rfl
  · rw [ofDecimal_digits _ (digitsRev_lt n n), digitsRev_value n n le_rfl]

theorem isDigit_decimal (n : Nat) : ∀ b ∈ decimal n, isDigit b = true := by
  intro b hb
  unfold decimal at hb
  split_ifs at hb with h0
  · simp at hb; subst hb; rfl
  · simp only [List.mem_map, List.mem_reverse] at hb
    obtain ⟨d, hd, rfl⟩ := hb
    exact isDigit_digitChar d (digitsRev_lt n n d hd)

theorem decimal_head (n : Nat) (h0 : 0 < n) :
    ∃ d ds, decimal n = d :: ds ∧ d ≠ 0x30 := by
  obtain ⟨d, front, hd, hne⟩ := digitsRev_last n n le_rfl h0
  refine ⟨digitChar d, front.reverse.map digitChar, ?_, ?_⟩
  · unfold decimal
    rw [if_neg (by omega), hd]
    simp
  · refine digitChar_ne_zero d (digitsRev_lt n n d ?_) hne
    rw [hd]
    simp

theorem decimal_ne_nil (n : Nat) : decimal n ≠ [] := by
  unfold decimal
  split_ifs with h0
  · simp
  · obtain ⟨d, ds, hd, -⟩ := decimal_head n (by omega)
    unfold decimal at hd
    rw [if_neg h0] at hd
    rw [hd]
    simp

theorem ofDecimal_foldl (ds : Bytes) : ∀ acc,
    ds.foldl (fun acc b => 10 * acc + (b.toNat - 0x30)) acc = acc * 10 ^ ds.length + ofDecimal ds := by
  unfold ofDecimal
  induction ds with
  | nil => intro acc; simp
  | cons b ds ih =>
    intro acc
    rw [List.foldl_cons, List.foldl_cons, ih, ih (10 * 0 + _), List.length_cons, pow_succ]
    ring

theorem ofDecimal_append (a b : Bytes) :
    ofDecimal (a ++ b) = ofDecimal a * 10 ^ b.length + ofDecimal b := by
  rw [ofDecimal, List.foldl_append, ofDecimal_foldl]
  rfl

theorem ofDecimal_zeros (k : Nat) : ofDecimal (List.replicate k 0x30) = 0 := by
  induction k with
  | zero => rfl
  | succ k ih =>
    have h1 : ofDecimal [0x30] = 0 := rfl
    rw [List.replicate_succ, ← List.singleton_append, ofDecimal_append, ih, h1, Nat.zero_mul]

theorem isDigit_zeros (k : Nat) : ∀ b ∈ List.replicate k (0x30 : UInt8), isDigit b = true := by
  intro b hb
  rw [List.eq_of_mem_replicate hb]
  rfl

theorem stripZeros_append (l : Bytes) :
    ∃ z, l = stripZeros l ++ List.replicate z 0x30 := by
  have h := List.takeWhile_append_dropWhile (fun b => b == (0x30 : UInt8)) l.reverse
  refine ⟨(l.reverse.takeWhile (fun b => b == (0x30 : UInt8))).length, ?_⟩
  have hz : l.reverse.takeWhile (fun b => b == (0x30 : UInt8)) =
      List.replicate (l.reverse.takeWhile (fun b => b == (0x30 : UInt8))).length 0x30 := by
    rw [List.eq_replicate_iff]
    refine ⟨rfl, fun b hb => ?_⟩
    simpa using List.mem_takeWhile_imp hb
  have h2 : l = (l.reverse.dropWhile (fun b => b == (0x30 : UInt8))).reverse ++
      (l.reverse.takeWhile (fun b => b == (0x30 : UInt8))).reverse := by
    rw [← List.reverse_append, h, List.reverse_reverse]
  rw [hz, List.reverse_replicate] at h2
  exact h2

/-! ## Number literals -/

theorem scanDigits_append (ds : Bytes) (c : UInt8) (tl : Bytes)
    (hds : ∀ b ∈ ds, isDigit b = true) (hc : isDigit c = false) :
    scanDigits (ds ++ c :: tl) = (ds, c :: tl) := by
  induction ds with
  | nil => simp only [List.nil_append, scanDigits, hc, Bool.false_eq_true, if_false]
  | cons b ds ih =>
    have hb := hds b (List.mem_cons_self _ _)
    have := ih (fun x hx => hds x (List.mem_cons_of_mem _ hx))
    rw [List.cons_append, scanDigits, if_pos hb, this]

theorem expText_head (expNeg : Bool) (exp tl : Bytes) :
    ∃ c r, (if exp = [] then [] else 0x65 :: (if expNeg then 0x2D else 0x2B) :: exp) ++
      0x2C :: tl = c :: r ∧ isDigit c = false ∧ c ≠ 0x2E := by
  by_cases h : exp = []
  · rw [if_pos h]
    exact ⟨0x2C, tl, rfl, by decide, by decide⟩
  · rw [if_neg h]
    exact ⟨0x65, _, rfl, by decide, by decide⟩

theorem scanExp_text (neg : Bool) (int frac : Bytes) (expNeg : Bool) (exp tl : Bytes)
    (hexp : ∀ b ∈ exp, isDigit b = true) (hneg : exp = [] → expNeg = false) :
    scanExp neg int frac
      ((if exp = [] then [] else 0x65 :: (if expNeg then 0x2D else 0x2B) :: exp) ++ 0x2C :: tl) =
      some (⟨neg, int, frac, expNeg, exp⟩, 0x2C :: tl) := by
  by_cases h : exp = []
  · rw [if_pos h, hneg h, h]
    rfl
  · have hd := scanDigits_append exp 0x2C tl hexp (by decide)
    rw [if_neg h]
    cases expNeg
    · simp only [Bool.false_eq_true, if_false, List.cons_append, scanExp, true_or, if_true, hd,
        if_neg h]
      rfl
    · simp only [if_true, List.cons_append, scanExp, true_or, or_true, hd, if_neg h]
      rfl

theorem scanFrac_text (neg : Bool) (int frac : Bytes) (expNeg : Bool) (exp tl : Bytes)
    (hfrac : ∀ b ∈ frac, isDigit b = true)
    (hexp : ∀ b ∈ exp, isDigit b = true) (hneg : exp = [] → expNeg = false) :
    scanFrac neg int
      ((if frac = [] then [] else 0x2E :: frac) ++
        ((if exp = [] then [] else 0x65 :: (if expNeg then 0x2D else 0x2B) :: exp) ++
          0x2C :: tl)) =
      some (⟨neg, int, frac, expNeg, exp⟩, 0x2C :: tl) := by
  have he := scanExp_text neg int frac expNeg exp tl hexp hneg
  obtain ⟨c, r, hcr, hc, hdot⟩ := expText_head expNeg exp tl
  rw [hcr] at he ⊢
  by_cases h : frac = []
  · subst h
    simp only [if_true, List.nil_append, scanFrac, if_neg hdot]
    exact he
  · have hd := scanDigits_append frac c r hfrac hc
    simp only [if_neg h, List.cons_append, scanFrac, if_true, hd]
    exact he

theorem fracText_head (frac : Bytes) (expNeg : Bool) (exp tl : Bytes) :
    ∃ c r, (if frac = [] then [] else 0x2E :: frac) ++
      ((if exp = [] then [] else 0x65 :: (if expNeg then 0x2D else 0x2B) :: exp) ++
        0x2C :: tl) = c :: r ∧ isDigit c = false := by
  by_cases h : frac = []
  · obtain ⟨c, r, hcr, hc, -⟩ := expText_head expNeg exp tl
    rw [if_pos h, List.nil_append]
    exact ⟨c, r, hcr, hc⟩
  · rw [if_neg h]
    exact ⟨0x2E, _, rfl, by decide⟩

theorem scanInt_text (t : Number) (hw : t.WellFormed) (tl : Bytes) :
    scanInt t.neg (t.int ++
      ((if t.frac = [] then [] else 0x2E :: t.frac) ++
        ((if t.exp = [] then [] else 0x65 :: (if t.expNeg then 0x2D else 0x2B) :: t.exp) ++
          0x2C :: tl))) = some (t, 0x2C :: tl) := by
  obtain ⟨neg, int, frac, expNeg, exp⟩ := t
  obtain ⟨hint, hfrac, hexp, hneg⟩ := hw
  dsimp only at hint hfrac hexp hneg ⊢
  have hf := scanFrac_text neg int frac expNeg exp tl hfrac hexp hneg
  obtain ⟨c, r, hcr, hc⟩ := fracText_head frac expNeg exp tl
  rw [hcr] at hf ⊢
  rcases hint with h0 | ⟨d, ds, hd, hne, hdig⟩
  · rw [h0] at hf ⊢
    simp only [List.cons_append, List.nil_append, scanInt, if_true]
    exact hf
  · rw [hd] at hf ⊢
    have hs := scanDigits_append ds c r (fun b hb => hdig b (List.mem_cons_of_mem _ hb)) hc
    simp only [List.cons_append, scanInt, if_neg hne, hdig d (List.mem_cons_self _ _), if_true, hs]
    exact hf

theorem Number.text_head (t : Number) (hw : t.WellFormed) (tl : Bytes) :
    ∃ c r, t.text ++ tl = c :: r ∧ (c = 0x2D ∨ isDigit c = true) := by
  unfold Number.text
  cases hn : t.neg
  · rcases hw.1 with h0 | ⟨d, ds, hd, -, hdig⟩
    · exact ⟨0x30, _, by rw [h0]; rfl, Or.inr rfl⟩
    · exact ⟨d, _, by rw [hd]; rfl, Or.inr (hdig d (List.mem_cons_self _ _))⟩
  · exact ⟨0x2D, _, rfl, Or.inl rfl⟩

theorem scanNumber_text (t : Number) (hw : t.WellFormed) (tl : Bytes) :
    scanNumber (t.text ++ 0x2C :: tl) = some (t, 0x2C :: tl) := by
  have h := scanInt_text t hw tl
  unfold Number.text
  cases hn : t.neg
  · rw [hn] at h
    rcases hw.1 with h0 | ⟨d, ds, hd, -, hdig⟩
    · rw [h0] at h ⊢
      simp only [Bool.false_eq_true, if_false, List.nil_append, List.cons_append, List.append_assoc,
        scanNumber] at h ⊢
      rw [if_neg (by decide)]
      exact h
    · rw [hd] at h ⊢
      have hne : d ≠ 0x2D := by
        intro e
        have := hdig d (List.mem_cons_self _ _)
        rw [e] at this
        exact absurd this (by decide)
      simp only [Bool.false_eq_true, if_false, List.nil_append, List.cons_append, List.append_assoc,
        scanNumber, if_neg hne] at h ⊢
      exact h
  · rw [hn] at h
    simp only [if_true, List.cons_append, List.nil_append, List.append_assoc, scanNumber] at h ⊢
    exact h

/-! ## The text of an `int` and of a `float64` reads back -/

theorem formatInt_spec (n : Int) (hlo : -9223372036854775808 ≤ n) (hhi : n ≤ 9223372036854775807) :
    ∃ t : Number, t.WellFormed ∧ formatInt n = t.text ∧ t.toInt = some n := by
  refine ⟨⟨decide (n < 0), decimal n.natAbs, [], false, []⟩, ⟨?_, ?_, ?_, ?_⟩, ?_, ?_⟩
  · rcases Nat.eq_zero_or_pos n.natAbs with h | h
    · left; rw [h]; rfl
    · right
      obtain ⟨d, ds, hd, hne⟩ := decimal_head n.natAbs h
      exact ⟨d, ds, hd, hne, hd ▸ isDigit_decimal n.natAbs⟩
  · intro b hb; simp at hb
  · intro b hb; simp at hb
  · intro _; rfl
  · simp [formatInt, Number.text]
  · have hv : (if decide (n < 0) = true then -((ofDecimal (decimal n.natAbs) : Nat) : Int)
        else ((ofDecimal (decimal n.natAbs) : Nat) : Int)) = n := by
      rw [ofDecimal_decimal]
      by_cases h : n < 0
      · simp only [h, decide_True, if_true]; omega
      · simp only [h, decide_False, Bool.false_eq_true, if_false]; omega
    simp only [Number.toInt, and_self, if_true, hv, hlo, hhi]

theorem Float64.ofMagnitude_magnitude (f : Float64) :
    Float64.ofMagnitude f.sign f.magnitude = f := by
  obtain ⟨s, ⟨e, he⟩, ⟨t, ht0⟩⟩ := f
  have ht : t < 2 ^ 52 := ht0
  have h1 : (e * 2 ^ 52 + t) / 2 ^ 52 = e := by
    rw [Nat.add_comm, Nat.add_mul_div_right _ _ (by positivity), Nat.div_eq_of_lt ht,
      Nat.zero_add]
  have h2 : (e * 2 ^ 52 + t) % 2 ^ 52 = t := by
    rw [Nat.add_comm, Nat.add_mul_mod_self_right, Nat.mod_eq_of_lt ht]
  simp only [Float64.ofMagnitude, Float64.magnitude, h1, h2, Float64.mk.injEq, true_and]
  constructor
  · apply Fin.ext
    simp only [Fin.ofNat]
    exact Nat.mod_eq_of_lt he
  · apply Fin.ext
    simp only [Fin.ofNat]
    exact Nat.mod_eq_of_lt ht

theorem Float64.magnitude_lt (f : Float64) (hf : f.isFinite = true) : f.magnitude < infBits := by
  obtain ⟨s, ⟨e, he⟩, ⟨t, ht⟩⟩ := f
  simp only [Float64.isFinite, bne_iff_ne, ne_eq] at hf
  simp only [Float64.magnitude, infBits]
  have : e ≤ 2046 := by omega
  calc e * 2 ^ 52 + t < e * 2 ^ 52 + 2 ^ 52 := by omega
    _ = (e + 1) * 2 ^ 52 := by ring
    _ ≤ 2047 * 2 ^ 52 := Nat.mul_le_mul_right _ (by omega)

theorem Number.toFloat_of (t : Number) (n c D0 z k : Nat) (j : Int) (hn : n < infBits)
    (hrb : readsBack n c j = true) (hc : c = D0 * 10 ^ z)
    (hD : ofDecimal (t.int ++ t.frac) = D0 * 10 ^ k) (hs : (k : Int) + t.scale = z - j) :
    t.toFloat = some (Float64.ofMagnitude t.neg n) := by
  have hr : roundBits (ofDecimal (t.int ++ t.frac) * 10 ^ t.scale.toNat) (10 ^ (-t.scale).toNat) =
      roundBits (c * 10 ^ (-j).toNat) (10 ^ j.toNat) := by
    apply roundBits_congr _ _ _ _ _ (by positivity) (by positivity)
    rw [hD, hc]
    have e1 : k + t.scale.toNat + j.toNat = z + (-j).toNat + (-t.scale).toNat := by omega
    calc D0 * 10 ^ k * 10 ^ t.scale.toNat * 10 ^ j.toNat
        = D0 * 10 ^ (k + t.scale.toNat + j.toNat) := by rw [pow_add, pow_add]; ring
      _ = D0 * 10 ^ (z + (-j).toNat + (-t.scale).toNat) := by rw [e1]
      _ = D0 * 10 ^ z * 10 ^ (-j).toNat * 10 ^ (-t.scale).toNat := by
          rw [pow_add, pow_add]; ring
  simp only [readsBack, beq_iff_eq] at hrb
  simp only [Number.toFloat, hr, hrb, if_pos hn]

theorem fmtE_text (neg : Bool) (d0 : UInt8) (ds : Bytes) (dp : Int) :
    (if neg then [0x2D] else []) ++ fmtE (d0 :: ds) dp =
      (⟨neg, [d0], ds, decide (dp - 1 < 0), decimal (dp - 1).natAbs⟩ : Number).text := by
  have h1 : (1 < (d0 :: ds).length) ↔ ¬ds = [] := by
    cases ds <;> simp
  simp only [fmtE, Number.text, List.take_succ_cons, List.take_zero, List.drop_succ_cons,
    List.drop_zero, h1, if_neg (decimal_ne_nil _), decide_eq_true_eq, List.append_assoc,
    List.cons_append, List.nil_append, ite_not]

theorem fmtF_text_small (neg : Bool) (ds : Bytes) (dp : Int) (hds : ds ≠ []) (hdp : dp ≤ 0) :
    (if neg then [0x2D] else []) ++ fmtF ds dp =
      (⟨neg, [0x30], List.replicate (-dp).toNat 0x30 ++ ds, false, []⟩ : Number).text := by
  have h1 : ¬(0 < dp) := by omega
  have hpos : 0 < ds.length := List.length_pos.mpr hds
  have h2 : dp < (ds.length : Int) := by omega
  have h3 : dp.toNat = 0 := by omega
  have h4 : ¬(List.replicate (-dp).toNat (0x30 : UInt8) ++ ds = []) := by simp [hds]
  simp only [fmtF, Number.text, if_neg h1, if_pos h2, h3, List.drop_zero, if_neg h4, if_true,
    List.append_nil]

theorem fmtF_text_mid (neg : Bool) (ds : Bytes) (dp : Int) (h0 : 0 < dp)
    (hdp : dp < (ds.length : Int)) :
    (if neg then [0x2D] else []) ++ fmtF ds dp =
      (⟨neg, ds.take dp.toNat, ds.drop dp.toNat, false, []⟩ : Number).text := by
  have h3 : (-dp).toNat = 0 := by omega
  have h4 : ¬(ds.drop dp.toNat = []) := by
    rw [List.drop_eq_nil_iff]; omega
  have h5 : dp.toNat - ds.length = 0 := by omega
  simp only [fmtF, Number.text, if_pos h0, if_pos hdp, h3, h5, List.replicate_zero,
    List.nil_append, List.append_nil, if_neg h4, if_true]

theorem fmtF_text_big (neg : Bool) (ds : Bytes) (dp : Int) (hdp : (ds.length : Int) ≤ dp)
    (hds : ds ≠ []) :
    (if neg then [0x2D] else []) ++ fmtF ds dp =
      (⟨neg, ds ++ List.replicate (dp.toNat - ds.length) 0x30, [], false, []⟩ : Number).text := by
  have h0 : 0 < dp := by
    have : 0 < ds.length := List.length_pos.mpr hds
    omega
  have h1 : ¬(dp < (ds.length : Int)) := by omega
  have h2 : ds.take dp.toNat = ds := List.take_of_length_le (by omega)
  simp only [fmtF, Number.text, if_pos h0, if_neg h1, h2, if_true, List.append_nil]

theorem shortest_digits (n : Nat) (h0 : 0 < n) (hn : n < infBits) (fuel : Nat) :
    ∃ (d0 : UInt8) (ds : Bytes) (z : Nat),
      stripZeros (decimal (shortest n fuel).1) = d0 :: ds ∧
      (decimal (shortest n fuel).1).length = (d0 :: ds).length + z ∧
      (shortest n fuel).1 = ofDecimal (d0 :: ds) * 10 ^ z ∧
      d0 ≠ 0x30 ∧ ∀ b ∈ d0 :: ds, isDigit b = true := by
  have hc := shortest_pos n h0 hn fuel
  generalize (shortest n fuel).1 = c at hc
  obtain ⟨d0, more, hall, hd0⟩ := decimal_head c hc
  obtain ⟨z, hz⟩ := stripZeros_append (decimal c)
  have hdig := isDigit_decimal c
  have hval := ofDecimal_decimal c
  generalize stripZeros (decimal c) = ds at hz
  rw [hz] at hdig hval hall
  rw [hz]
  cases ds with
  | nil =>
    exfalso
    cases z with
    | zero => simp at hall
    | succ z =>
      rw [List.nil_append, List.replicate_succ] at hall
      exact hd0 (List.cons.inj hall).1.symm
  | cons x xs =>
    have hx : x = d0 := (List.cons.inj hall).1
    subst hx
    refine ⟨x, xs, z, rfl, by simp; omega, ?_, hd0, fun b hb => hdig b (List.mem_append_left _ hb)⟩
    rw [← hval, ofDecimal_append, ofDecimal_zeros, List.length_replicate, Nat.add_zero]

theorem formatFloat_spec (f : Float64) (hf : f.isFinite = true) :
    ∃ t : Number, t.WellFormed ∧ formatFloat f = t.text ∧ t.toFloat = some f := by
  have hn := f.magnitude_lt hf
  have hback : ∀ t : Number, t.neg = f.sign →
      t.toFloat = some (Float64.ofMagnitude t.neg f.magnitude) → t.toFloat = some f := by
    intro t ht h
    rw [h, ht, Float64.ofMagnitude_magnitude]
  by_cases h0 : f.magnitude = 0
  · refine ⟨⟨f.sign, [0x30], [], false, []⟩, ⟨Or.inl rfl, by simp, by simp, fun _ => rfl⟩, ?_, ?_⟩
    · simp only [formatFloat, h0, if_true, Number.text, List.append_nil]
    · apply hback _ rfl
      have hz : roundBits 0 1 = 0 := roundBits_zero 1 Nat.one_pos
      have hd : ofDecimal ([0x30] ++ []) = 0 := rfl
      have hs : (⟨f.sign, [0x30], [], false, []⟩ : Number).scale = 0 := rfl
      have hlt : 0 < infBits := by decide
      simp only [Number.toFloat, hd, hs, Int.toNat_zero, neg_zero, pow_zero, Nat.mul_one, hz, h0,
        if_pos hlt]
  · have hrb := shortest_readsBack f.magnitude hn (shortestFuel f.magnitude)
    obtain ⟨d0, ds, z, hstrip, hlen, hval, hd0, hdig⟩ :=
      shortest_digits f.magnitude (Nat.pos_of_ne_zero h0) hn (shortestFuel f.magnitude)
    have hform : formatFloat f = (if f.sign then [0x2D] else []) ++
        (if f.magnitude < roundBits 1 1000000 ∨ roundBits (10 ^ 21) 1 ≤ f.magnitude then
          fmtE (d0 :: ds) ((((d0 :: ds).length + z : Nat) : Int) - (shortest f.magnitude (shortestFuel f.magnitude)).2)
        else
          fmtF (d0 :: ds)
            ((((d0 :: ds).length + z : Nat) : Int) - (shortest f.magnitude (shortestFuel f.magnitude)).2)) := by
      simp only [formatFloat, if_neg h0, hstrip, hlen]
    generalize (shortest f.magnitude (shortestFuel f.magnitude)).2 = j at hrb hform
    generalize (shortest f.magnitude (shortestFuel f.magnitude)).1 = c at hrb hval
    generalize hdp : (((d0 :: ds).length + z : Nat) : Int) - j = dp at hform
    rw [hform]
    have hds' : ∀ b ∈ ds, isDigit b = true := fun b hb => hdig b (List.mem_cons_of_mem _ hb)
    by_cases hE : f.magnitude < roundBits 1 1000000 ∨ roundBits (10 ^ 21) 1 ≤ f.magnitude
    · rw [if_pos hE]
      refine ⟨⟨f.sign, [d0], ds, decide (dp - 1 < 0), decimal (dp - 1).natAbs⟩,
        ⟨?_, ?_, ?_, ?_⟩, fmtE_text f.sign d0 ds dp, ?_⟩
      · exact Or.inr ⟨d0, [], rfl, hd0, fun b hb => by
          rw [List.mem_singleton.mp hb]; exact hdig d0 (List.mem_cons_self _ _)⟩
      · exact hds'
      · exact isDigit_decimal _
      · intro h; exact absurd h (decimal_ne_nil _)
      · apply hback _ rfl
        apply Number.toFloat_of _ f.magnitude c (ofDecimal (d0 :: ds)) z 0 j hn hrb hval
        · simp
        · simp only [Number.scale, ofDecimal_decimal, decide_eq_true_eq]
          simp only [List.length_cons] at hdp
          split_ifs <;> omega
    · rw [if_neg hE]
      by_cases hsmall : dp ≤ 0
      · refine ⟨⟨f.sign, [0x30], List.replicate (-dp).toNat 0x30 ++ d0 :: ds, false, []⟩,
          ⟨Or.inl rfl, ?_, by simp, fun _ => rfl⟩,
          fmtF_text_small f.sign (d0 :: ds) dp (by simp) hsmall, ?_⟩
        · intro b hb
          rcases List.mem_append.mp hb with h | h
          · exact isDigit_zeros _ b h
          · exact hdig b h
        · apply hback _ rfl
          apply Number.toFloat_of _ f.magnitude c (ofDecimal (d0 :: ds)) z 0 j hn hrb hval
          · have : [0x30] ++ (List.replicate (-dp).toNat (0x30 : UInt8) ++ d0 :: ds) =
                List.replicate ((-dp).toNat + 1) 0x30 ++ d0 :: ds := by
              rw [List.replicate_succ]; rfl
            rw [this, ofDecimal_append, ofDecimal_zeros]
            simp
          · simp only [Number.scale, List.length_append, List.length_replicate]
            have : ofDecimal [] = 0 := rfl
            simp only [this, Bool.false_eq_true, if_false]
            push_cast
            omega
      · by_cases hmid : dp < ((d0 :: ds).length : Int)
        · refine ⟨⟨f.sign, (d0 :: ds).take dp.toNat, (d0 :: ds).drop dp.toNat, false, []⟩,
            ⟨?_, ?_, by simp, fun _ => rfl⟩,
            fmtF_text_mid f.sign (d0 :: ds) dp (by omega) hmid, ?_⟩
          · right
            obtain ⟨k, hk⟩ : ∃ k, dp.toNat = k + 1 := ⟨dp.toNat - 1, by omega⟩
            refine ⟨d0, ds.take k, by rw [hk]; rfl, hd0, fun b hb => ?_⟩
            rcases List.mem_cons.mp hb with h | h
            · rw [h]; exact hdig d0 (List.mem_cons_self _ _)
            · exact hds' b (List.mem_of_mem_take h)
          · exact fun b hb => hdig b (List.mem_of_mem_drop hb)
          · apply hback _ rfl
            apply Number.toFloat_of _ f.magnitude c (ofDecimal (d0 :: ds)) z 0 j hn hrb hval
            · simp only [List.take_append_drop, pow_zero, Nat.mul_one]
            · simp only [Number.scale, List.length_drop]
              have : ofDecimal [] = 0 := rfl
              simp only [this, Bool.false_eq_true, if_false]
              omega
        · refine ⟨⟨f.sign, d0 :: ds ++ List.replicate (dp.toNat - (d0 :: ds).length) 0x30, [],
              false, []⟩, ⟨?_, by simp, by simp, fun _ => rfl⟩,
            fmtF_text_big f.sign (d0 :: ds) dp (by omega) (by simp), ?_⟩
          · exact Or.inr ⟨d0, ds ++ List.replicate (dp.toNat - (d0 :: ds).length) 0x30,
              List.cons_append _ _ _, hd0,
              fun b hb => by
                rcases List.mem_cons.mp hb with h | h
                · rw [h]; exact hdig d0 (List.mem_cons_self _ _)
                · rcases List.mem_append.mp h with h | h
                  · exact hds' b h
                  · exact isDigit_zeros _ b h⟩
          · apply hback _ rfl
            apply Number.toFloat_of _ f.magnitude c (ofDecimal (d0 :: ds)) z
              (dp.toNat - (d0 :: ds).length) j hn hrb hval
            · simp only [List.append_nil, ofDecimal_append, ofDecimal_zeros,
                List.length_replicate, Nat.add_zero]
            · simp only [Number.scale, List.length_nil]
              have : ofDecimal [] = 0 := rfl
              simp only [this, Bool.false_eq_true, if_false]
              omega

/-! ## The text of a `Book` reads back -/

theorem skipSpace_cons (c : UInt8) (tl : Bytes) (hc : isSpace c = false) :
    skipSpace (c :: tl) = c :: tl := by
  simp only [skipSpace, hc, Bool.false_eq_true, if_false]

theorem quote_append (s : GoString) (tl : Bytes) :
    quote s ++ tl = 0x22 :: (escapeAux false 0 s ++ 0x22 :: tl) := by
  simp only [quote, List.cons_append, List.append_assoc, List.nil_append]

theorem scanStr_quoted (s : GoString) (tl : Bytes) :
    scanStr ((escapeAux false 0 s ++ 0x22 :: tl).length + 1) 0 (escapeAux false 0 s ++ 0x22 :: tl) =
      some (toValidUTF8 s, tl) :=
  scanStr_quote s _ tl (by simp only [List.length_append, List.length_cons]; omega)

theorem decodeValue_string (field : Option Field) (acc : Book × Bool) (s : GoString)
    (tl : Bytes) :
    decodeValue field acc (skipSpace (quote s ++ tl)) =
      some (storeString field (toValidUTF8 s) acc, tl) := by
  rw [quote_append, skipSpace_cons _ _ (by decide)]
  simp only [decodeValue, if_true, scanStr_quoted]

theorem isSpace_of_number (c : UInt8) (hc : c = 0x2D ∨ isDigit c = true) : isSpace c = false := by
  rcases hc with h | h
  · subst h; rfl
  · revert h
    simp only [isDigit, isSpace, Bool.and_eq_true, decide_eq_true_eq, Bool.or_eq_false_iff,
      beq_eq_false_iff_ne, ne_eq]
    rintro ⟨h1, -⟩
    have hne : ∀ x : UInt8, x < 0x30 → ¬c = x := fun x hx e =>
      absurd (e ▸ h1) (UInt8.not_le.mpr hx)
    exact ⟨⟨⟨hne _ (by decide), hne _ (by decide)⟩, hne _ (by decide)⟩, hne _ (by decide)⟩

theorem quote_of_number (c : UInt8) (hc : c = 0x2D ∨ isDigit c = true) : c ≠ 0x22 := by
  rcases hc with h | h
  · subst h; decide
  · intro e; subst e; exact absurd h (by decide)

theorem decodeValue_number (field : Option Field) (acc : Book × Bool) (t : Number)
    (hw : t.WellFormed) (tl : Bytes) :
    decodeValue field acc (skipSpace (t.text ++ 0x2C :: tl)) =
      some (storeNumber field t acc, 0x2C :: tl) := by
  have hs := scanNumber_text t hw tl
  obtain ⟨c, r, hcr, hc⟩ := t.text_head hw (0x2C :: tl)
  rw [hcr] at hs ⊢
  rw [skipSpace_cons _ _ (isSpace_of_number c hc)]
  simp only [decodeValue, if_neg (quote_of_number c hc), if_pos hc, hs]

theorem decodeMembers_step (fuel : Nat) (acc acc1 : Book × Bool) (name : GoString)
    (hname : toValidUTF8 name = name) (value tl : Bytes)
    (hvalue : decodeValue (fieldOf name) acc (skipSpace (value ++ 0x2C :: tl)) =
      some (acc1, 0x2C :: tl)) :
    decodeMembers (fuel + 1) acc (quote name ++ 0x3A :: (value ++ 0x2C :: tl)) =
      decodeMembers fuel acc1 tl := by
  rw [quote_append, decodeMembers, skipSpace_cons _ _ (by decide)]
  simp only [if_true, scanStr_quoted, hname, skipSpace_cons (0x3A : UInt8) _ (by decide), hvalue,
    skipSpace_cons (0x2C : UInt8) _ (by decide)]

theorem decodeMembers_last (fuel : Nat) (acc acc1 : Book × Bool) (name : GoString)
    (hname : toValidUTF8 name = name) (value : Bytes)
    (hvalue : decodeValue (fieldOf name) acc (skipSpace (value ++ [0x7D])) =
      some (acc1, [0x7D])) :
    decodeMembers (fuel + 1) acc (quote name ++ 0x3A :: (value ++ [0x7D])) = some (acc1, []) := by
  have h7d : ¬((0x7D : UInt8) = 0x2C) := by decide
  rw [quote_append, decodeMembers, skipSpace_cons _ _ (by decide)]
  simp only [if_true, scanStr_quoted, hname, skipSpace_cons (0x3A : UInt8) _ (by decide), hvalue,
    skipSpace_cons (0x7D : UInt8) _ (by decide), if_neg h7d]

theorem goUnmarshal_goMarshal (r : Book) (hfinite : r.Price.isFinite = true)
    (hlo : -9223372036854775808 ≤ r.Number) (hhi : r.Number ≤ 9223372036854775807) :
    ∃ bookJSON, goMarshal r = .ok bookJSON ∧ goUnmarshal bookJSON = .ok r.toValidUTF8 := by
  obtain ⟨tp, hwp, htp, hp⟩ := formatFloat_spec r.Price hfinite
  obtain ⟨tn, hwn, htn, hn⟩ := formatInt_spec r.Number hlo hhi
  refine ⟨_, by rw [goMarshal, if_pos hfinite], ?_⟩
  rw [htp, htn]
  generalize hrest : quote (utf8 "ID") ++ 0x3A :: (quote r.ID ++
      0x2C :: (quote (utf8 "bookName") ++ 0x3A :: (quote r.BookName ++
      0x2C :: (quote (utf8 "author") ++ 0x3A :: (quote r.Author ++
      0x2C :: (quote (utf8 "price") ++ 0x3A :: (tp.text ++
      0x2C :: (quote (utf8 "number") ++ 0x3A :: (tn.text ++
      0x2C :: (quote (utf8 "owner") ++ 0x3A :: (quote r.Owner ++ [0x7D]))))))))))) = rest
  have hlen : ∃ fuel, rest.length + 1 = fuel + 6 := by
    refine ⟨rest.length - 5, ?_⟩
    rw [← hrest]
    simp only [quote, List.length_append, List.length_cons]
    omega
  obtain ⟨fuel, hfuel⟩ := hlen
  have hhead : ∃ tl, rest = 0x22 :: tl := ⟨_, by rw [← hrest, quote_append]⟩
  obtain ⟨tl, htl⟩ := hhead
  have h7d : ¬((0x22 : UInt8) = 0x7D) := by decide
  rw [goUnmarshal, skipSpace_cons _ _ (by decide)]
  simp only [if_true]
  rw [hfuel]
  conv_lhs => rw [htl, skipSpace_cons _ _ (by decide)]
  simp only [if_neg h7d]
  rw [← htl, ← hrest]
  rw [decodeMembers_step _ _ _ _ (by decide) _ _ (decodeValue_string _ _ _ _),
    decodeMembers_step _ _ _ _ (by decide) _ _ (decodeValue_string _ _ _ _),
    decodeMembers_step _ _ _ _ (by decide) _ _ (decodeValue_string _ _ _ _),
    decodeMembers_step _ _ _ _ (by decide) _ _ (decodeValue_number _ _ tp hwp _),
    decodeMembers_step _ _ _ _ (by decide) _ _ (decodeValue_number _ _ tn hwn _),
    decodeMembers_last _ _ _ _ (by decide) _ (decodeValue_string _ _ _ _)]
  have f1 : fieldOf (utf8 "ID") = some .ID := by decide
  have f2 : fieldOf (utf8 "bookName") = some .BookName := by decide
  have f3 : fieldOf (utf8 "author") = some .Author := by decide
  have f4 : fieldOf (utf8 "price") = some .Price := by decide
  have f5 : fieldOf (utf8 "number") = some .Number := by decide
  have f6 : fieldOf (utf8 "owner") = some .Owner := by decide
  simp only [f1, f2, f3, f4, f5, f6, storeString, storeNumber, hp, hn, finish, skipSpace,
    Bool.false_eq_true, if_false, if_true, Book.toValidUTF8, Book.zero]

/-! ## The round trip of the record encoding -/

theorem roundTrip_goJson (r : Book) (hfinite : r.Price.isFinite = true)
    (hlo : -9223372036854775808 ≤ r.Number) (hhi : r.Number ≤ 9223372036854775807) :
    roundTrip goJson r = .ok r.toValidUTF8 := by
  obtain ⟨bookJSON, hm, hu⟩ := goUnmarshal_goMarshal r hfinite hlo hhi
  simp only [roundTrip, goJson, hm, hu]

/-- The text `json.Marshal` writes for the first book of `InitLedger`, byte for byte, and the
book `json.Unmarshal` reads from it. -/
theorem goJson_first_seed :
    goJson.Marshal ⟨utf8 "1001", utf8 "西游记", utf8 "吴承恩", Float64.ofRatio 399 10, 30,
      utf8 "library"⟩ =
      .ok (utf8 ("\x7b\"ID\":\"1001\",\"bookName\":\"西游记\",\"author\":\"吴承恩\"," ++
        "\"price\":39.9,\"number\":30,\"owner\":\"library\"\x7d")) ∧
    goJson.Unmarshal (utf8 ("\x7b\"ID\":\"1001\",\"bookName\":\"西游记\",\"author\":\"吴承恩\"," ++
        "\"price\":39.9,\"number\":30,\"owner\":\"library\"\x7d")) =
      .ok ⟨utf8 "1001", utf8 "西游记", utf8 "吴承恩", Float64.ofRatio 399 10, 30, utf8 "library"⟩ := by
  decide!

/-- What `json.Unmarshal` does with texts `json.Marshal` does not write: names are matched
without regard to case, `null` and unknown members are passed over, a later member replaces an
earlier one; a text that is not one JSON value is a syntax error, a value that does not fit its
field is a type error. -/
theorem goJson_other_texts :
    goJson.Unmarshal (utf8 (" \x7b \"id\" : \"x\\u0041\" , \"BOOKNAME\":null, \"zzz\":[1,\x7b\x7d,true]," ++
      "\"Price\": -1.5e2, \"owner\":\"o\",\"owner\":\"p\"\x7d ")) =
      .ok ⟨utf8 "xA", [], [], (Float64.ofRatio 150 1).neg, 0, utf8 "p"⟩ ∧
    goJson.Unmarshal (utf8 "null") = .ok Book.zero ∧
    goJson.Unmarshal (utf8 "\x7b\"ID\":\"1001\"") = .error (.json 2) ∧
    goJson.Unmarshal (utf8 "\x7b\"ID\":\"1001\",\x7d") = .error (.json 2) ∧
    goJson.Unmarshal (utf8 "\x7b\"ID\":1001\x7d") = .error (.json 3) ∧
    goJson.Unmarshal (utf8 "\x7b\"number\":1.5\x7d") = .error (.json 3) ∧
    goJson.Unmarshal (utf8 "\x7b\"number\":9223372036854775808\x7d") = .error (.json 3) ∧
    goJson.Unmarshal (utf8 "\x7b\"price\":1e999\x7d") = .error (.json 3) ∧
    goJson.Unmarshal (utf8 "[]") = .error (.json 3) := by
  decide!

/-- Counterexample to C16 as stated: a record with the name `caf\xE9` (not valid UTF-8), the
value 12.5 and the quantity 3; encoding succeeds and writes the escape of U+FFFD for the byte
`E9`, and decoding the encoding gives the name `caf` followed by U+FFFD, so not the record
that was encoded. -/
theorem record_round_trip_counterexample :
    (Float64.ofRatio 125 10).isFinite = true ∧ (Float64.ofRatio 125 10).geZero = true ∧
    goJson.Marshal ⟨utf8 "2001", [0x63, 0x61, 0x66, 0xE9], utf8 "x", Float64.ofRatio 125 10,
      3, utf8 "library"⟩ =
      .ok (utf8 ("\x7b\"ID\":\"2001\",\"bookName\":\"caf\\ufffd\",\"author\":\"x\"," ++
        "\"price\":12.5,\"number\":3,\"owner\":\"library\"\x7d")) ∧
    roundTrip goJson ⟨utf8 "2001", [0x63, 0x61, 0x66, 0xE9], utf8 "x", Float64.ofRatio 125 10,
      3, utf8 "library"⟩ =
      .ok ⟨utf8 "2001", [0x63, 0x61, 0x66, 0xEF, 0xBF, 0xBD], utf8 "x", Float64.ofRatio 125 10,
        3, utf8 "library"⟩ ∧
    roundTrip goJson ⟨utf8 "2001", [0x63, 0x61, 0x66, 0xE9], utf8 "x", Float64.ofRatio 125 10,
      3, utf8 "library"⟩ ≠
      .ok ⟨utf8 "2001", [0x63, 0x61, 0x66, 0xE9], utf8 "x", Float64.ofRatio 125 10, 3,
        utf8 "library"⟩ :=
  ⟨by decide, by decide, by decide!,
    (roundTrip_goJson _ (by decide) (by decide) (by decide)).trans (by decide),
    by rw [roundTrip_goJson _ (by decide) (by decide) (by decide)]; decide⟩

/-- C16 (as amended): for every record whose price is finite, of either sign, and whose number
is a Go `int` (64 bits), of either sign, `json.Marshal` succeeds, and `json.Unmarshal` of the
text it returns, into a zero `Book`, gives the record with its four strings coerced to valid
UTF-8, the price and the number unchanged; for a record whose strings are valid UTF-8 this
is the record itself, field by field.  For a price that is an infinity or a NaN
`json.Marshal` fails. -/
theorem record_round_trip (r : Book)
    (hint : -9223372036854775808 ≤ r.Number ∧ r.Number ≤ 9223372036854775807) :
    (r.Price.isFinite = true →
      (∃ bookJSON, goJson.Marshal r = .ok bookJSON) ∧
      roundTrip goJson r =
        .ok ⟨toValidUTF8 r.ID, toValidUTF8 r.BookName, toValidUTF8 r.Author, r.Price, r.Number,
          toValidUTF8 r.Owner⟩ ∧
      (r.ValidStrings → roundTrip goJson r = .ok ⟨r.ID, r.BookName, r.Author, r.Price, r.Number,
        r.Owner⟩)) ∧
    (r.Price.isFinite = false →
      ∃ err, goJson.Marshal r = .error err ∧ roundTrip goJson r = .error err) := by
  constructor
  · intro hfinite
    obtain ⟨bookJSON, hm, -⟩ := goUnmarshal_goMarshal r hfinite hint.1 hint.2
    have hrt := roundTrip_goJson r hfinite hint.1 hint.2
    refine ⟨⟨bookJSON, hm⟩, hrt, fun hv => ?_⟩
    rw [hrt, Book.toValidUTF8_of_valid r hv]
  · intro hnot
    have hm : goJson.Marshal r = .error (.json 1) := by
      simp only [goJson, goMarshal, hnot, Bool.false_eq_true, if_false]
    exact ⟨.json 1, hm, by simp only [roundTrip, hm]⟩

/-- Witness of C16: the first book of the source, with a negated price and number. -/
theorem record_round_trip_witness :
    ((-9223372036854775808 : Int) ≤ -30 ∧ (-30 : Int) ≤ 9223372036854775807) ∧
    (Float64.ofRatio 399 10).neg.isFinite = true ∧
    roundTrip goJson ⟨utf8 "1001", utf8 "西游记", utf8 "吴承恩", (Float64.ofRatio 399 10).neg, -30,
      utf8 "library"⟩ =
      .ok ⟨utf8 "1001", utf8 "西游记", utf8 "吴承恩", (Float64.ofRatio 399 10).neg, -30,
        utf8 "library"⟩ :=
  ⟨by decide, by decide,
    ((record_round_trip
      ⟨utf8 "1001", utf8 "西游记", utf8 "吴承恩", (Float64.ofRatio 399 10).neg, -30,
        utf8 "library"⟩ (by decide)).1 (by decide)).2.2 (by decide)⟩

/-- C19: for a key different from `id`, each of `CreateBook(id, ...)`, `UpdateBook(id, ...)`,
`DeleteBook(id)` and `TransferBook(id, H)`, on any store and whether it returns an error or
not, leaves the value of that key, or its absence, as it was. -/
theorem other_keys_untouched (J : Json) (ctx : Stub) (id other bookName author : GoString)
    (price : Float64) (number : Int) (owner newOwner : GoString) (hne : id ≠ other) :
    lookup other (CreateBook J ctx id bookName author price number owner).2.state =
      lookup other ctx.state ∧
    lookup other (UpdateBook J ctx id bookName author price number owner).2.state =
      lookup other ctx.state ∧
    lookup other (DeleteBook ctx id).2.state = lookup other ctx.state ∧
    lookup other (TransferBook J ctx id newOwner).2.state = lookup other ctx.state := by
  refine ⟨?_, ?_, ?_, ?_⟩
  · rcases CreateBook_state J ctx id bookName author price number owner with h | ⟨bs, -, h⟩
    · rw [h]
    · rw [h, lookup_insert_of_ne _ _ _ _ hne]
  · rcases UpdateBook_state J ctx id bookName author price number owner with h | ⟨bs, -, h⟩
    · rw [h]
    · rw [h, lookup_insert_of_ne _ _ _ _ hne]
  · rcases DeleteBook_state ctx id with h | h
    · rw [h]
    · rw [h, lookup_erase_of_ne _ _ _ hne]
  · rcases TransferBook_state J ctx id newOwner with h | ⟨v, book, bs, -, -, -, h⟩
    · rw [h]
    · rw [h, lookup_insert_of_ne _ _ _ _ hne]

/-- Witness of C19: the book 1002 after calls on the book 1001, one of which fails. -/
theorem other_keys_untouched_witness :
    utf8 "1001" ≠ utf8 "1002" ∧
    lookup (utf8 "1002") (DeleteBook (InitLedger refJson Stub.empty).2 (utf8 "1001")).2.state =
      lookup (utf8 "1002") (InitLedger refJson Stub.empty).2.state ∧
    lookup (utf8 "1002") (TransferBook refJson
      ⟨(InitLedger refJson Stub.empty).2.state, [none, some (.stub 7)], []⟩ (utf8 "1001")
      (utf8 "Alice")).2.state =
      lookup (utf8 "1002") (InitLedger refJson Stub.empty).2.state :=
  ⟨by decide,
    (other_keys_untouched refJson (InitLedger refJson Stub.empty).2 (utf8 "1001") (utf8 "1002")
      [] [] Float64.nan 0 [] [] (by decide)).2.2.1,
    (other_keys_untouched refJson
      ⟨(InitLedger refJson Stub.empty).2.state, [none, some (.stub 7)], []⟩ (utf8 "1001")
      (utf8 "1002") [] [] Float64.nan 0 [] (utf8 "Alice") (by decide)).2.2.2⟩

/-! ## What the reachable stores hold -/

theorem encodes_insert {J : Json} {Q : Float64 → Int → Prop} {st : List (GoString × Bytes)}
    (h : Encodes J Q st) (key : GoString) (value : Bytes) (b : Book)
    (hm : J.Marshal b = .ok value) (hid : toValidUTF8 b.ID = toValidUTF8 key)
    (hq : Q b.Price b.Number) : Encodes J Q (insert key value st) := by
  intro kv hkv
  rcases mem_insert hkv with rfl | hkv
  · exact ⟨b, hm, hid, hq⟩
  · exact h kv hkv

theorem encodes_putAll {J : Json} {Q : Float64 → Int → Prop} (books : List Book)
    (hm : ∀ b ∈ books, J.Marshal b = .ok (marshalled J b))
    (hq : ∀ b ∈ books, Q b.Price b.Number) {st : List (GoString × Bytes)}
    (h : Encodes J Q st) : Encodes J Q (putAll J books st) := by
  intro kv hkv
  rcases mem_putAll J books st kv hkv with hkv | ⟨b, hb, rfl⟩
  · exact h kv hkv
  · exact ⟨b, hm b hb, rfl, hq b hb⟩

theorem encodes_run {J : Json} (hJ : GoJson J) {Q : Float64 → Int → Prop}
    (hseed : ∀ b ∈ seedBooks, Q b.Price b.Number) (op : Op) (hop : op.ArgsSatisfy Q)
    (ctx : Stub) (h : Encodes J Q ctx.state) : Encodes J Q (op.run J ctx).state := by
  cases op with
  | initLedger =>
    obtain ⟨n, -, hst, hall, -⟩ := InitLedgerLoop_state J seedBooks ctx
    show Encodes J Q (InitLedgerLoop J seedBooks ctx).2.state
    rw [hst]
    exact encodes_putAll _ hall (fun b hb => hseed b (List.mem_of_mem_take hb)) h
  | createBook id bookName author price number owner =>
    show Encodes J Q (CreateBook J ctx id bookName author price number owner).2.state
    rcases CreateBook_state J ctx id bookName author price number owner with hs | ⟨bs, hm, hs⟩
    · rw [hs]; exact h
    · rw [hs]; exact encodes_insert h id bs _ hm rfl hop
  | updateBook id bookName author price number owner =>
    show Encodes J Q (UpdateBook J ctx id bookName author price number owner).2.state
    rcases UpdateBook_state J ctx id bookName author price number owner with hs | ⟨bs, hm, hs⟩
    · rw [hs]; exact h
    · rw [hs]; exact encodes_insert h id bs _ hm rfl hop
  | deleteBook id =>
    show Encodes J Q (DeleteBook ctx id).2.state
    rcases DeleteBook_state ctx id with hs | hs
    · rw [hs]; exact h
    · rw [hs]; exact fun kv hkv => h kv (mem_erase hkv)
  | transferBook id newOwner =>
    show Encodes J Q (TransferBook J ctx id newOwner).2.state
    rcases TransferBook_state J ctx id newOwner with hs | ⟨v, book, bs, hv, hu, hm, hs⟩
    · rw [hs]; exact h
    · obtain ⟨b0, hm0, hid0, hq0⟩ := h (id, v) (mem_of_lookup hv)
      have hbook : book = b0.toValidUTF8 := by
        have h1 := hJ.unmarshal_marshal b0 v hm0
        rw [hu] at h1
        exact Except.ok.inj h1
      rw [hs]
      refine encodes_insert h id bs _ hm ?_ ?_
      · show toValidUTF8 book.ID = toValidUTF8 id
        rw [hbook]
        show toValidUTF8 (toValidUTF8 b0.ID) = toValidUTF8 id
        rw [toValidUTF8_idem, hid0]
      · show Q book.Price book.Number
        rw [hbook]
        exact hq0

theorem encodes_runOps {J : Json} (hJ : GoJson J) {Q : Float64 → Int → Prop}
    (hseed : ∀ b ∈ seedBooks, Q b.Price b.Number) (ops : List Op) :
    ∀ ctx : Stub, (∀ op ∈ ops, op.ArgsSatisfy Q) → Encodes J Q ctx.state →
      Encodes J Q (runOps J ops ctx).state := by
  induction ops with
  | nil => intro ctx _ h; exact h
  | cons op rest ih =>
    intro ctx hops h
    exact ih _ (fun o ho => hops o (List.mem_cons_of_mem _ ho))
      (encodes_run hJ hseed op (hops op (List.mem_cons_self _ _)) ctx h)

theorem encodes_nil (J : Json) (Q : Float64 → Int → Prop) : Encodes J Q [] := by
  intro kv hkv
  cases hkv

theorem decode_of_encodes {J : Json} (hJ : GoJson J) {Q : Float64 → Int → Prop}
    {st : List (GoString × Bytes)} (h : Encodes J Q st) :
    ∀ kv ∈ st, ∃ r : Book, J.Unmarshal kv.2 = .ok r ∧ r.ID = toValidUTF8 kv.1 ∧
      Q r.Price r.Number := by
  intro kv hkv
  obtain ⟨b, hm, hid, hq⟩ := h kv hkv
  exact ⟨b.toValidUTF8, hJ.unmarshal_marshal b kv.2 hm, hid, hq⟩

/-- Counterexample to C17 as stated: `CreateBook` on the empty store with the value -12.5 and
the quantity -5 succeeds, and the store then holds under 2001 a record with that negative
value and that negative quantity. -/
theorem reachable_nonneg_counterexample :
    (CreateBook refJson Stub.empty (utf8 "2001") (utf8 "x") (utf8 "y")
      (Float64.ofRatio 125 10).neg (-5) (utf8 "z")).1 = none ∧
    (QueryBook refJson (runOps refJson [.createBook (utf8 "2001") (utf8 "x") (utf8 "y")
      (Float64.ofRatio 125 10).neg (-5) (utf8 "z")] Stub.empty) (utf8 "2001")).1 =
      .ok ⟨utf8 "2001", utf8 "x", utf8 "y", (Float64.ofRatio 125 10).neg, -5, utf8 "z"⟩ ∧
    (Float64.ofRatio 125 10).neg.geZero = false ∧ (-5 : Int) < 0 := by
  decide

/-- C17 (as amended): in every store reached from an empty store by any sequence of
`InitLedger`, `CreateBook`, `UpdateBook`, `TransferBook` and `DeleteBook` calls, failed calls
included, in which every value and quantity passed to `CreateBook` and `UpdateBook` is
non-negative, every stored value decodes to a record with value `>= 0` and quantity `>= 0`.
The contract itself never checks the sign of a value or a quantity. -/
theorem reachable_nonneg (J : Json) (hJ : GoJson J) (ctx : Stub) (ops : List Op)
    (hempty : ctx.state = []) (hargs : ∀ op ∈ ops, op.NonNegArgs) :
    ∀ kv ∈ (runOps J ops ctx).state, ∃ r : Book, J.Unmarshal kv.2 = .ok r ∧
      r.Price.geZero = true ∧ 0 ≤ r.Number := by
  have hinv : Encodes J (fun price number => price.geZero = true ∧ 0 ≤ number)
      (runOps J ops ctx).state :=
    encodes_runOps hJ (by decide) ops ctx hargs (by rw [hempty]; exact encodes_nil _ _)
  intro kv hkv
  obtain ⟨r, hr, -, hq⟩ := decode_of_encodes hJ hinv kv hkv
  exact ⟨r, hr, hq⟩

/-- Witness of C17: `InitLedger`, a `CreateBook` with the value 12.5 and the quantity 0, a
`TransferBook` and a `DeleteBook` on the empty store. -/
theorem reachable_nonneg_witness :
    Stub.empty.state = [] ∧
    (∀ op ∈ [Op.initLedger, .createBook (utf8 "2001") (utf8 "x") (utf8 "y")
      (Float64.ofRatio 125 10) 0 (utf8 "z"), .transferBook (utf8 "2001") (utf8 "Alice"),
      .deleteBook (utf8 "1001")], op.NonNegArgs) ∧
    ∀ kv ∈ (runOps refJson [Op.initLedger, .createBook (utf8 "2001") (utf8 "x") (utf8 "y")
      (Float64.ofRatio 125 10) 0 (utf8 "z"), .transferBook (utf8 "2001") (utf8 "Alice"),
      .deleteBook (utf8 "1001")] Stub.empty).state,
      ∃ r : Book, refJson.Unmarshal kv.2 = .ok r ∧ r.Price.geZero = true ∧ 0 ≤ r.Number :=
  have hargs : ∀ op ∈ [Op.initLedger, .createBook (utf8 "2001") (utf8 "x") (utf8 "y")
      (Float64.ofRatio 125 10) 0 (utf8 "z"), .transferBook (utf8 "2001") (utf8 "Alice"),
      .deleteBook (utf8 "1001")], op.NonNegArgs := by
    intro op hop
    simp only [List.mem_cons, List.mem_singleton, List.not_mem_nil, or_false] at hop
    rcases hop with rfl | rfl | rfl | rfl
    · trivial
    · exact ⟨by decide, by decide⟩
    · trivial
    · trivial
  ⟨rfl, hargs, reachable_nonneg refJson refJson_goJson Stub.empty _ rfl hargs⟩

/-- Counterexample to C18 as stated: `CreateBook` on the empty store with the id `caf\xE9`
(not valid UTF-8) succeeds; the value stored under that key decodes to a record whose id is
`caf` followed by U+FFFD, which is not the key. -/
theorem reachable_id_matches_key_counterexample :
    (CreateBook refJson Stub.empty [0x63, 0x61, 0x66, 0xE9] (utf8 "x") (utf8 "y")
      (Float64.ofRatio 125 10) 3 (utf8 "z")).1 = none ∧
    (QueryBook refJson (runOps refJson [.createBook [0x63, 0x61, 0x66, 0xE9] (utf8 "x")
      (utf8 "y") (Float64.ofRatio 125 10) 3 (utf8 "z")] Stub.empty)
      [0x63, 0x61, 0x66, 0xE9]).1 =
      .ok ⟨[0x63, 0x61, 0x66, 0xEF, 0xBF, 0xBD], utf8 "x", utf8 "y", Float64.ofRatio 125 10, 3,
        utf8 "z"⟩ ∧
    ([0x63, 0x61, 0x66, 0xEF, 0xBF, 0xBD] : GoString) ≠ [0x63, 0x61, 0x66, 0xE9] := by
  decide

/-- C18 (as amended): in every store reached from an empty store by any sequence of
`InitLedger`, `CreateBook`, `UpdateBook`, `TransferBook` and `DeleteBook` calls, failed calls
included, every stored value decodes to a record whose id is the key coerced to valid UTF-8,
so the key itself whenever the key is valid UTF-8.  `TransferBook` writes back the id it
decoded: on any store whose calls succeed, the record read after it has the id of the record
read before it, equal to the key or not. -/
theorem reachable_id_matches_key (J : Json) (hJ : GoJson J) (ctx : Stub) (ops : List Op)
    (hempty : ctx.state = []) :
    (∀ kv ∈ (runOps J ops ctx).state, ∃ r : Book, J.Unmarshal kv.2 = .ok r ∧
      r.ID = toValidUTF8 kv.1 ∧ (ValidUTF8 kv.1 → r.ID = kv.1)) ∧
    (∀ (c : Stub) (id newOwner : GoString) (r : Book), c.Healthy →
      (QueryBook J c id).1 = .ok r →
      ∃ r1 : Book, (QueryBook J (TransferBook J c id newOwner).2 id).1 = .ok r1 ∧
        r1.ID = r.ID) := by
  constructor
  · have hinv : Encodes J (fun _ _ => True) (runOps J ops ctx).state :=
      encodes_runOps hJ (fun _ _ => trivial) ops ctx
        (fun op _ => by cases op <;> trivial) (by rw [hempty]; exact encodes_nil _ _)
    intro kv hkv
    obtain ⟨r, hr, hid, -⟩ := decode_of_encodes hJ hinv kv hkv
    exact ⟨r, hr, hid, fun hv => hid.trans hv⟩
  · intro c id newOwner r hc hq
    obtain ⟨v, hv, hu⟩ := QueryBook_eq_ok hq
    obtain ⟨⟨h1, -, -, -⟩, hfin⟩ := hJ.unmarshal_valid v r hu
    have hm := marshalled_eq hJ { r with Owner := newOwner } hfin
    obtain ⟨-, t2, t3⟩ := TransferBook_spec J hc id newOwner v _ r hv hu hm
    obtain ⟨q1, -, -⟩ := QueryBook_spec J t3 id _
      (by rw [t2]; exact lookup_insert_self _ _ _)
    rw [hJ.unmarshal_marshal _ _ hm] at q1
    exact ⟨_, q1, h1⟩

/-- Witness of C18: `InitLedger`, a `CreateBook`, a `TransferBook` and a `DeleteBook` on the
empty store. -/
theorem reachable_id_matches_key_witness :
    GoJson refJson ∧ Stub.empty.state = [] ∧
    ∀ kv ∈ (runOps refJson [Op.initLedger, .createBook (utf8 "2001") (utf8 "x") (utf8 "y")
      (Float64.ofRatio 125 10) 0 (utf8 "z"), .transferBook (utf8 "2001") (utf8 "Alice"),
      .deleteBook (utf8 "1001")] Stub.empty).state,
      ∃ r : Book, refJson.Unmarshal kv.2 = .ok r ∧ r.ID = toValidUTF8 kv.1 ∧
        (ValidUTF8 kv.1 → r.ID = kv.1) :=
  ⟨refJson_goJson, rfl, (reachable_id_matches_key refJson refJson_goJson Stub.empty _ rfl).1⟩

/-! ## `UpdateBook` and the old value -/

theorem pass_of_sorted {front back : List (GoString × Bytes)} {id : GoString} {v : Bytes}
    (h : SortedKeys (front ++ (id, v) :: back)) :
    ∀ a ∈ front, keyLt id a.1 = false ∧ a.1 ≠ id := by
  intro a ha
  have hlt : keyLt a.1 id = true :=
    (List.pairwise_append.1 h).2.2 a ha (id, v) (List.mem_cons_self _ _)
  exact ⟨keyLt_asymm _ _ hlt, keyLt_ne _ _ hlt⟩

theorem lookup_append_of_pass (id : GoString) (v : Bytes) (front back : List (GoString × Bytes))
    (h : ∀ a ∈ front, keyLt id a.1 = false ∧ a.1 ≠ id) :
    lookup id (front ++ (id, v) :: back) = some v := by
  induction front with
  | nil => simp [lookup]
  | cons kv tl ih =>
    obtain ⟨k, w⟩ := kv
    have hk := (h (k, w) (List.mem_cons_self _ _)).2
    simp only at hk
    show lookup id ((k, w) :: (tl ++ (id, v) :: back)) = some v
    simp only [lookup, hk, if_false]
    exact ih (fun a ha => h a (List.mem_cons_of_mem _ ha))

theorem UpdateBook_replace (J : Json) (front back : List (GoString × Bytes))
    (id bookName author : GoString) (price : Float64) (number : Int) (owner : GoString)
    (v : Bytes) (faults : List (Option Error)) (trace : List Call)
    (hpass : ∀ a ∈ front, keyLt id a.1 = false ∧ a.1 ≠ id) :
    UpdateBook J ⟨front ++ (id, v) :: back, faults, trace⟩ id bookName author price number
        owner =
      match faults.headD none with
      | some e =>
        (some (.readFailed e), ⟨front ++ (id, v) :: back, faults.tail, trace ++ [.getState id]⟩)
      | none =>
        match J.Marshal ⟨id, bookName, author, price, number, owner⟩ with
        | .error err =>
          (some err, ⟨front ++ (id, v) :: back, faults.tail, trace ++ [.getState id]⟩)
        | .ok bookJSON =>
          match faults.tail.headD none with
          | some e =>
            (some e, ⟨front ++ (id, v) :: back, faults.tail.tail,
              trace ++ [.getState id] ++ [.putState id bookJSON]⟩)
          | none =>
            (none, ⟨front ++ (id, bookJSON) :: back, faults.tail.tail,
              trace ++ [.getState id] ++ [.putState id bookJSON]⟩) := by
  have hl := lookup_append_of_pass id v front back hpass
  have hb : (some v != none) = true := rfl
  rcases ho : faults.headD none with _ | e
  · have ho1 : Stub.outcome ⟨front ++ (id, v) :: back, faults, trace⟩ = none := ho
    simp only [UpdateBook, BookExists_of_ok ho1, hl, hb]
    rcases J.Marshal ⟨id, bookName, author, price, number, owner⟩ with err | bookJSON
    · rfl
    · simp only
      rcases ho2 : faults.tail.headD none with _ | e2
      · have ho3 : Stub.outcome ⟨front ++ (id, v) :: back, faults.tail,
            trace ++ [.getState id]⟩ = none := ho2
        simp only [Stub.step, Stub.PutState, ho3, insert_append_of_pass _ _ _ _ hpass,
          insert_cons_self]
      · have ho3 : Stub.outcome ⟨front ++ (id, v) :: back, faults.tail,
            trace ++ [.getState id]⟩ = some e2 := ho2
        simp only [Stub.step, Stub.PutState, ho3]
  · have ho1 : Stub.outcome ⟨front ++ (id, v) :: back, faults, trace⟩ = some e := ho
    simp only [UpdateBook, BookExists_of_fault ho1, Stub.step]

/-- Counterexample to C20 as stated: two stores that hold under 1001 the bytes `{`, which do
not decode, and the bytes `old`, and differ in nothing else; `UpdateBook` of 1001 with the
value NaN fails on both, so it does not succeed where the old bytes do not decode, and the
two resulting stores are not the same: each still holds its old bytes. -/
theorem update_ignores_old_value_counterexample :
    refJson.Unmarshal (utf8 "\x7b") = .error (.json 2) ∧
    (UpdateBook refJson ⟨[(utf8 "1001", utf8 "\x7b")], [], []⟩ (utf8 "1001") (utf8 "x") (utf8 "y")
      Float64.nan 1 (utf8 "z")).1 = some (.json 1) ∧
    (UpdateBook refJson ⟨[(utf8 "1001", utf8 "\x7b")], [], []⟩ (utf8 "1001") (utf8 "x") (utf8 "y")
      Float64.nan 1 (utf8 "z")).2.state = [(utf8 "1001", utf8 "\x7b")] ∧
    (UpdateBook refJson ⟨[(utf8 "1001", utf8 "old")], [], []⟩ (utf8 "1001") (utf8 "x")
      (utf8 "y") Float64.nan 1 (utf8 "z")).2.state = [(utf8 "1001", utf8 "old")] ∧
    (UpdateBook refJson ⟨[(utf8 "1001", utf8 "\x7b")], [], []⟩ (utf8 "1001") (utf8 "x") (utf8 "y")
      Float64.nan 1 (utf8 "z")).2.state ≠
    (UpdateBook refJson ⟨[(utf8 "1001", utf8 "old")], [], []⟩ (utf8 "1001") (utf8 "x")
      (utf8 "y") Float64.nan 1 (utf8 "z")).2.state := by
  decide

/-- C20 (as amended): for two stores with ascending keys that hold the values `v1` and `v2`
under `id` and are the same otherwise, `UpdateBook(id, ...)` returns the same result, and
when it succeeds it leaves the same store behind (when it fails, each store keeps its
value).  In particular, when every store call succeeds and the price is finite,
`UpdateBook` succeeds and `QueryBook(id)` then returns the book of the new arguments (its
strings coerced to valid UTF-8), also when `v1` does not decode, in which case
`TransferBook(id, H)` fails with the error of `json.Unmarshal`. -/
theorem update_ignores_old_value (J : Json) (hJ : GoJson J)
    (front back : List (GoString × Bytes)) (id bookName author : GoString) (price : Float64)
    (number : Int) (owner : GoString) (v1 v2 : Bytes) (faults : List (Option Error))
    (trace : List Call) (hsorted : SortedKeys (front ++ (id, v1) :: back)) :
    (UpdateBook J ⟨front ++ (id, v1) :: back, faults, trace⟩ id bookName author price number
        owner).1 =
      (UpdateBook J ⟨front ++ (id, v2) :: back, faults, trace⟩ id bookName author price number
        owner).1 ∧
    ((UpdateBook J ⟨front ++ (id, v1) :: back, faults, trace⟩ id bookName author price number
        owner).1 = none →
      (UpdateBook J ⟨front ++ (id, v1) :: back, faults, trace⟩ id bookName author price number
        owner).2 =
      (UpdateBook J ⟨front ++ (id, v2) :: back, faults, trace⟩ id bookName author price number
        owner).2) ∧
    ((∀ o ∈ faults, o = none) → price.isFinite = true →
      (UpdateBook J ⟨front ++ (id, v1) :: back, faults, trace⟩ id bookName author price number
        owner).1 = none ∧
      (QueryBook J (UpdateBook J ⟨front ++ (id, v1) :: back, faults, trace⟩ id bookName author
        price number owner).2 id).1 =
        .ok (Book.toValidUTF8 ⟨id, bookName, author, price, number, owner⟩) ∧
      ∀ (err : Error) (newOwner : GoString), J.Unmarshal v1 = .error err →
        (TransferBook J ⟨front ++ (id, v1) :: back, faults, trace⟩ id newOwner).1 =
          some err) := by
  have hpass := pass_of_sorted hsorted
  refine ⟨?_, ?_, ?_⟩
  · rw [UpdateBook_replace J front back id bookName author price number owner v1 faults trace
      hpass, UpdateBook_replace J front back id bookName author price number owner v2 faults
      trace hpass]
    rcases faults.headD none with _ | e
    · rcases J.Marshal ⟨id, bookName, author, price, number, owner⟩ with err | bookJSON
      · rfl
      · rcases faults.tail.headD none with _ | e2 <;> rfl
    · rfl
  · rw [UpdateBook_replace J front back id bookName author price number owner v1 faults trace
      hpass, UpdateBook_replace J front back id bookName author price number owner v2 faults
      trace hpass]
    rcases faults.headD none with _ | e
    · rcases J.Marshal ⟨id, bookName, author, price, number, owner⟩ with err | bookJSON
      · intro h; cases h
      · rcases faults.tail.headD none with _ | e2
        · intro _; rfl
        · intro h; cases h
    · intro h; cases h
  · intro hhealthy hfinite
    have hh : (Stub.mk (front ++ (id, v1) :: back) faults trace).Healthy := hhealthy
    have hl := lookup_append_of_pass id v1 front back hpass
    obtain ⟨bs, hbs⟩ := hJ.marshal_finite ⟨id, bookName, author, price, number, owner⟩ hfinite
    have hu := UpdateBook_of_healthy J hh ⟨id, bookName, author, price, number, owner⟩ v1 bs
      hl hbs
    simp only at hu
    have hq := QueryBook_of_healthy J (Stub.healthy_after_two hh
      (insert id bs (front ++ (id, v1) :: back))
      (trace ++ [.getState id, .putState id bs])) id bs (lookup_insert_self id bs _)
    rw [hu, hq, hJ.unmarshal_marshal _ _ hbs]
    refine ⟨rfl, rfl, fun err newOwner herr => ?_⟩
    have hq1 := QueryBook_of_healthy J hh id v1 hl
    rw [TransferBook_of_query_error J _ id newOwner err (by rw [hq1, herr])]

/-- Witness of C20: the store left by `InitLedger` with the value of 1003 replaced by the
bytes `{`, against the store left by `InitLedger`. -/
theorem update_ignores_old_value_witness :
    GoJson refJson ∧
    SortedKeys ((InitLedger refJson Stub.empty).2.state.take 2 ++ (utf8 "1003", utf8 "\x7b") ::
      (InitLedger refJson Stub.empty).2.state.drop 3) ∧
    refJson.Unmarshal (utf8 "\x7b") = .error (.json 2) ∧
    (UpdateBook refJson ⟨(InitLedger refJson Stub.empty).2.state.take 2 ++
      (utf8 "1003", utf8 "\x7b") :: (InitLedger refJson Stub.empty).2.state.drop 3, [], []⟩
      (utf8 "1003") (utf8 "边城") (utf8 "沈从文") (Float64.ofRatio 125 10) 3 (utf8 "Bob")).1 =
      none ∧
    (TransferBook refJson ⟨(InitLedger refJson Stub.empty).2.state.take 2 ++
      (utf8 "1003", utf8 "\x7b") :: (InitLedger refJson Stub.empty).2.state.drop 3, [], []⟩
      (utf8 "1003") (utf8 "Alice")).1 = some (.json 2) :=
  have h := (update_ignores_old_value refJson refJson_goJson
    ((InitLedger refJson Stub.empty).2.state.take 2)
    ((InitLedger refJson Stub.empty).2.state.drop 3) (utf8 "1003") (utf8 "边城") (utf8 "沈从文")
    (Float64.ofRatio 125 10) 3 (utf8 "Bob") (utf8 "\x7b")
    ((refMarshal ⟨utf8 "1003", utf8 "三国演义", utf8 "罗贯中", Float64.ofRatio 299 10, 10,
      utf8 "library"⟩).toOption.getD []) [] [] (by decide)).2.2 (by decide) (by decide)
  ⟨refJson_goJson, by decide, by decide, h.1, h.2.2 (.json 2) (utf8 "Alice") (by decide)⟩

end LibraryChaincode
